import Mathlib

/-!
# K-Medoids (PAM) clustering: `ccore/src/cluster/kmedoids.cpp`

A shallow embedding of the C++ solver `pyclustering::clst::kmedoids`.

* `double` values are rationals (`ℚ`); the sentinel
  `std::numeric_limits<double>::max()` is the rational `DBL_MAX`.  The embedding adds and
  subtracts exactly; the namespace `binary64` holds the same functions with every addition
  and subtraction rounded to the nearest `double`.  Infinities and NaN are outside both.
* `std::size_t` values are natural numbers; the places where the source relies on
  the 64-bit wrap-around (`INVALID_INDEX`, `index_sequence(n, -1)`, the backward scan
  of `erase_empty_clusters`) are written out: `SIZE_MAX` is `2 ^ 64 - 1` and `size_t_pred`
  is the decrement modulo `2 ^ 64`.
* An access outside a `std::vector` (undefined behaviour in C++) makes the embedded
  function return `none`.
* `parallel_for` bodies write disjoint slots and read only data that is not written
  in the same pass, so each pass is embedded as the sequential pass over `0 .. n-1`.
-/

namespace kmedoids

/-! ## Data model -/

abbrev point := List ℚ
abbrev dataset := List point
abbrev medoid_sequence := List Nat
abbrev cluster := List Nat
abbrev cluster_sequence := List cluster
abbrev index_sequence := List Nat

/-- The external metric `distance_metric<point>`: a callable on two points. -/
abbrev distance_metric := point → point → ℚ

/-- The bound `m_calculator`: distance between two indices; `none` for an access out of range. -/
abbrev distance_calculator := Nat → Nat → Option ℚ

/-- Modelled from the spec: the enum `data_t` is declared in a header that is not part of the
sources at hand; it has the two kinds `POINTS` and `DISTANCE_MATRIX`.  `unknown code` stands for
any other value cast into the enum (the `else` branch of `create_distance_calculator`). -/
inductive data_t where
  | POINTS
  | DISTANCE_MATRIX
  | unknown (code : Nat)
deriving DecidableEq

/-- The result object `kmedoids_data` (clusters, medoids, total deviation, iterations). -/
structure kmedoids_data where
  clusters : cluster_sequence
  medoids : medoid_sequence
  total_deviation : ℚ
  iterations : Nat
deriving DecidableEq

/-- Modelled from the spec: a result object "created empty by the caller"
(the default constructor of `kmedoids_data` is declared in a header that is not at hand). -/
def kmedoids_data.empty : kmedoids_data :=
  { clusters := [], medoids := [], total_deviation := 0, iterations := 0 }

/-- `std::numeric_limits<std::size_t>::max()` on a 64-bit target. -/
def SIZE_MAX : Nat := 2 ^ 64 - 1

/-- `std::numeric_limits<double>::max()`, i.e. `2^1024 - 2^971`. -/
@[irreducible] def DBL_MAX : ℚ := 179769313486231570814527423731704356798070567525844996598917476803157260780028538760589558632766878171540458953514382464234321326889464182768467546703537516986049910576551282076245490090389328944075868508455133942304583236903222948165808559332123348274797826204144723168738177180919299881250404026184124858368

/-- The `double` that the literal `0.0001` denotes: `7378697629483821 / 2 ^ 66`. -/
def DEFAULT_TOLERANCE : ℚ := 7378697629483821 / 73786976294838206464
def DEFAULT_ITERMAX : Nat := 100
def OBJECT_ALREADY_CONTAINED : Nat := SIZE_MAX
def INVALID_INDEX : Nat := SIZE_MAX
def NOTHING_TO_SWAP : ℚ := DBL_MAX

/-- The nested struct `kmedoids::appropriate_cluster`. -/
structure appropriate_cluster where
  m_index : Nat
  m_distance_to_first_medoid : ℚ
  m_distance_to_second_medoid : ℚ
deriving DecidableEq

/-- The solver as built by the constructor `kmedoids::kmedoids`. -/
structure solver where
  m_initial_medoids : medoid_sequence
  m_tolerance : ℚ
  m_itermax : Nat
  m_metric : distance_metric

/-- The mutable part of a run: the caller's result object (`*m_result_ptr`) and the
three per-point members of the solver. -/
structure state where
  result : kmedoids_data
  m_labels : index_sequence
  m_distance_first_medoid : List ℚ
  m_distance_second_medoid : List ℚ
deriving DecidableEq

/-- What a call of `kmedoids::process` does: it returns, it throws `std::invalid_argument`
(`result` is then the caller's result object as the throw leaves it), or it runs into
undefined behaviour (an access out of range). -/
inductive outcome where
  | returned (result : kmedoids_data)
  | invalid_argument (code : Nat) (result : kmedoids_data)
  | undefined
deriving DecidableEq

/-! ## Distance provider -/

def calculate_distance_using_points (m_metric : distance_metric) (data : dataset)
    (p_index1 p_index2 : Nat) : Option ℚ := do
  let a ← data[p_index1]?
  let b ← data[p_index2]?
  pure (m_metric a b)

def calculate_distance_using_distance_matrix (data : dataset)
    (p_index1 p_index2 : Nat) : Option ℚ := do
  let row ← data[p_index1]?
  row[p_index2]?

/-- `create_distance_calculator`: binds `m_calculator`, or throws with the type code. -/
def create_distance_calculator (m_metric : distance_metric) (data : dataset) :
    data_t → Except Nat distance_calculator
  | data_t.POINTS => Except.ok (calculate_distance_using_points m_metric data)
  | data_t.DISTANCE_MATRIX => Except.ok (calculate_distance_using_distance_matrix data)
  | data_t.unknown code => Except.error code

/-! ## Assignment engine -/

/-- Body of the loop of `find_appropriate_cluster` for the slot `index`. -/
def find_step (m_calculator : distance_calculator) (p_index : Nat) (p_medoids : medoid_sequence)
    (acc : appropriate_cluster) (index : Nat) : Option appropriate_cluster := do
  let index_medoid ← p_medoids[index]?
  let distance ← m_calculator p_index index_medoid
  if distance < acc.m_distance_to_first_medoid then
    pure { m_index := index,
           m_distance_to_first_medoid := distance,
           m_distance_to_second_medoid := acc.m_distance_to_first_medoid }
  else if distance < acc.m_distance_to_second_medoid then
    pure { acc with m_distance_to_second_medoid := distance }
  else
    pure acc

def find_appropriate_cluster (m_calculator : distance_calculator) (p_index : Nat)
    (p_medoids : medoid_sequence) : Option appropriate_cluster :=
  (List.range p_medoids.length).foldlM (find_step m_calculator p_index p_medoids)
    { m_index := INVALID_INDEX,
      m_distance_to_first_medoid := DBL_MAX,
      m_distance_to_second_medoid := DBL_MAX }

/-- A `parallel_for` over the given indices whose iteration `i` fills slot `i` of a fresh
vector with `f i`. -/
def parallel_collect {α : Type} (f : Nat → Option α) : List Nat → Option (List α)
  | [] => some []
  | i :: rest => do
    let a ← f i
    let others ← parallel_collect f rest
    pure (a :: others)

/-- The write `v[index] = x`. -/
def write_at {α : Type} (v : List α) (index : Nat) (x : α) : Option (List α) :=
  if index < v.length then some (v.set index x) else none

/-- The call `clusters[index].push_back(p)`. -/
def push_back_at (clusters : cluster_sequence) (index p : Nat) : Option cluster_sequence := do
  let c ← clusters[index]?
  pure (clusters.set index (c ++ [p]))

/-- Body of the sequential loop of `update_clusters` for the point `index_point`;
the accumulator is the running `total_deviation` and the state. -/
def update_step (cluster_markers : List appropriate_cluster) (acc : ℚ × state)
    (index_point : Nat) : Option (ℚ × state) := do
  let marker ← cluster_markers[index_point]?
  let index_optim := marker.m_index
  let total_deviation := acc.1 + marker.m_distance_to_first_medoid
  let labels ← write_at acc.2.m_labels index_point index_optim
  let clusters ← push_back_at acc.2.result.clusters index_optim index_point
  let first ← write_at acc.2.m_distance_first_medoid index_point marker.m_distance_to_first_medoid
  let second ← write_at acc.2.m_distance_second_medoid index_point marker.m_distance_to_second_medoid
  pure (total_deviation,
    { result := { acc.2.result with clusters := clusters },
      m_labels := labels,
      m_distance_first_medoid := first,
      m_distance_second_medoid := second })

/-- `update_clusters` over a dataset of `size` points: returns the total deviation and the
state with clusters, labels and both distance arrays rewritten. -/
def update_clusters (size : Nat) (m_calculator : distance_calculator) (st : state) :
    Option (ℚ × state) := do
  let medoids := st.result.medoids
  let cleared : state :=
    { st with result := { st.result with clusters := List.replicate medoids.length [] } }
  let cluster_markers ←
    parallel_collect (fun p_index => find_appropriate_cluster m_calculator p_index medoids)
      (List.range size)
  (List.range size).foldlM (update_step cluster_markers) (0, cleared)

/-! ## Swap evaluator -/

/-- Body of the loop of `calculate_swap_cost` for `index_point`: the sequential variant, which
is compiled when `PARALLEL_KMEDOIDS_CALCULATE_SWAP_COST` is not defined (the parallel variant
adds up the same terms). -/
def swap_cost_step (m_calculator : distance_calculator) (st : state)
    (p_index_candidate p_index_cluster : Nat) (cost : ℚ) (index_point : Nat) : Option ℚ :=
  if index_point = p_index_candidate then
    pure cost
  else do
    let candidate_distance ← m_calculator index_point p_index_candidate
    let label ← st.m_labels[index_point]?
    if label = p_index_cluster then do
      let second ← st.m_distance_second_medoid[index_point]?
      let first ← st.m_distance_first_medoid[index_point]?
      pure (cost + (min candidate_distance second - first))
    else do
      let first ← st.m_distance_first_medoid[index_point]?
      if candidate_distance < first then
        pure (cost + (candidate_distance - first))
      else
        pure cost

def calculate_swap_cost (size : Nat) (m_calculator : distance_calculator) (st : state)
    (p_index_candidate p_index_cluster : Nat) : Option ℚ := do
  let cost ← (List.range size).foldlM
    (swap_cost_step m_calculator st p_index_candidate p_index_cluster) 0
  let first ← st.m_distance_first_medoid[p_index_candidate]?
  pure (cost - first)

/-- The local struct `optimal_chunk` of `swap_medoids`. -/
structure optimal_chunk where
  cost : ℚ
  index_medoid : Nat
deriving DecidableEq

/-- Body of the candidate loop of `swap_medoids` for one cluster. -/
def chunk_step (size : Nat) (m_calculator : distance_calculator) (st : state)
    (index_cluster : Nat) (chunk : optimal_chunk) (candidate_medoid_index : Nat) :
    Option optimal_chunk :=
  if candidate_medoid_index ∈ st.result.medoids then
    pure chunk
  else do
    let first ← st.m_distance_first_medoid[candidate_medoid_index]?
    if first = 0 then
      pure chunk
    else do
      let swap_cost ← calculate_swap_cost size m_calculator st candidate_medoid_index index_cluster
      if swap_cost < chunk.cost then
        pure { cost := swap_cost, index_medoid := candidate_medoid_index }
      else
        pure chunk

/-- The accumulator of the final scan of `swap_medoids`:
`optimal_swap_cost`, `optimal_index_cluster`, `optimal_index_medoid`. -/
structure optimal_swap where
  optimal_swap_cost : ℚ
  optimal_index_cluster : Nat
  optimal_index_medoid : Nat
deriving DecidableEq

/-- Body of the final scan of `swap_medoids` over the per-cluster chunks. -/
def select_step (cluster_chunks : List optimal_chunk) (best : optimal_swap) (index_cluster : Nat) :
    Option optimal_swap := do
  let chunk ← cluster_chunks[index_cluster]?
  if chunk.cost < best.optimal_swap_cost then
    pure { optimal_swap_cost := chunk.cost,
           optimal_index_cluster := index_cluster,
           optimal_index_medoid := chunk.index_medoid }
  else
    pure best

/-- `swap_medoids`: returns the optimal swap cost and the state, where at most one medoid slot
is overwritten. -/
def swap_medoids (size : Nat) (m_calculator : distance_calculator) (st : state) :
    Option (ℚ × state) := do
  let cluster_chunks ←
    parallel_collect
      (fun index_cluster =>
        (List.range size).foldlM (chunk_step size m_calculator st index_cluster)
          { cost := DBL_MAX, index_medoid := INVALID_INDEX })
      (List.range st.result.clusters.length)
  let best ← (List.range cluster_chunks.length).foldlM (select_step cluster_chunks)
    { optimal_swap_cost := DBL_MAX,
      optimal_index_cluster := INVALID_INDEX,
      optimal_index_medoid := INVALID_INDEX }
  if best.optimal_index_cluster ≠ INVALID_INDEX then do
    let medoids ← write_at st.result.medoids best.optimal_index_cluster best.optimal_index_medoid
    pure (best.optimal_swap_cost, { st with result := { st.result with medoids := medoids } })
  else
    pure (best.optimal_swap_cost, st)

/-! ## Pruning of empty clusters -/

/-- The value of `x - 1` (and of `x--`) on `std::size_t`: the predecessor, wrapping from zero
to `2 ^ 64 - 1`; for `x < 2 ^ 64` it is `(x + 2 ^ 64 - 1) % 2 ^ 64`. -/
def size_t_pred (x : Nat) : Nat := if x = 0 then SIZE_MAX else x - 1

/-- The loop of `erase_empty_clusters`, entered with the loop variable `index_cluster`.
`index_cluster--` on the unsigned index wraps at zero; the loop stops when the index equals
`static_cast<std::size_t>(-1)`.  The first argument bounds the number of iterations that are
unfolded (`none` when it does not suffice). -/
def erase_loop : Nat → Nat → cluster_sequence × medoid_sequence →
    Option (cluster_sequence × medoid_sequence)
  | 0, index_cluster, s => if index_cluster ≠ SIZE_MAX then none else some s
  | fuel + 1, index_cluster, s =>
    if index_cluster ≠ SIZE_MAX then do
      let c ← s.1[index_cluster]?
      if c.isEmpty then
        if index_cluster < s.2.length then
          erase_loop fuel (size_t_pred index_cluster)
            (s.1.eraseIdx index_cluster, s.2.eraseIdx index_cluster)
        else
          none
      else
        erase_loop fuel (size_t_pred index_cluster) s
    else
      some s

/-- `erase_empty_clusters` on the clusters and medoids of the result; the loop starts at
`clusters.size() - 1` computed on `std::size_t`. -/
def erase_empty_clusters (s : cluster_sequence × medoid_sequence) :
    Option (cluster_sequence × medoid_sequence) :=
  erase_loop s.1.length (size_t_pred s.1.length) s

/-! ## Orchestrator -/

/-- One pass through the body of the `for` loop of `process`: the state after it and the new
value of the local `changes`, or `none` in its place when the body leaves the loop by `break`. -/
def iteration (size : Nat) (m_calculator : distance_calculator) (st : state) :
    Option (state × Option ℚ) := do
  let counted : state :=
    { st with result := { st.result with iterations := st.result.iterations + 1 } }
  let swapped ← swap_medoids size m_calculator counted
  if swapped.1 ≠ NOTHING_TO_SWAP then do
    let previous_deviation := swapped.2.result.total_deviation
    let updated ← update_clusters size m_calculator swapped.2
    let assigned : state :=
      { updated.2 with result := { updated.2.result with total_deviation := updated.1 } }
    pure (assigned, some (previous_deviation - updated.1))
  else
    pure (swapped.2, none)

/-- The `for` loop of `process`; `changes` is the local of that name.  The first argument
bounds the number of iterations that are unfolded (`none` when it does not suffice;
`m_itermax` always suffices). -/
def process_loop (size : Nat) (m_calculator : distance_calculator) (m_tolerance : ℚ)
    (m_itermax : Nat) : Nat → ℚ → state → Option state
  | 0, changes, st =>
    if st.result.iterations < m_itermax ∧ changes > m_tolerance then none else some st
  | fuel + 1, changes, st =>
    if st.result.iterations < m_itermax ∧ changes > m_tolerance then do
      let next ← iteration size m_calculator st
      match next.2 with
      | some changes_next =>
        process_loop size m_calculator m_tolerance m_itermax fuel changes_next next.1
      | none => some next.1
    else
      some st

/-- The part of `process` before the `for` loop (lines 70-85): the medoids are seeded, the
per-point members reset, the baseline deviation computed when `m_itermax > 0`, and the
iteration counter set to zero. -/
def process_start (self : solver) (size : Nat) (m_calculator : distance_calculator)
    (p_result : kmedoids_data) : Option state := do
  let init : state :=
    { result := { p_result with medoids := self.m_initial_medoids, total_deviation := 0 },
      m_labels := List.replicate size SIZE_MAX,
      m_distance_first_medoid := List.replicate size DBL_MAX,
      m_distance_second_medoid := List.replicate size DBL_MAX }
  let baseline ←
    if self.m_itermax > 0 then do
      let updated ← update_clusters size m_calculator init
      pure { updated.2 with result := { updated.2.result with total_deviation := updated.1 } }
    else
      pure init
  pure { baseline with result := { baseline.result with iterations := 0 } }

/-- The body of `process` once the distance calculator is bound. -/
def process_run (self : solver) (size : Nat) (m_calculator : distance_calculator)
    (p_result : kmedoids_data) : Option kmedoids_data := do
  let entered ← process_start self size m_calculator p_result
  let final ← process_loop size m_calculator self.m_tolerance self.m_itermax self.m_itermax
    DBL_MAX entered
  let pruned ← erase_empty_clusters (final.result.clusters, final.result.medoids)
  pure { final.result with clusters := pruned.1, medoids := pruned.2 }

/-- `kmedoids::process(p_data, p_type, p_result)`. -/
def process (self : solver) (p_data : dataset) (p_type : data_t) (p_result : kmedoids_data) :
    outcome :=
  match create_distance_calculator self.m_metric p_data p_type with
  | Except.error code => outcome.invalid_argument code p_result
  | Except.ok m_calculator =>
    match process_run self p_data.length m_calculator p_result with
    | some result => outcome.returned result
    | none => outcome.undefined

/-- `kmedoids::process(p_data, p_result)`: the overload for point data. -/
def process_points (self : solver) (p_data : dataset) (p_result : kmedoids_data) : outcome :=
  process self p_data data_t.POINTS p_result

/-! ## Observation of a run -/

/-- The total deviations that the iterations of the `for` loop of `process` record, in order:
one entry for each pass through the body that re-ran the assignment (the total deviation
stored in the result at the end of that pass).  It unfolds the loop as `process_loop` does. -/
def loop_deviations (size : Nat) (m_calculator : distance_calculator) (m_tolerance : ℚ)
    (m_itermax : Nat) : Nat → ℚ → state → Option (List ℚ)
  | 0, changes, st =>
    if st.result.iterations < m_itermax ∧ changes > m_tolerance then none else some []
  | fuel + 1, changes, st =>
    if st.result.iterations < m_itermax ∧ changes > m_tolerance then do
      let next ← iteration size m_calculator st
      match next.2 with
      | some changes_next =>
        let later ← loop_deviations size m_calculator m_tolerance m_itermax fuel changes_next next.1
        pure (next.1.result.total_deviation :: later)
      | none => some []
    else
      some []

/-- The total deviations recorded during one call of `process`: the baseline of the initial
medoids first, then the deviation after each completed iteration. -/
def recorded_deviations (self : solver) (p_data : dataset) (p_type : data_t)
    (p_result : kmedoids_data) : Option (List ℚ) :=
  match create_distance_calculator self.m_metric p_data p_type with
  | Except.error _ => none
  | Except.ok m_calculator => do
    let entered ← process_start self p_data.length m_calculator p_result
    let later ← loop_deviations p_data.length m_calculator self.m_tolerance self.m_itermax
      self.m_itermax DBL_MAX entered
    pure (entered.result.total_deviation :: later)

/-- The recomputation of the total deviation done by the unit tests
(`template_kmedoids_length_process_data`, the loop over `actual_clusters`): the inner loop over
the members of one cluster, with `distance` the distance between two indices. -/
def expected_cluster_deviation (distance : distance_calculator) (index_point_medoid : Nat)
    (acc : ℚ) (index_point : Nat) : Option ℚ :=
  if index_point_medoid = index_point then
    pure acc
  else do
    let d ← distance index_point_medoid index_point
    pure (acc + d)

/-- The recomputation of the total deviation done by the unit tests: the outer loop. -/
def expected_total_deviation (distance : distance_calculator) (medoids : medoid_sequence)
    (actual_clusters : cluster_sequence) : Option ℚ :=
  (List.range actual_clusters.length).foldlM
    (fun acc index_cluster => do
      let index_point_medoid ← medoids[index_cluster]?
      let members ← actual_clusters[index_cluster]?
      members.foldlM (expected_cluster_deviation distance index_point_medoid) acc)
    0

/-! ## Functions used to state and prove the properties -/

/-- The update of the running nearest / second-nearest record by one more distance: the
`if` / `else if` of the loop of `find_appropriate_cluster`. -/
def track (acc : appropriate_cluster) (index : Nat) (distance : ℚ) : appropriate_cluster :=
  if distance < acc.m_distance_to_first_medoid then
    { m_index := index,
      m_distance_to_first_medoid := distance,
      m_distance_to_second_medoid := acc.m_distance_to_first_medoid }
  else if distance < acc.m_distance_to_second_medoid then
    { acc with m_distance_to_second_medoid := distance }
  else
    acc

/-- The scan of `find_appropriate_cluster` over distances that are already computed; the
slots are numbered from `index` on. -/
def scan : Nat → List ℚ → appropriate_cluster → appropriate_cluster
  | _, [], acc => acc
  | index, d :: ds, acc => scan (index + 1) ds (track acc index d)

/-- The record with which `find_appropriate_cluster` starts. -/
def no_cluster : appropriate_cluster :=
  { m_index := INVALID_INDEX,
    m_distance_to_first_medoid := DBL_MAX,
    m_distance_to_second_medoid := DBL_MAX }

/-- The points among `0 .. m-1` whose winning slot, listed in `labels`, is `i`. -/
def members (labels : List Nat) (m i : Nat) : cluster :=
  (List.range m).filter (fun p => decide (labels[p]? = some i))

/-- The clusters of `k` medoid slots that group the points `0 .. m-1` under their winning
slot. -/
def grouped (labels : List Nat) (k m : Nat) : cluster_sequence :=
  (List.range k).map (members labels m)

/-- The vector `old` with its first `m` slots overwritten by those of `new`. -/
def overwrite {α : Type} (old new : List α) (m : Nat) : List α :=
  new.take m ++ old.drop m

/-- The accumulator of the sequential loop of `update_clusters` after the points `0 .. m-1`,
started from the state `st` whose clusters were cleared for `k` medoids. -/
def update_upto (markers : List appropriate_cluster) (k : Nat) (st : state) (m : Nat) :
    ℚ × state :=
  (((markers.take m).map (fun mk => mk.m_distance_to_first_medoid)).sum,
    { result := { st.result with
        clusters := grouped (markers.map (fun mk => mk.m_index)) k m },
      m_labels := overwrite st.m_labels (markers.map (fun mk => mk.m_index)) m,
      m_distance_first_medoid := overwrite st.m_distance_first_medoid
        (markers.map (fun mk => mk.m_distance_to_first_medoid)) m,
      m_distance_second_medoid := overwrite st.m_distance_second_medoid
        (markers.map (fun mk => mk.m_distance_to_second_medoid)) m })

/-- The accesses of the loop body of `update_clusters` for the point `p` are in range. -/
def update_in_range (markers : List appropriate_cluster) (k : Nat) (st : state) (p : Nat) :
    Prop :=
  ∃ mk, markers[p]? = some mk ∧ mk.m_index < k ∧ p < st.m_labels.length ∧
    p < st.m_distance_first_medoid.length ∧ p < st.m_distance_second_medoid.length

/-- The result holds the assignment of its own medoids: its clusters and its total deviation
are the ones that the nearest-medoid search of every point of `0 .. size-1` yields. -/
def assigned (size : Nat) (m_calculator : distance_calculator) (r : kmedoids_data) : Prop :=
  ∃ markers : List appropriate_cluster,
    parallel_collect (fun p_index => find_appropriate_cluster m_calculator p_index r.medoids)
      (List.range size) = some markers ∧
    (∀ mk ∈ markers, mk.m_index < r.medoids.length) ∧
    r.clusters = grouped (markers.map (fun mk => mk.m_index)) r.medoids.length size ∧
    r.total_deviation = (markers.map (fun mk => mk.m_distance_to_first_medoid)).sum

/-- Every distance between two points of the dataset is defined and lies below the
sentinel `DBL_MAX` (it is a finite `double` other than the largest one). -/
def finite_distances (size : Nat) (m_calculator : distance_calculator) : Prop :=
  ∀ i < size, ∀ j < size, ∃ d, m_calculator i j = some d ∧ d < DBL_MAX

/-- A medoid sequence that `process` can work on: every medoid is a point of the dataset,
there is at least one medoid when there is a point, and the sequence fits a `std::vector`. -/
def valid_medoids (size : Nat) (medoids : medoid_sequence) : Prop :=
  (∀ m ∈ medoids, m < size) ∧ (0 < size → medoids ≠ []) ∧ medoids.length ≤ SIZE_MAX

/-- The state between two passes of a run: the three per-point vectors have one slot per
point, there is one cluster per medoid, and the medoids are valid. -/
def ready (size : Nat) (st : state) : Prop :=
  st.m_labels.length = size ∧ st.m_distance_first_medoid.length = size ∧
  st.m_distance_second_medoid.length = size ∧
  st.result.clusters.length = st.result.medoids.length ∧
  valid_medoids size st.result.medoids

/-- The monotonicity property of the spec on the total deviations recorded by one run (the
baseline first): each one is less than or equal to the one recorded before it. -/
def monotone_deviations (ds : List ℚ) : Prop :=
  List.Chain' (fun previous next => next ≤ previous) ds

/-- Three points on a line, at 0, 1 and 2, given by the matrix of their distances. -/
def line_matrix : dataset := [[0, 1, 2], [1, 0, 1], [2, 1, 0]]

/-- A solver with the default tolerance and iteration budget that starts from the medoid `0`,
an end point of `line_matrix` (the metric is not used on a distance matrix). -/
def line_solver : solver :=
  { m_initial_medoids := [0], m_tolerance := DEFAULT_TOLERANCE, m_itermax := DEFAULT_ITERMAX,
    m_metric := fun _ _ => 0 }

/-- Three points given by the matrix of their distances: 0 and 1 are close, 2 is far. -/
def sample_matrix : dataset := [[0, 1, 5], [1, 0, 3], [5, 3, 0]]

/-- A solver with the default tolerance and iteration budget that starts from the medoids
`0` and `2` of `sample_matrix`. -/
def sample_solver : solver :=
  { m_initial_medoids := [0, 2], m_tolerance := DEFAULT_TOLERANCE,
    m_itermax := DEFAULT_ITERMAX, m_metric := fun _ _ => 0 }

/-- The term that the loop of `calculate_swap_cost` adds for the point `y`. -/
def swap_cost_term (distance : Nat → Nat → ℚ) (label : Nat → Nat)
    (firstDist secondDist : Nat → ℚ) (x c y : Nat) : ℚ :=
  if y = x then 0
  else if label y = c then min (distance y x) (secondDist y) - firstDist y
  else if distance y x < firstDist y then distance y x - firstDist y
  else 0

/-- The result object at the end of the `for` loop of `process`, before
`erase_empty_clusters` runs: the clusters and medoids of the last assignment. -/
def process_unpruned (self : solver) (size : Nat) (m_calculator : distance_calculator)
    (p_result : kmedoids_data) : Option kmedoids_data := do
  let entered ← process_start self size m_calculator p_result
  let final ← process_loop size m_calculator self.m_tolerance self.m_itermax self.m_itermax
    DBL_MAX entered
  pure final.result

/-- The passes through the body of the `for` loop of `process`, in order: for each pass the
state at its end and the new value of the local `changes` (`none` for a pass that left the loop
by `break`).  It unfolds the loop as `process_loop` does. -/
def loop_passes (size : Nat) (m_calculator : distance_calculator) (m_tolerance : ℚ)
    (m_itermax : Nat) : Nat → ℚ → state → Option (List (state × Option ℚ))
  | 0, changes, st =>
    if st.result.iterations < m_itermax ∧ changes > m_tolerance then none else some []
  | fuel + 1, changes, st =>
    if st.result.iterations < m_itermax ∧ changes > m_tolerance then do
      let next ← iteration size m_calculator st
      match next.2 with
      | some changes_next =>
        let later ← loop_passes size m_calculator m_tolerance m_itermax fuel changes_next next.1
        pure (next :: later)
      | none => some [next]
    else
      some []

/-- The state with which one call of `process` enters the `for` loop, and the passes of the
loop. -/
def recorded_passes (self : solver) (p_data : dataset) (p_type : data_t)
    (p_result : kmedoids_data) : Option (state × List (state × Option ℚ)) :=
  match create_distance_calculator self.m_metric p_data p_type with
  | Except.error _ => none
  | Except.ok m_calculator => do
    let entered ← process_start self p_data.length m_calculator p_result
    let passes ← loop_passes p_data.length m_calculator self.m_tolerance self.m_itermax
      self.m_itermax DBL_MAX entered
    pure (entered, passes)

/-- The number of passes that applied a swap and re-ran the assignment. -/
def applied_swaps (passes : List (state × Option ℚ)) : Nat :=
  (passes.filter (fun y => y.2.isSome)).length

/-- The points that the candidate loop of `swap_medoids` evaluates: the points of the dataset
that are not medoids and whose first distance is not zero. -/
def swap_candidate (size : Nat) (st : state) (x : Nat) : Prop :=
  x < size ∧ x ∉ st.result.medoids ∧
    ∃ first, st.m_distance_first_medoid[x]? = some first ∧ first ≠ 0

/-- The three per-point vectors of the state hold, for every point, the slot of its nearest
medoid and its first and second distance, and the result holds the clusters and the total
deviation of that assignment: the state that `update_clusters` leaves behind. -/
def tracked (size : Nat) (m_calculator : distance_calculator) (st : state) : Prop :=
  ∃ markers : List appropriate_cluster,
    parallel_collect (fun p_index => find_appropriate_cluster m_calculator p_index
      st.result.medoids) (List.range size) = some markers ∧
    (∀ mk ∈ markers, mk.m_index < st.result.medoids.length) ∧
    st.result.clusters = grouped (markers.map (fun mk => mk.m_index))
      st.result.medoids.length size ∧
    st.result.total_deviation = (markers.map (fun mk => mk.m_distance_to_first_medoid)).sum ∧
    st.m_labels = markers.map (fun mk => mk.m_index) ∧
    st.m_distance_first_medoid = markers.map (fun mk => mk.m_distance_to_first_medoid) ∧
    st.m_distance_second_medoid = markers.map (fun mk => mk.m_distance_to_second_medoid)

/-- Three identical points, given by the matrix of their distances. -/
def zero_matrix : dataset := [[0, 0, 0], [0, 0, 0], [0, 0, 0]]

/-- A solver with the default tolerance and iteration budget that starts from the medoids
`0` and `1` of `zero_matrix`. -/
def zero_solver : solver :=
  { m_initial_medoids := [0, 1], m_tolerance := DEFAULT_TOLERANCE,
    m_itermax := DEFAULT_ITERMAX, m_metric := fun _ _ => 0 }

/-- A solver with the default iteration budget whose tolerance is the largest finite
`double`, starting from the medoid `0` of `line_matrix`. -/
def saturated_solver : solver :=
  { m_initial_medoids := [0], m_tolerance := DBL_MAX, m_itermax := DEFAULT_ITERMAX,
    m_metric := fun _ _ => 0 }

/-- The distance `2 ^ 1023`, a finite `double` below the sentinel `DBL_MAX`. -/
def huge_distance : ℚ := 89884656743115795386465259539451236680898848947115328636715040578866337902750481566354238661203768010560056939935696678829394884407208311246423715319737062188883946712432742638151109800623047059726541476042502884419075341171231440736956555270413618581675255342293149119973622969239858152417678164812112068608

/-- Four points given by the matrix of their distances: point 0 is at distance 1 from the
others, which are at distance `2 ^ 1023` from one another. -/
def huge_matrix : dataset :=
  [[0, 1, 1, 1], [1, 0, huge_distance, huge_distance], [1, huge_distance, 0, huge_distance],
    [1, huge_distance, huge_distance, 0]]

/-- A solver with the default tolerance and iteration budget that starts from the medoid `0`
of `huge_matrix`. -/
def huge_solver : solver :=
  { m_initial_medoids := [0], m_tolerance := DEFAULT_TOLERANCE, m_itermax := DEFAULT_ITERMAX,
    m_metric := fun _ _ => 0 }

/-- The state in which the first pass of the run of `huge_solver` on `huge_matrix` calls
`swap_medoids`: the assignment of the medoid `0`, with the iteration counter at 1. -/
def huge_state : state :=
  { result := { clusters := [[0, 1, 2, 3]], medoids := [0], total_deviation := 3,
                iterations := 1 },
    m_labels := [0, 0, 0, 0],
    m_distance_first_medoid := [0, 1, 1, 1],
    m_distance_second_medoid := [DBL_MAX, DBL_MAX, DBL_MAX, DBL_MAX] }

/-- The state in which the first pass of the run of `sample_solver` on `sample_matrix` calls
`swap_medoids`: the assignment of the medoids `0` and `2`, with the iteration counter at 1. -/
def sample_state : state :=
  { result := { clusters := [[0, 1], [2]], medoids := [0, 2], total_deviation := 1,
                iterations := 1 },
    m_labels := [0, 0, 1],
    m_distance_first_medoid := [0, 1, 0],
    m_distance_second_medoid := [5, 3, 5] }

/-- A solver with the iteration budget 0 that starts from the medoid `0` of `line_matrix`. -/
def zero_budget_solver : solver :=
  { m_initial_medoids := [0], m_tolerance := DEFAULT_TOLERANCE, m_itermax := 0,
    m_metric := fun _ _ => 0 }

/-! ## The same code in `double` arithmetic

The definitions above add and subtract exactly.  The definitions of `binary64` embed the same
functions with every `double` addition and subtraction rounded to the nearest `double` (ties
to even), as IEEE 754 binary64 prescribes; comparisons, `std::min` and the index arithmetic
need no rounding and are shared with the exact embedding.  A value is a `double` when
`binary64.round_to_nearest` returns it unchanged.  An operation whose result is an infinity
returns `none`, like an access out of range: the embedding does not follow a run beyond either
of them. -/

namespace binary64

/-- The number of binary digits of `n`; the first argument bounds the number of digits that
are counted (`n` itself always suffices). -/
def bit_length : Nat → Nat → Nat
  | 0, _ => 0
  | fuel + 1, n => if n = 0 then 0 else bit_length fuel (n / 2) + 1

/-- The integer part of the binary logarithm of `a / b`, for positive `a` and `b`: the
difference `k` of the numbers of digits, or `k - 1` when `a / b` is below `2 ^ k`. -/
def floor_log2 (a b : Nat) : Int :=
  let k : Int := (bit_length a a : Int) - (bit_length b b : Int)
  if b * 2 ^ k.toNat ≤ a * 2 ^ (-k).toNat then k else k - 1

/-- The integer nearest to `n / d`, the even one of the two when `n / d` lies half way. -/
def nearest_even (n d : Nat) : Nat :=
  let q := n / d
  let r := n % d
  if 2 * r < d then q else if d < 2 * r then q + 1 else if q % 2 = 0 then q else q + 1

/-- The `double` nearest to the real number `x` (round to nearest, ties to even: the rounding
of every arithmetic operation on `double`), `none` when it is an infinity.  The unit in the
last place of `x` is `2 ^ (e - 52)`, where `2 ^ e ≤ |x| < 2 ^ (e + 1)` and `e` is at least
`-1022` (below that the values are subnormal). -/
def round_to_nearest (x : ℚ) : Option ℚ :=
  if x = 0 then
    some 0
  else
    let e : Int := max (floor_log2 x.num.natAbs x.den) (-1022)
    let s : Int := e - 52
    let m : Nat := nearest_even (x.num.natAbs * 2 ^ (-s).toNat) (x.den * 2 ^ s.toNat)
    let y : ℚ := mkRat (x.num.sign * ((m * 2 ^ s.toNat : Nat) : Int)) (2 ^ (-s).toNat)
    if -DBL_MAX ≤ y ∧ y ≤ DBL_MAX then some y else none

/-- The sum `x + y` of two `double` values. -/
def add (x y : ℚ) : Option ℚ := round_to_nearest (x + y)

/-- The difference `x - y` of two `double` values. -/
def sub (x y : ℚ) : Option ℚ := round_to_nearest (x - y)

/-- Body of the sequential loop of `update_clusters`, with `total_deviation += ...` rounded. -/
def update_step (cluster_markers : List appropriate_cluster) (acc : ℚ × state)
    (index_point : Nat) : Option (ℚ × state) := do
  let marker ← cluster_markers[index_point]?
  let index_optim := marker.m_index
  let total_deviation ← add acc.1 marker.m_distance_to_first_medoid
  let labels ← write_at acc.2.m_labels index_point index_optim
  let clusters ← push_back_at acc.2.result.clusters index_optim index_point
  let first ← write_at acc.2.m_distance_first_medoid index_point marker.m_distance_to_first_medoid
  let second ← write_at acc.2.m_distance_second_medoid index_point marker.m_distance_to_second_medoid
  pure (total_deviation,
    { result := { acc.2.result with clusters := clusters },
      m_labels := labels,
      m_distance_first_medoid := first,
      m_distance_second_medoid := second })

def update_clusters (size : Nat) (m_calculator : distance_calculator) (st : state) :
    Option (ℚ × state) := do
  let medoids := st.result.medoids
  let cleared : state :=
    { st with result := { st.result with clusters := List.replicate medoids.length [] } }
  let cluster_markers ←
    parallel_collect (fun p_index => find_appropriate_cluster m_calculator p_index medoids)
      (List.range size)
  (List.range size).foldlM (update_step cluster_markers) (0, cleared)

/-- Body of the loop of `calculate_swap_cost` (the sequential variant): the difference is
rounded, then the sum `cost += ...`.  The parallel variant rounds the same differences and
`std::accumulate` adds them in the same order, the skipped points adding zero. -/
def swap_cost_step (m_calculator : distance_calculator) (st : state)
    (p_index_candidate p_index_cluster : Nat) (cost : ℚ) (index_point : Nat) : Option ℚ :=
  if index_point = p_index_candidate then
    pure cost
  else do
    let candidate_distance ← m_calculator index_point p_index_candidate
    let label ← st.m_labels[index_point]?
    if label = p_index_cluster then do
      let second ← st.m_distance_second_medoid[index_point]?
      let first ← st.m_distance_first_medoid[index_point]?
      let term ← sub (min candidate_distance second) first
      add cost term
    else do
      let first ← st.m_distance_first_medoid[index_point]?
      if candidate_distance < first then do
        let term ← sub candidate_distance first
        add cost term
      else
        pure cost

def calculate_swap_cost (size : Nat) (m_calculator : distance_calculator) (st : state)
    (p_index_candidate p_index_cluster : Nat) : Option ℚ := do
  let cost ← (List.range size).foldlM
    (swap_cost_step m_calculator st p_index_candidate p_index_cluster) 0
  let first ← st.m_distance_first_medoid[p_index_candidate]?
  sub cost first

def chunk_step (size : Nat) (m_calculator : distance_calculator) (st : state)
    (index_cluster : Nat) (chunk : optimal_chunk) (candidate_medoid_index : Nat) :
    Option optimal_chunk :=
  if candidate_medoid_index ∈ st.result.medoids then
    pure chunk
  else do
    let first ← st.m_distance_first_medoid[candidate_medoid_index]?
    if first = 0 then
      pure chunk
    else do
      let swap_cost ← calculate_swap_cost size m_calculator st candidate_medoid_index index_cluster
      if swap_cost < chunk.cost then
        pure { cost := swap_cost, index_medoid := candidate_medoid_index }
      else
        pure chunk

def swap_medoids (size : Nat) (m_calculator : distance_calculator) (st : state) :
    Option (ℚ × state) := do
  let cluster_chunks ←
    parallel_collect
      (fun index_cluster =>
        (List.range size).foldlM (chunk_step size m_calculator st index_cluster)
          { cost := DBL_MAX, index_medoid := INVALID_INDEX })
      (List.range st.result.clusters.length)
  let best ← (List.range cluster_chunks.length).foldlM (select_step cluster_chunks)
    { optimal_swap_cost := DBL_MAX,
      optimal_index_cluster := INVALID_INDEX,
      optimal_index_medoid := INVALID_INDEX }
  if best.optimal_index_cluster ≠ INVALID_INDEX then do
    let medoids ← write_at st.result.medoids best.optimal_index_cluster best.optimal_index_medoid
    pure (best.optimal_swap_cost, { st with result := { st.result with medoids := medoids } })
  else
    pure (best.optimal_swap_cost, st)

def iteration (size : Nat) (m_calculator : distance_calculator) (st : state) :
    Option (state × Option ℚ) := do
  let counted : state :=
    { st with result := { st.result with iterations := st.result.iterations + 1 } }
  let swapped ← swap_medoids size m_calculator counted
  if swapped.1 ≠ NOTHING_TO_SWAP then do
    let previous_deviation := swapped.2.result.total_deviation
    let updated ← update_clusters size m_calculator swapped.2
    let assigned : state :=
      { updated.2 with result := { updated.2.result with total_deviation := updated.1 } }
    let changes ← sub previous_deviation updated.1
    pure (assigned, some changes)
  else
    pure (swapped.2, none)

def process_loop (size : Nat) (m_calculator : distance_calculator) (m_tolerance : ℚ)
    (m_itermax : Nat) : Nat → ℚ → state → Option state
  | 0, changes, st =>
    if st.result.iterations < m_itermax ∧ changes > m_tolerance then none else some st
  | fuel + 1, changes, st =>
    if st.result.iterations < m_itermax ∧ changes > m_tolerance then do
      let next ← iteration size m_calculator st
      match next.2 with
      | some changes_next =>
        process_loop size m_calculator m_tolerance m_itermax fuel changes_next next.1
      | none => some next.1
    else
      some st

def process_start (self : solver) (size : Nat) (m_calculator : distance_calculator)
    (p_result : kmedoids_data) : Option state := do
  let init : state :=
    { result := { p_result with medoids := self.m_initial_medoids, total_deviation := 0 },
      m_labels := List.replicate size SIZE_MAX,
      m_distance_first_medoid := List.replicate size DBL_MAX,
      m_distance_second_medoid := List.replicate size DBL_MAX }
  let baseline ←
    if self.m_itermax > 0 then do
      let updated ← update_clusters size m_calculator init
      pure { updated.2 with result := { updated.2.result with total_deviation := updated.1 } }
    else
      pure init
  pure { baseline with result := { baseline.result with iterations := 0 } }

def process_run (self : solver) (size : Nat) (m_calculator : distance_calculator)
    (p_result : kmedoids_data) : Option kmedoids_data := do
  let entered ← process_start self size m_calculator p_result
  let final ← process_loop size m_calculator self.m_tolerance self.m_itermax self.m_itermax
    DBL_MAX entered
  let pruned ← erase_empty_clusters (final.result.clusters, final.result.medoids)
  pure { final.result with clusters := pruned.1, medoids := pruned.2 }

/-- `kmedoids::process(p_data, p_type, p_result)` in `double` arithmetic.  Here
`outcome.undefined` also stands for a run in which an addition or subtraction overflows to an
infinity, which this embedding does not follow. -/
def process (self : solver) (p_data : dataset) (p_type : data_t) (p_result : kmedoids_data) :
    outcome :=
  match create_distance_calculator self.m_metric p_data p_type with
  | Except.error code => outcome.invalid_argument code p_result
  | Except.ok m_calculator =>
    match process_run self p_data.length m_calculator p_result with
    | some result => outcome.returned result
    | none => outcome.undefined

end binary64

/-- Three points given by the matrix of their distances: `1 + 2 ^ -52` between the points
0 and 1, `1` between 0 and 2, and `2 ^ 53` between 1 and 2; every entry is a `double`. -/
def rounding_matrix : dataset :=
  [[0, 1 + 1 / 4503599627370496, 1], [1 + 1 / 4503599627370496, 0, 9007199254740992],
    [1, 9007199254740992, 0]]

/-- A solver with the default tolerance and iteration budget that starts from the medoid `0`
of `rounding_matrix`. -/
def rounding_solver : solver :=
  { m_initial_medoids := [0], m_tolerance := DEFAULT_TOLERANCE, m_itermax := DEFAULT_ITERMAX,
    m_metric := fun _ _ => 0 }

/-- The state in which the first pass of the run of `rounding_solver` on `rounding_matrix`
calls `swap_medoids`: the assignment of the medoid `0`, whose total deviation
`0 + (1 + 2 ^ -52) + 1` is rounded to `2`, with the iteration counter at 1. -/
def rounding_state : state :=
  { result := { clusters := [[0, 1, 2]], medoids := [0], total_deviation := 2,
                iterations := 1 },
    m_labels := [0, 0, 0],
    m_distance_first_medoid := [0, 1 + 1 / 4503599627370496, 1],
    m_distance_second_medoid := [DBL_MAX, DBL_MAX, DBL_MAX] }

/-- Four points given by the matrix of their distances: the points 0 and 1 coincide, the
points 2 and 3 coincide, and the two pairs are at distance 5. -/
def pair_matrix : dataset := [[0, 0, 5, 5], [0, 0, 5, 5], [5, 5, 0, 0], [5, 5, 0, 0]]

/-- A solver with the default tolerance and iteration budget that starts from the medoids
`0` and `1` of `pair_matrix`. -/
def pair_solver : solver :=
  { m_initial_medoids := [0, 1], m_tolerance := DEFAULT_TOLERANCE,
    m_itermax := DEFAULT_ITERMAX, m_metric := fun _ _ => 0 }

/-- The solver `zero_solver` with the largest finite `double` as its tolerance. -/
def saturated_zero_solver : solver :=
  { m_initial_medoids := [0, 1], m_tolerance := DBL_MAX, m_itermax := DEFAULT_ITERMAX,
    m_metric := fun _ _ => 0 }

/-- The forward compaction that the design notes ask for: the (medoid, cluster) pairs whose
cluster is not empty, in their original order, built into new sequences. -/
def forward_compaction (s : cluster_sequence × medoid_sequence) :
    cluster_sequence × medoid_sequence :=
  ((s.1.zip s.2).filter (fun pair => !pair.1.isEmpty)).unzip

theorem size_t_pred_eq_mod (x : Nat) (h : x < 2 ^ 64) :
    size_t_pred x = (x + 2 ^ 64 - 1) % 2 ^ 64 := by
  unfold size_t_pred SIZE_MAX
  split <;> omega

theorem size_t_pred_zero : size_t_pred 0 = SIZE_MAX := by
  unfold size_t_pred
  exact if_pos rfl

theorem size_t_pred_succ (x : Nat) : size_t_pred (x + 1) = x := by
  unfold size_t_pred
  rw [if_neg (Nat.succ_ne_zero x)]
  exact Nat.add_sub_cancel x 1

theorem erase_loop_stop (fuel : Nat) (s : cluster_sequence × medoid_sequence) :
    erase_loop fuel SIZE_MAX s = some s := by
  cases fuel with
  | zero => rw [erase_loop]; exact if_neg (fun h => h rfl)
  | succ n => rw [erase_loop]; exact if_neg (fun h => h rfl)

theorem erase_empty_clusters_nil (medoids : medoid_sequence) :
    erase_empty_clusters ([], medoids) = some ([], medoids) := by
  unfold erase_empty_clusters
  rw [List.length_nil, size_t_pred_zero, erase_loop_stop]

theorem process_loop_itermax_zero (size : Nat) (dist : distance_calculator) (tol : ℚ) (fuel : Nat)
    (changes : ℚ) (st : state) : process_loop size dist tol 0 fuel changes st = some st := by
  cases fuel <;> simp [process_loop]

theorem process_start_itermax_zero (self : solver) (h0 : self.m_itermax = 0)
    (size : Nat) (dist : distance_calculator) (p_result : kmedoids_data) :
    process_start self size dist p_result
      = some ⟨⟨p_result.clusters, self.m_initial_medoids, 0, 0⟩, List.replicate size SIZE_MAX,
          List.replicate size DBL_MAX, List.replicate size DBL_MAX⟩ := by
  unfold process_start
  rw [h0]
  simp only [gt_iff_lt, lt_self_iff_false, ↓reduceIte, Option.pure_def, Option.bind_eq_bind,
    Option.some_bind]

theorem process_run_itermax_zero (self : solver) (h0 : self.m_itermax = 0)
    (size : Nat) (dist : distance_calculator) :
    process_run self size dist kmedoids_data.empty
      = some ⟨[], self.m_initial_medoids, 0, 0⟩ := by
  unfold process_run
  rw [process_start_itermax_zero self h0, h0]
  simp only [Option.bind_eq_bind]
  rw [Option.some_bind, process_loop_itermax_zero, Option.some_bind]
  simp only [kmedoids_data.empty]
  rw [erase_empty_clusters_nil, Option.some_bind]
  rfl

theorem process_POINTS (self : solver) (p_data : dataset) (p_result : kmedoids_data) :
    process self p_data data_t.POINTS p_result =
      match process_run self p_data.length
          (calculate_distance_using_points self.m_metric p_data) p_result with
      | some result => outcome.returned result
      | none => outcome.undefined := by
  rfl

theorem process_DISTANCE_MATRIX (self : solver) (p_data : dataset) (p_result : kmedoids_data) :
    process self p_data data_t.DISTANCE_MATRIX p_result =
      match process_run self p_data.length
          (calculate_distance_using_distance_matrix p_data) p_result with
      | some result => outcome.returned result
      | none => outcome.undefined := by
  rfl

/-- C6 (zero-iteration short-circuit): with `m_itermax = 0`, on a result object created
empty, `process` returns total deviation 0, iterations 0, no clusters, and the initial
medoids as they were given (same indices, same order, none pruned), for both data kinds. -/
theorem itermax_zero_short_circuit (self : solver) (p_data : dataset)
    (h0 : self.m_itermax = 0) :
    process self p_data data_t.POINTS kmedoids_data.empty
        = outcome.returned ⟨[], self.m_initial_medoids, 0, 0⟩ ∧
    process self p_data data_t.DISTANCE_MATRIX kmedoids_data.empty
        = outcome.returned ⟨[], self.m_initial_medoids, 0, 0⟩ := by
  constructor
  · rw [process_POINTS, process_run_itermax_zero self h0]
  · rw [process_DISTANCE_MATRIX, process_run_itermax_zero self h0]

theorem itermax_zero_short_circuit_witness :
    process ⟨[1, 5], DEFAULT_TOLERANCE, 0, fun _ _ => 0⟩ [[0], [1]] data_t.POINTS
        kmedoids_data.empty = outcome.returned ⟨[], [1, 5], 0, 0⟩ ∧
    process ⟨[1, 5], DEFAULT_TOLERANCE, 0, fun _ _ => 0⟩ [[0], [1]] data_t.DISTANCE_MATRIX
        kmedoids_data.empty = outcome.returned ⟨[], [1, 5], 0, 0⟩ := by
  exact itermax_zero_short_circuit ⟨[1, 5], DEFAULT_TOLERANCE, 0, fun _ _ => 0⟩ [[0], [1]] rfl

theorem process_unknown (self : solver) (p_data : dataset) (code : Nat)
    (p_result : kmedoids_data) :
    process self p_data (data_t.unknown code) p_result
      = outcome.invalid_argument code p_result := by
  rfl

theorem process_POINTS_not_thrown (self : solver) (p_data : dataset) (p_result : kmedoids_data)
    (code : Nat) (r : kmedoids_data) :
    process self p_data data_t.POINTS p_result ≠ outcome.invalid_argument code r := by
  rw [process_POINTS]
  split <;> simp

theorem process_DISTANCE_MATRIX_not_thrown (self : solver) (p_data : dataset)
    (p_result : kmedoids_data) (code : Nat) (r : kmedoids_data) :
    process self p_data data_t.DISTANCE_MATRIX p_result ≠ outcome.invalid_argument code r := by
  rw [process_DISTANCE_MATRIX]
  split <;> simp

/-- C7 (invalid input kind): `process` throws exactly when the data kind is neither `POINTS`
nor `DISTANCE_MATRIX`; the exception carries the type code, and the result object of the
caller is then exactly the one that was passed in. -/
theorem invalid_input_kind (self : solver) (p_data : dataset) (p_type : data_t)
    (p_result : kmedoids_data) :
    ((∃ code r, process self p_data p_type p_result = outcome.invalid_argument code r) ↔
      (p_type ≠ data_t.POINTS ∧ p_type ≠ data_t.DISTANCE_MATRIX)) ∧
    (∀ code r, process self p_data p_type p_result = outcome.invalid_argument code r →
      r = p_result ∧ p_type = data_t.unknown code) := by
  cases p_type with
  | POINTS =>
    refine ⟨⟨?_, fun h => absurd rfl h.1⟩, ?_⟩
    · rintro ⟨code, r, h⟩
      exact absurd h (process_POINTS_not_thrown self p_data p_result code r)
    · intro code r h
      exact absurd h (process_POINTS_not_thrown self p_data p_result code r)
  | DISTANCE_MATRIX =>
    refine ⟨⟨?_, fun h => absurd rfl h.2⟩, ?_⟩
    · rintro ⟨code, r, h⟩
      exact absurd h (process_DISTANCE_MATRIX_not_thrown self p_data p_result code r)
    · intro code r h
      exact absurd h (process_DISTANCE_MATRIX_not_thrown self p_data p_result code r)
  | unknown c =>
    refine ⟨⟨fun _ => ⟨by simp, by simp⟩,
      fun _ => ⟨c, p_result, process_unknown self p_data c p_result⟩⟩, ?_⟩
    intro code r h
    rw [process_unknown] at h
    injection h with h1 h2
    exact ⟨h2.symm, by rw [h1]⟩

/-! ### `parallel_collect` -/

theorem parallel_collect_forall2 {α : Type} (f : Nat → Option α) :
    ∀ (l : List Nat) (r : List α),
      parallel_collect f l = some r ↔ List.Forall₂ (fun i a => f i = some a) l r := by
  intro l
  induction l with
  | nil =>
    intro r
    cases r <;> simp [parallel_collect]
  | cons i rest ih =>
    intro r
    cases r with
    | nil =>
      simp only [parallel_collect, Option.bind_eq_bind, Option.pure_def]
      constructor
      · intro h
        rcases Option.bind_eq_some.1 h with ⟨a, _, h2⟩
        rcases Option.bind_eq_some.1 h2 with ⟨b, _, h3⟩
        simp at h3
      · intro h
        cases h
    | cons a others =>
      simp only [parallel_collect, Option.bind_eq_bind, Option.pure_def, List.forall₂_cons]
      constructor
      · intro h
        rcases Option.bind_eq_some.1 h with ⟨a1, ha1, h2⟩
        rcases Option.bind_eq_some.1 h2 with ⟨b, hb, h3⟩
        simp only [Option.some.injEq, List.cons.injEq] at h3
        rcases h3 with ⟨rfl, rfl⟩
        exact ⟨ha1, (ih b).1 hb⟩
      · rintro ⟨h1, h2⟩
        rw [h1, (ih others).2 h2]
        rfl

theorem parallel_collect_length {α : Type} {f : Nat → Option α} {l : List Nat} {r : List α}
    (h : parallel_collect f l = some r) : r.length = l.length :=
  ((parallel_collect_forall2 f l r).1 h).length_eq.symm

theorem parallel_collect_range_getElem? {α : Type} {f : Nat → Option α} {n : Nat} {r : List α}
    (h : parallel_collect f (List.range n) = some r) (p : Nat) (hp : p < n) :
    ∃ a, r[p]? = some a ∧ f p = some a := by
  have hf := (parallel_collect_forall2 f _ r).1 h
  have hlen : r.length = n := by rw [parallel_collect_length h, List.length_range]
  have hp2 : p < r.length := by omega
  refine ⟨r[p], List.getElem?_eq_getElem hp2, ?_⟩
  have := List.Forall₂.get hf (i := p) (by simpa using hp) hp2
  simpa using this

theorem parallel_collect_range_of_forall {α : Type} {f : Nat → Option α} {n : Nat} {g : Nat → α}
    (h : ∀ p < n, f p = some (g p)) :
    parallel_collect f (List.range n) = some ((List.range n).map g) := by
  rw [parallel_collect_forall2]
  rw [List.forall₂_map_right_iff]
  apply List.forall₂_same.2
  intro x hx
  exact h x (List.mem_range.1 hx)

/-! ### `find_appropriate_cluster` -/

theorem find_step_eq (dist : distance_calculator) (p : Nat) (M : medoid_sequence)
    (acc : appropriate_cluster) (index : Nat) :
    find_step dist p M acc index =
      (M[index]?).bind (fun m => (dist p m).bind (fun d => some (track acc index d))) := by
  unfold find_step track
  simp only [Option.bind_eq_bind, Option.pure_def]
  cases M[index]? with
  | none => rfl
  | some m =>
    simp only [Option.some_bind]
    cases dist p m with
    | none => rfl
    | some d =>
      simp only [Option.some_bind]
      split
      · rfl
      · split <;> rfl

theorem find_fold_eq (dist : distance_calculator) (p : Nat) :
    ∀ (suf pre : medoid_sequence) (acc : appropriate_cluster),
      (List.range' pre.length suf.length).foldlM (find_step dist p (pre ++ suf)) acc =
        (parallel_collect (dist p) suf).bind (fun ds => some (scan pre.length ds acc)) := by
  intro suf
  induction suf with
  | nil =>
    intro pre acc
    simp [parallel_collect, scan]
  | cons m suf ih =>
    intro pre acc
    rw [List.length_cons, List.range'_succ, List.foldlM_cons, find_step_eq]
    have hget : (pre ++ m :: suf)[pre.length]? = some m := by
      rw [List.getElem?_append_right (le_refl _), Nat.sub_self, List.getElem?_cons_zero]
    rw [hget]
    simp only [Option.bind_eq_bind, Option.some_bind, parallel_collect, Option.pure_def]
    cases hd : dist p m with
    | none => simp
    | some d =>
      simp only [Option.some_bind]
      have hsplit : pre ++ m :: suf = (pre ++ [m]) ++ suf := by simp
      have hlen : pre.length + 1 = (pre ++ [m]).length := by simp
      rw [hsplit, hlen, ih (pre ++ [m]) (track acc pre.length d)]
      cases parallel_collect (dist p) suf with
      | none => rfl
      | some ds => simp [scan]

theorem find_appropriate_cluster_eq (dist : distance_calculator) (p : Nat) (M : medoid_sequence) :
    find_appropriate_cluster dist p M =
      (parallel_collect (dist p) M).bind (fun ds => some (scan 0 ds no_cluster)) := by
  unfold find_appropriate_cluster
  have h := find_fold_eq dist p M [] no_cluster
  simp only [List.length_nil, List.nil_append] at h
  rw [List.range_eq_range']
  exact h

/-- What the scan returns as winning slot and first distance: either nothing beat the record
it started with, or the winner is the first slot that holds the least distance. -/
theorem scan_spec : ∀ (ds : List ℚ) (s : Nat) (acc : appropriate_cluster),
    ((scan s ds acc).m_index = acc.m_index ∧
      (scan s ds acc).m_distance_to_first_medoid = acc.m_distance_to_first_medoid ∧
      ∀ d ∈ ds, acc.m_distance_to_first_medoid ≤ d) ∨
    (∃ j, ds[j]? = some (scan s ds acc).m_distance_to_first_medoid ∧
      (scan s ds acc).m_index = s + j ∧
      (scan s ds acc).m_distance_to_first_medoid < acc.m_distance_to_first_medoid ∧
      (∀ j2 < j, ∀ u, ds[j2]? = some u → (scan s ds acc).m_distance_to_first_medoid < u) ∧
      (∀ u ∈ ds, (scan s ds acc).m_distance_to_first_medoid ≤ u)) := by
  intro ds
  induction ds with
  | nil =>
    intro s acc
    left
    simp [scan]
  | cons d ds ih =>
    intro s acc
    rw [scan]
    by_cases hd : d < acc.m_distance_to_first_medoid
    · have htrack : track acc s d = ⟨s, d, acc.m_distance_to_first_medoid⟩ := by
        unfold track
        rw [if_pos hd]
      rw [htrack]
      rcases ih (s + 1) ⟨s, d, acc.m_distance_to_first_medoid⟩ with ⟨h1, h2, h3⟩ | ⟨j, h1, h2, h3, h4, h5⟩
      · right
        refine ⟨0, ?_, ?_, ?_, ?_, ?_⟩
        · rw [h2]; simp
        · rw [h1]; simp
        · rw [h2]; exact hd
        · intro j2 hj2; omega
        · intro u hu
          rw [h2]
          rcases List.mem_cons.1 hu with rfl | hu
          · exact le_refl _
          · exact h3 u hu
      · right
        refine ⟨j + 1, ?_, ?_, ?_, ?_, ?_⟩
        · simpa using h1
        · rw [h2]; omega
        · exact lt_trans h3 hd
        · intro j2 hj2 u hu
          cases j2 with
          | zero =>
            simp only [List.getElem?_cons_zero, Option.some.injEq] at hu
            rw [← hu]; exact h3
          | succ j3 =>
            simp only [List.getElem?_cons_succ] at hu
            exact h4 j3 (by omega) u hu
        · intro u hu
          rcases List.mem_cons.1 hu with rfl | hu
          · exact le_of_lt h3
          · exact h5 u hu
    · have hidx : (track acc s d).m_index = acc.m_index := by
        unfold track
        rw [if_neg hd]
        split <;> rfl
      have hfirst : (track acc s d).m_distance_to_first_medoid
          = acc.m_distance_to_first_medoid := by
        unfold track
        rw [if_neg hd]
        split <;> rfl
      rcases ih (s + 1) (track acc s d) with ⟨h1, h2, h3⟩ | ⟨j, h1, h2, h3, h4, h5⟩
      · left
        refine ⟨by rw [h1, hidx], by rw [h2, hfirst], ?_⟩
        intro u hu
        rcases List.mem_cons.1 hu with rfl | hu
        · exact not_lt.1 hd
        · rw [← hfirst]; exact h3 u hu
      · right
        rw [hfirst] at h3
        refine ⟨j + 1, ?_, ?_, h3, ?_, ?_⟩
        · simpa using h1
        · rw [h2]; omega
        · intro j2 hj2 u hu
          cases j2 with
          | zero =>
            simp only [List.getElem?_cons_zero, Option.some.injEq] at hu
            rw [← hu]; exact lt_of_lt_of_le h3 (not_lt.1 hd)
          | succ j3 =>
            simp only [List.getElem?_cons_succ] at hu
            exact h4 j3 (by omega) u hu
        · intro u hu
          rcases List.mem_cons.1 hu with rfl | hu
          · exact le_of_lt (lt_of_lt_of_le h3 (not_lt.1 hd))
          · exact h5 u hu

/-- The winner of the scan is determined by being the first slot with the least distance. -/
theorem scan_unique (ds : List ℚ) (s : Nat) (acc : appropriate_cluster) (j : Nat) (v : ℚ)
    (hj : ds[j]? = some v) (hlt : v < acc.m_distance_to_first_medoid)
    (hfirst : ∀ j2 < j, ∀ u, ds[j2]? = some u → v < u) (hmin : ∀ u ∈ ds, v ≤ u) :
    (scan s ds acc).m_index = s + j ∧ (scan s ds acc).m_distance_to_first_medoid = v := by
  have hv : v ∈ ds := List.mem_iff_getElem?.2 ⟨j, hj⟩
  rcases scan_spec ds s acc with ⟨_, _, h3⟩ | ⟨j1, h1, h2, h3, h4, h5⟩
  · exact absurd (h3 v hv) (not_le.2 hlt)
  · have hr : (scan s ds acc).m_distance_to_first_medoid ∈ ds :=
      List.mem_iff_getElem?.2 ⟨j1, h1⟩
    have heq : (scan s ds acc).m_distance_to_first_medoid = v :=
      le_antisymm (h5 v hv) (hmin _ hr)
    refine ⟨?_, heq⟩
    rw [h2]
    rcases Nat.lt_trichotomy j1 j with hlt1 | heq1 | hgt1
    · have := hfirst j1 hlt1 _ h1
      rw [heq] at this
      exact absurd this (lt_irrefl _)
    · rw [heq1]
    · have := h4 j hgt1 v hj
      rw [heq] at this
      exact absurd this (lt_irrefl _)

/-! ### The sequential loop of `update_clusters` -/

theorem write_at_eq_some {α : Type} (v : List α) (index : Nat) (x : α) (r : List α) :
    write_at v index x = some r ↔ index < v.length ∧ r = v.set index x := by
  unfold write_at
  split
  · simp [*, eq_comm]
  · simp [*]

theorem overwrite_length {α : Type} (old new : List α) (m : Nat) (h : m ≤ new.length) :
    (overwrite old new m).length = max m old.length := by
  unfold overwrite
  simp only [List.length_append, List.length_take, List.length_drop]
  omega

theorem overwrite_zero {α : Type} (old new : List α) : overwrite old new 0 = old := by
  simp [overwrite]

theorem overwrite_all {α : Type} (old new : List α) (h : old.length = new.length) :
    overwrite old new new.length = new := by
  simp [overwrite, ← h]

theorem overwrite_getElem? {α : Type} (old new : List α) (m i : Nat) (hm : m ≤ new.length) :
    (overwrite old new m)[i]? = if i < m then new[i]? else old[i]? := by
  unfold overwrite
  rw [List.getElem?_append]
  simp only [List.length_take, List.getElem?_take, List.getElem?_drop]
  have hmin : min m new.length = m := Nat.min_eq_left hm
  rw [hmin]
  by_cases h : i < m
  · simp [h]
  · simp only [h, if_false]
    congr 1
    omega

theorem overwrite_set {α : Type} (old new : List α) (m : Nat) (x : α)
    (hx : new[m]? = some x) (hold : m < old.length) :
    (overwrite old new m).set m x = overwrite old new (m + 1) := by
  have hm : m < new.length := by
    rcases List.getElem?_eq_some.1 hx with ⟨h, _⟩
    exact h
  apply List.ext_getElem?
  intro i
  rw [List.getElem?_set, overwrite_getElem? old new m i (le_of_lt hm),
    overwrite_getElem? old new (m + 1) i hm, overwrite_length old new m (le_of_lt hm)]
  by_cases him : m = i
  · subst him
    simp [hx, hold]
  · rw [if_neg him]
    by_cases h1 : i < m
    · rw [if_pos h1, if_pos (by omega)]
    · rw [if_neg h1, if_neg (by omega)]

theorem write_at_overwrite {α : Type} (old new : List α) (m : Nat) (x : α)
    (hx : new[m]? = some x) (r : List α) :
    write_at (overwrite old new m) m x = some r ↔
      m < old.length ∧ r = overwrite old new (m + 1) := by
  have hm : m < new.length := by
    rcases List.getElem?_eq_some.1 hx with ⟨h, _⟩
    exact h
  rw [write_at_eq_some, overwrite_length old new m (le_of_lt hm)]
  constructor
  · rintro ⟨h1, h2⟩
    have hold : m < old.length := by omega
    exact ⟨hold, by rw [h2, overwrite_set old new m x hx hold]⟩
  · rintro ⟨h1, h2⟩
    exact ⟨by omega, by rw [h2, overwrite_set old new m x hx h1]⟩

theorem members_succ (labels : List Nat) (m i : Nat) :
    members labels (m + 1) i =
      members labels m i ++ (if labels[m]? = some i then [m] else []) := by
  unfold members
  rw [List.range_succ, List.filter_append]
  congr 1
  by_cases h : labels[m]? = some i
  · simp [h]
  · simp [h]

theorem grouped_length (labels : List Nat) (k m : Nat) : (grouped labels k m).length = k := by
  simp [grouped]

theorem grouped_getElem? (labels : List Nat) (k m i : Nat) :
    (grouped labels k m)[i]? = if i < k then some (members labels m i) else none := by
  unfold grouped
  rw [List.getElem?_map]
  by_cases h : i < k
  · rw [List.getElem?_range h, if_pos h]
    rfl
  · rw [if_neg h, List.getElem?_eq_none (by simpa using h)]
    rfl

theorem grouped_zero (labels : List Nat) (k : Nat) :
    grouped labels k 0 = List.replicate k [] := by
  apply List.ext_getElem?
  intro i
  rw [grouped_getElem?, List.getElem?_replicate]
  simp [members]

theorem push_back_at_grouped (labels : List Nat) (k m w : Nat) (hw : labels[m]? = some w)
    (r : cluster_sequence) :
    push_back_at (grouped labels k m) w m = some r ↔ w < k ∧ r = grouped labels k (m + 1) := by
  unfold push_back_at
  rw [grouped_getElem?]
  by_cases h : w < k
  · rw [if_pos h]
    simp only [Option.bind_eq_bind, Option.some_bind, Option.pure_def, Option.some.injEq, h,
      true_and]
    have key : (grouped labels k m).set w (members labels m w ++ [m])
        = grouped labels k (m + 1) := by
      apply List.ext_getElem?
      intro i
      rw [List.getElem?_set, grouped_getElem?, grouped_getElem?, grouped_length]
      by_cases hwi : w = i
      · subst hwi
        rw [if_pos rfl, if_pos h, if_pos h, members_succ, if_pos hw]
      · rw [if_neg hwi]
        by_cases hi : i < k
        · rw [if_pos hi, if_pos hi, members_succ]
          have : ¬ labels[m]? = some i := by
            rw [hw]
            intro hc
            exact hwi (Option.some.inj hc)
          rw [if_neg this, List.append_nil]
        · rw [if_neg hi, if_neg hi]
    rw [key]
    exact eq_comm
  · rw [if_neg h]
    simp [h]

theorem take_succ_map_sum (markers : List appropriate_cluster) (m : Nat)
    (mk : appropriate_cluster) (h : markers[m]? = some mk) (f : appropriate_cluster → ℚ) :
    ((markers.take (m + 1)).map f).sum = ((markers.take m).map f).sum + f mk := by
  rw [List.take_succ, h]
  simp

theorem update_step_upto (markers : List appropriate_cluster) (k : Nat) (st : state) (m : Nat)
    (x : ℚ × state) :
    update_step markers (update_upto markers k st m) m = some x ↔
      update_in_range markers k st m ∧ x = update_upto markers k st (m + 1) := by
  unfold update_step update_in_range
  cases hmk : markers[m]? with
  | none => simp
  | some mk =>
    have hw : (markers.map (fun mk => mk.m_index))[m]? = some mk.m_index := by
      rw [List.getElem?_map, hmk]; rfl
    have hf : (markers.map (fun mk => mk.m_distance_to_first_medoid))[m]?
        = some mk.m_distance_to_first_medoid := by
      rw [List.getElem?_map, hmk]; rfl
    have hs : (markers.map (fun mk => mk.m_distance_to_second_medoid))[m]?
        = some mk.m_distance_to_second_medoid := by
      rw [List.getElem?_map, hmk]; rfl
    simp only [Option.bind_eq_bind, Option.some_bind, Option.pure_def, Option.some.injEq,
      exists_eq_left']
    constructor
    · intro h
      rcases Option.bind_eq_some.1 h with ⟨labels, h1, h⟩
      rcases Option.bind_eq_some.1 h with ⟨clusters, h2, h⟩
      rcases Option.bind_eq_some.1 h with ⟨first, h3, h⟩
      rcases Option.bind_eq_some.1 h with ⟨second, h4, h⟩
      simp only [update_upto] at h1 h2 h3 h4 h
      rw [write_at_overwrite _ _ _ _ hw] at h1
      rw [push_back_at_grouped _ _ _ _ hw] at h2
      rw [write_at_overwrite _ _ _ _ hf] at h3
      rw [write_at_overwrite _ _ _ _ hs] at h4
      refine ⟨⟨h2.1, h1.1, h3.1, h4.1⟩, ?_⟩
      rw [← Option.some.inj h, h1.2, h2.2, h3.2, h4.2]
      simp only [update_upto]
      rw [take_succ_map_sum markers m mk hmk]
    · rintro ⟨⟨c1, c2, c3, c4⟩, hx⟩
      simp only [update_upto]
      rw [(write_at_overwrite _ _ _ _ hw _).2 ⟨c2, rfl⟩,
        (push_back_at_grouped _ _ _ _ hw _).2 ⟨c1, rfl⟩,
        (write_at_overwrite _ _ _ _ hf _).2 ⟨c3, rfl⟩,
        (write_at_overwrite _ _ _ _ hs _).2 ⟨c4, rfl⟩]
      simp only [Option.some_bind]
      rw [hx]
      simp only [update_upto]
      rw [take_succ_map_sum markers m mk hmk]

theorem update_fold (markers : List appropriate_cluster) (k : Nat) (st : state) :
    ∀ (m : Nat) (x : ℚ × state),
      (List.range m).foldlM (update_step markers) (update_upto markers k st 0) = some x ↔
        (∀ p < m, update_in_range markers k st p) ∧ x = update_upto markers k st m := by
  intro m
  induction m with
  | zero =>
    intro x
    simp [eq_comm]
  | succ m ih =>
    intro x
    rw [List.range_succ, List.foldlM_append]
    simp only [List.foldlM_cons, List.foldlM_nil, Option.bind_eq_bind, Option.pure_def]
    constructor
    · intro h
      rcases Option.bind_eq_some.1 h with ⟨acc, h1, h2⟩
      rcases (ih acc).1 h1 with ⟨hc, rfl⟩
      rcases Option.bind_eq_some.1 h2 with ⟨y, h3, h4⟩
      rcases (update_step_upto markers k st m y).1 h3 with ⟨hcm, rfl⟩
      refine ⟨?_, (Option.some.inj h4).symm⟩
      intro p hp
      rcases Nat.lt_succ_iff_lt_or_eq.1 hp with hlt | rfl
      · exact hc p hlt
      · exact hcm
    · rintro ⟨hc, rfl⟩
      rw [(ih _).2 ⟨fun p hp => hc p (Nat.lt_succ_of_lt hp), rfl⟩]
      simp only [Option.some_bind]
      rw [(update_step_upto markers k st m _).2 ⟨hc m (Nat.lt_succ_self m), rfl⟩]
      rfl

theorem update_upto_zero (markers : List appropriate_cluster) (k : Nat) (st : state) :
    update_upto markers k st 0 =
      (0, { st with result := { st.result with clusters := List.replicate k [] } }) := by
  simp only [update_upto, grouped_zero, overwrite_zero, List.take_zero, List.map_nil,
    List.sum_nil]

/-- `update_clusters` returns exactly when the nearest-medoid search of every point returns
and every access of the sequential loop is in range; its result is then the grouping of the
points under their winning slots. -/
theorem update_clusters_eq_some (size : Nat) (dist : distance_calculator) (st : state)
    (x : ℚ × state) :
    update_clusters size dist st = some x ↔
      ∃ markers, parallel_collect
          (fun p_index => find_appropriate_cluster dist p_index st.result.medoids)
          (List.range size) = some markers ∧
        (∀ p < size, update_in_range markers st.result.medoids.length st p) ∧
        x = update_upto markers st.result.medoids.length st size := by
  unfold update_clusters
  simp only [Option.bind_eq_bind]
  constructor
  · intro h
    rcases Option.bind_eq_some.1 h with ⟨markers, h1, h2⟩
    rw [← update_upto_zero markers, update_fold] at h2
    exact ⟨markers, h1, h2⟩
  · rintro ⟨markers, h1, h2⟩
    rw [h1]
    simp only [Option.some_bind]
    rw [← update_upto_zero markers, update_fold]
    exact h2

/-! ### Folds in `Option` -/

theorem foldlM_invariant {α β : Type} (f : β → α → Option β) (P : β → Prop) :
    ∀ (l : List α) (init r : β), P init →
      (∀ acc x acc2, x ∈ l → P acc → f acc x = some acc2 → P acc2) →
      l.foldlM f init = some r → P r := by
  intro l
  induction l with
  | nil =>
    intro init r h0 _ h
    simp only [List.foldlM_nil, Option.pure_def, Option.some.injEq] at h
    rw [← h]; exact h0
  | cons a l ih =>
    intro init r h0 hstep h
    rw [List.foldlM_cons] at h
    rcases Option.bind_eq_some.1 h with ⟨b, hb, h2⟩
    exact ih b r (hstep init a b (List.mem_cons_self a l) h0 hb)
      (fun acc x acc2 hx => hstep acc x acc2 (List.mem_cons_of_mem a hx)) h2

theorem foldlM_total {α β : Type} (f : β → α → Option β) (P : β → Prop) :
    ∀ (l : List α) (init : β), P init →
      (∀ acc x, x ∈ l → P acc → ∃ acc2, f acc x = some acc2 ∧ P acc2) →
      ∃ r, l.foldlM f init = some r ∧ P r := by
  intro l
  induction l with
  | nil =>
    intro init h0 _
    exact ⟨init, rfl, h0⟩
  | cons a l ih =>
    intro init h0 hstep
    rcases hstep init a (List.mem_cons_self a l) h0 with ⟨b, hb, hPb⟩
    rcases ih b hPb (fun acc x hx => hstep acc x (List.mem_cons_of_mem a hx)) with ⟨r, hr, hPr⟩
    refine ⟨r, ?_, hPr⟩
    rw [List.foldlM_cons, hb]
    exact hr

theorem parallel_collect_total {α : Type} (f : Nat → Option α) :
    ∀ (l : List Nat), (∀ i ∈ l, ∃ a, f i = some a) → ∃ r, parallel_collect f l = some r := by
  intro l
  induction l with
  | nil => intro _; exact ⟨[], rfl⟩
  | cons i rest ih =>
    intro h
    rcases h i (List.mem_cons_self i rest) with ⟨a, ha⟩
    rcases ih (fun j hj => h j (List.mem_cons_of_mem i hj)) with ⟨r, hr⟩
    refine ⟨a :: r, ?_⟩
    rw [parallel_collect, ha, hr]
    rfl

theorem parallel_collect_mem {α : Type} {f : Nat → Option α} {l : List Nat} {r : List α}
    (h : parallel_collect f l = some r) (a : α) (ha : a ∈ r) : ∃ i ∈ l, f i = some a := by
  have hf := (parallel_collect_forall2 f l r).1 h
  induction hf with
  | nil => cases ha
  | cons hab _ ih =>
    rename_i i b l2 r2 hrest
    rcases List.mem_cons.1 ha with rfl | ha2
    · exact ⟨i, List.mem_cons_self i l2, hab⟩
    · rcases ih ((parallel_collect_forall2 f l2 r2).2 hrest) ha2 with ⟨j, hj, hfj⟩
      exact ⟨j, List.mem_cons_of_mem i hj, hfj⟩

/-! ### Consequences of the characterisation of `update_clusters` -/

theorem update_upto_frame (markers : List appropriate_cluster) (k : Nat) (st : state)
    (m : Nat) (hm : m ≤ markers.length) :
    (update_upto markers k st m).2.result.medoids = st.result.medoids ∧
    (update_upto markers k st m).2.result.iterations = st.result.iterations ∧
    (update_upto markers k st m).2.result.total_deviation = st.result.total_deviation ∧
    (update_upto markers k st m).2.result.clusters.length = k ∧
    (update_upto markers k st m).2.m_labels.length = max m st.m_labels.length ∧
    (update_upto markers k st m).2.m_distance_first_medoid.length
      = max m st.m_distance_first_medoid.length ∧
    (update_upto markers k st m).2.m_distance_second_medoid.length
      = max m st.m_distance_second_medoid.length := by
  simp only [update_upto, grouped_length, true_and]
  refine ⟨?_, ?_, ?_⟩ <;>
  · rw [overwrite_length]
    simpa using hm

/-- After `update_clusters` the result holds the assignment of its medoids (with the returned
total deviation stored); the medoids and the iteration counter are untouched, there is one
cluster per medoid, and the three per-point vectors keep their lengths. -/
theorem update_clusters_spec (size : Nat) (dist : distance_calculator) (st : state)
    (x : ℚ × state) (h : update_clusters size dist st = some x) :
    assigned size dist { x.2.result with total_deviation := x.1 } ∧
    x.2.result.medoids = st.result.medoids ∧
    x.2.result.iterations = st.result.iterations ∧
    x.2.result.clusters.length = st.result.medoids.length ∧
    x.2.m_labels.length = st.m_labels.length ∧
    x.2.m_distance_first_medoid.length = st.m_distance_first_medoid.length ∧
    x.2.m_distance_second_medoid.length = st.m_distance_second_medoid.length ∧
    size ≤ st.m_labels.length ∧ size ≤ st.m_distance_first_medoid.length ∧
    size ≤ st.m_distance_second_medoid.length := by
  rcases (update_clusters_eq_some size dist st x).1 h with ⟨markers, h1, h2, rfl⟩
  have hlen : markers.length = size := by
    rw [parallel_collect_length h1, List.length_range]
  have hfr := update_upto_frame markers st.result.medoids.length st size (le_of_eq hlen.symm)
  have hl1 : size ≤ st.m_labels.length := by
    cases size with
    | zero => exact Nat.zero_le _
    | succ n =>
      rcases h2 n (Nat.lt_succ_self n) with ⟨_, _, _, c, _, _⟩
      exact c
  have hl2 : size ≤ st.m_distance_first_medoid.length := by
    cases size with
    | zero => exact Nat.zero_le _
    | succ n =>
      rcases h2 n (Nat.lt_succ_self n) with ⟨_, _, _, _, c, _⟩
      exact c
  have hl3 : size ≤ st.m_distance_second_medoid.length := by
    cases size with
    | zero => exact Nat.zero_le _
    | succ n =>
      rcases h2 n (Nat.lt_succ_self n) with ⟨_, _, _, _, _, c⟩
      exact c
  refine ⟨?_, hfr.1, hfr.2.1, hfr.2.2.2.1, ?_, ?_, ?_, hl1, hl2, hl3⟩
  · refine ⟨markers, ?_, ?_, ?_, ?_⟩
    · simpa only [update_upto] using h1
    · intro mk hmk
      rcases List.mem_iff_getElem?.1 hmk with ⟨p, hp⟩
      have hp2 : p < size := by
        rcases List.getElem?_eq_some.1 hp with ⟨hh, _⟩
        omega
      rcases h2 p hp2 with ⟨mk2, e, c, _⟩
      rw [hp] at e
      rw [Option.some.inj e]
      simpa only [update_upto] using c
    · simp only [update_upto]
    · simp only [update_upto]
      rw [← hlen, List.take_length]
  · rw [hfr.2.2.2.2.1]; omega
  · rw [hfr.2.2.2.2.2.1]; omega
  · rw [hfr.2.2.2.2.2.2]; omega

/-- Running `update_clusters` on a state whose medoids are assigned reproduces the clusters and
the total deviation of that assignment. -/
theorem update_clusters_of_assigned (size : Nat) (dist : distance_calculator)
    (r : kmedoids_data) (st : state) (h : assigned size dist r)
    (hm : st.result.medoids = r.medoids) (hl1 : size ≤ st.m_labels.length)
    (hl2 : size ≤ st.m_distance_first_medoid.length)
    (hl3 : size ≤ st.m_distance_second_medoid.length) :
    ∃ st2, update_clusters size dist st = some (r.total_deviation, st2) ∧
      st2.result.clusters = r.clusters ∧ st2.result.medoids = r.medoids := by
  rcases h with ⟨markers, h1, h2, h3, h4⟩
  have hlen : markers.length = size := by
    rw [parallel_collect_length h1, List.length_range]
  refine ⟨(update_upto markers st.result.medoids.length st size).2, ?_, ?_, ?_⟩
  · rw [update_clusters_eq_some]
    refine ⟨markers, by rw [hm]; exact h1, ?_, ?_⟩
    · intro p hp
      have hp2 : p < markers.length := by omega
      refine ⟨markers[p], List.getElem?_eq_getElem hp2, ?_, by omega, by omega, by omega⟩
      rw [hm]
      exact h2 _ (List.getElem_mem hp2)
    · rw [h4]
      simp only [update_upto]
      rw [← hlen, List.take_length]
  · simp only [update_upto]
    rw [h3, hm]
  · simp only [update_upto]
    exact hm

/-! ### `swap_medoids` -/

theorem chunk_step_cases (size : Nat) (dist : distance_calculator) (st : state)
    (index_cluster : Nat) (chunk : optimal_chunk) (x : Nat) (chunk2 : optimal_chunk)
    (h : chunk_step size dist st index_cluster chunk x = some chunk2) :
    chunk2 = chunk ∨
      (x ∉ st.result.medoids ∧ chunk2.index_medoid = x ∧ chunk2.cost < chunk.cost ∧
        ∃ first, st.m_distance_first_medoid[x]? = some first ∧ first ≠ 0 ∧
          calculate_swap_cost size dist st x index_cluster = some chunk2.cost) := by
  unfold chunk_step at h
  by_cases hmem : x ∈ st.result.medoids
  · rw [if_pos hmem] at h
    left
    exact (Option.some.inj h).symm
  · rw [if_neg hmem] at h
    simp only [Option.bind_eq_bind, Option.pure_def] at h
    rcases Option.bind_eq_some.1 h with ⟨first, hfirst, h2⟩
    by_cases hz : first = 0
    · rw [if_pos hz] at h2
      left
      exact (Option.some.inj h2).symm
    · rw [if_neg hz] at h2
      rcases Option.bind_eq_some.1 h2 with ⟨cost, hcost, h3⟩
      by_cases hlt : cost < chunk.cost
      · rw [if_pos hlt] at h3
        right
        rw [← Option.some.inj h3]
        exact ⟨hmem, rfl, hlt, first, hfirst, hz, hcost⟩
      · rw [if_neg hlt] at h3
        left
        exact (Option.some.inj h3).symm

/-- The best candidate of one cluster, when there is one, is a point of the dataset that is
not a medoid. -/
theorem chunk_fold_spec (size : Nat) (dist : distance_calculator) (st : state)
    (index_cluster : Nat) (chunk : optimal_chunk)
    (h : (List.range size).foldlM (chunk_step size dist st index_cluster)
      { cost := DBL_MAX, index_medoid := INVALID_INDEX } = some chunk) :
    chunk.cost ≤ DBL_MAX ∧
    (chunk.cost < DBL_MAX → chunk.index_medoid < size ∧
      chunk.index_medoid ∉ st.result.medoids) := by
  refine foldlM_invariant (chunk_step size dist st index_cluster)
    (fun c => c.cost ≤ DBL_MAX ∧
      (c.cost < DBL_MAX → c.index_medoid < size ∧ c.index_medoid ∉ st.result.medoids))
    (List.range size) _ chunk ?_ ?_ h
  · exact ⟨le_refl _, fun hlt => absurd hlt (lt_irrefl _)⟩
  · intro acc x acc2 hx hacc hstep
    rcases chunk_step_cases size dist st index_cluster acc x acc2 hstep with rfl | ⟨h1, h2, h3, _⟩
    · exact hacc
    · refine ⟨le_trans (le_of_lt h3) hacc.1, fun _ => ?_⟩
      rw [h2]
      exact ⟨List.mem_range.1 hx, h1⟩

theorem select_step_cases (cluster_chunks : List optimal_chunk) (best : optimal_swap)
    (index_cluster : Nat) (best2 : optimal_swap)
    (h : select_step cluster_chunks best index_cluster = some best2) :
    best2 = best ∨
      ∃ chunk, cluster_chunks[index_cluster]? = some chunk ∧
        chunk.cost < best.optimal_swap_cost ∧
        best2 = ⟨chunk.cost, index_cluster, chunk.index_medoid⟩ := by
  unfold select_step at h
  simp only [Option.bind_eq_bind, Option.pure_def] at h
  rcases Option.bind_eq_some.1 h with ⟨chunk, hchunk, h2⟩
  by_cases hlt : chunk.cost < best.optimal_swap_cost
  · rw [if_pos hlt] at h2
    right
    exact ⟨chunk, hchunk, hlt, (Option.some.inj h2).symm⟩
  · rw [if_neg hlt] at h2
    left
    exact (Option.some.inj h2).symm

/-- The swap selected over all clusters: either none (the accumulator is untouched), or a
cluster index in range together with a point of the dataset that is not a medoid. -/
theorem select_fold_spec (size : Nat) (medoids : medoid_sequence)
    (cluster_chunks : List optimal_chunk) (best : optimal_swap)
    (hchunks : ∀ chunk ∈ cluster_chunks, chunk.cost < DBL_MAX →
      chunk.index_medoid < size ∧ chunk.index_medoid ∉ medoids)
    (h : (List.range cluster_chunks.length).foldlM (select_step cluster_chunks)
      { optimal_swap_cost := DBL_MAX, optimal_index_cluster := INVALID_INDEX,
        optimal_index_medoid := INVALID_INDEX } = some best) :
    (best.optimal_index_cluster = INVALID_INDEX ∧ best.optimal_swap_cost = DBL_MAX) ∨
    (best.optimal_swap_cost < DBL_MAX ∧ best.optimal_index_cluster < cluster_chunks.length ∧
      best.optimal_index_medoid < size ∧ best.optimal_index_medoid ∉ medoids) := by
  refine foldlM_invariant (select_step cluster_chunks)
    (fun b => (b.optimal_index_cluster = INVALID_INDEX ∧ b.optimal_swap_cost = DBL_MAX) ∨
      (b.optimal_swap_cost < DBL_MAX ∧ b.optimal_index_cluster < cluster_chunks.length ∧
        b.optimal_index_medoid < size ∧ b.optimal_index_medoid ∉ medoids))
    (List.range cluster_chunks.length) _ best ?_ ?_ h
  · left
    exact ⟨rfl, rfl⟩
  · intro acc x acc2 hx hacc hstep
    rcases select_step_cases cluster_chunks acc x acc2 hstep with rfl | ⟨chunk, h1, h2, rfl⟩
    · exact hacc
    · right
      have hle : acc.optimal_swap_cost ≤ DBL_MAX := by
        rcases hacc with ⟨_, e⟩ | ⟨l, _⟩
        · exact le_of_eq e
        · exact le_of_lt l
      have hlt : chunk.cost < DBL_MAX := lt_of_lt_of_le h2 hle
      have hmem : chunk ∈ cluster_chunks := List.mem_iff_getElem?.2 ⟨x, h1⟩
      exact ⟨hlt, List.mem_range.1 hx, hchunks chunk hmem hlt⟩

/-- What `swap_medoids` does to the state: nothing when it returns the sentinel; otherwise
at most one medoid slot is overwritten, with a point of the dataset that was not a medoid.
Everything but the medoid sequence is left as it was. -/
theorem swap_medoids_spec (size : Nat) (dist : distance_calculator) (st : state)
    (x : ℚ × state) (h : swap_medoids size dist st = some x) :
    (x.2 = st ∨
      (x.1 < DBL_MAX ∧ ∃ index_cluster index_medoid,
        index_cluster < st.result.medoids.length ∧ index_cluster < st.result.clusters.length ∧
        index_medoid < size ∧ index_medoid ∉ st.result.medoids ∧
        x.2 = { st with result :=
          { st.result with medoids := st.result.medoids.set index_cluster index_medoid } })) ∧
    (x.1 = NOTHING_TO_SWAP → x.2 = st) := by
  unfold swap_medoids at h
  simp only [Option.bind_eq_bind, Option.pure_def] at h
  rcases Option.bind_eq_some.1 h with ⟨chunks, hchunks, h2⟩
  rcases Option.bind_eq_some.1 h2 with ⟨best, hbest, h3⟩
  have hlen : chunks.length = st.result.clusters.length := by
    rw [parallel_collect_length hchunks, List.length_range]
  have hall : ∀ chunk ∈ chunks, chunk.cost < DBL_MAX →
      chunk.index_medoid < size ∧ chunk.index_medoid ∉ st.result.medoids := by
    intro chunk hmem
    rcases parallel_collect_mem hchunks chunk hmem with ⟨i, _, hi⟩
    exact (chunk_fold_spec size dist st i chunk hi).2
  have hsel := select_fold_spec size st.result.medoids chunks best hall hbest
  by_cases hidx : best.optimal_index_cluster = INVALID_INDEX
  · rw [if_neg (not_not.2 hidx)] at h3
    rw [← Option.some.inj h3]
    exact ⟨Or.inl rfl, fun _ => rfl⟩
  · rw [if_pos hidx] at h3
    rcases Option.bind_eq_some.1 h3 with ⟨medoids, hw, h4⟩
    rcases (write_at_eq_some _ _ _ _).1 hw with ⟨hin, rfl⟩
    rcases hsel with ⟨e, _⟩ | ⟨c1, c2, c3, c4⟩
    · exact absurd e hidx
    · rw [← Option.some.inj h4]
      refine ⟨Or.inr ⟨c1, best.optimal_index_cluster, best.optimal_index_medoid, hin,
        by omega, c3, c4, rfl⟩, ?_⟩
      intro hc
      simp only [NOTHING_TO_SWAP] at hc
      rw [hc] at c1
      exact absurd c1 (lt_irrefl _)

/-! ### `erase_empty_clusters` -/

theorem erase_loop_step (fuel i : Nat) (C : cluster_sequence) (M : medoid_sequence)
    (c : cluster) (hi : i ≠ SIZE_MAX) (hc : C[i]? = some c) (hm : i < M.length) :
    erase_loop (fuel + 1) i (C, M) =
      if c.isEmpty then erase_loop fuel (size_t_pred i) (C.eraseIdx i, M.eraseIdx i)
      else erase_loop fuel (size_t_pred i) (C, M) := by
  rw [erase_loop, if_pos hi]
  simp only [hc, Option.bind_eq_bind, Option.some_bind]
  by_cases he : c.isEmpty = true
  · rw [if_pos he, if_pos he, if_pos hm]
  · rw [if_neg he, if_neg he]

theorem take_eraseIdx_self {α : Type} (P : List α) (k : Nat) (hk : k < P.length) :
    (P.eraseIdx k).take k = P.take k ∧ (P.eraseIdx k).drop k = P.drop (k + 1) := by
  rw [List.eraseIdx_eq_take_drop_succ]
  have hlen : (List.take k P).length = k := by
    rw [List.length_take]; omega
  constructor
  · exact List.take_left' hlen
  · exact List.drop_left' hlen

theorem map_eraseIdx {α β : Type} (f : α → β) (P : List α) (k : Nat) :
    (P.map f).eraseIdx k = (P.eraseIdx k).map f := by
  rw [List.eraseIdx_eq_take_drop_succ, List.eraseIdx_eq_take_drop_succ, List.map_append,
    List.map_take, List.map_drop]

/-- The backward scan from the index `i` on, on paired clusters and medoids: the pairs at the
indices `0 .. i` whose cluster is empty are removed, the others keep their order. -/
theorem erase_loop_pairs : ∀ (i : Nat) (P : List (cluster × Nat)) (fuel : Nat),
    i < P.length → i < fuel → P.length ≤ SIZE_MAX →
    erase_loop fuel i (P.map Prod.fst, P.map Prod.snd) =
      some ((((P.take (i + 1)).filter (fun pair => !pair.1.isEmpty)) ++ P.drop (i + 1)).map
          Prod.fst,
        (((P.take (i + 1)).filter (fun pair => !pair.1.isEmpty)) ++ P.drop (i + 1)).map
          Prod.snd) := by
  intro i
  induction i with
  | zero =>
    intro P fuel hP hfuel hmax
    cases fuel with
    | zero => exact absurd hfuel (lt_irrefl _)
    | succ f =>
      cases P with
      | nil => exact absurd hP (by simp)
      | cons pr rest =>
        have h0 : (0 : Nat) ≠ SIZE_MAX := by
          intro h
          rw [← h] at hmax
          simp at hmax
        rw [erase_loop_step f 0 _ _ pr.1 h0 (by simp) (by simp), size_t_pred_zero,
          erase_loop_stop, erase_loop_stop]
        by_cases he : pr.1.isEmpty = true
        · rw [if_pos he]
          simp [he]
        · rw [if_neg he]
          simp [he]
  | succ j ih =>
    intro P fuel hP hfuel hmax
    cases fuel with
    | zero => exact absurd hfuel (Nat.not_lt_zero _)
    | succ f =>
      have hne : j + 1 ≠ SIZE_MAX := by omega
      have hget : P[j + 1]? = some P[j + 1] := List.getElem?_eq_getElem hP
      have hc : (P.map Prod.fst)[j + 1]? = some P[j + 1].1 := by
        rw [List.getElem?_map, hget]; rfl
      rw [erase_loop_step f (j + 1) _ _ P[j + 1].1 hne hc (by simpa using hP),
        size_t_pred_succ]
      have htake : P.take (j + 1 + 1) = P.take (j + 1) ++ [P[j + 1]] := by
        rw [List.take_succ, hget]; rfl
      have hdrop : P.drop (j + 1) = P[j + 1] :: P.drop (j + 1 + 1) :=
        List.drop_eq_getElem_cons hP
      by_cases he : P[j + 1].1.isEmpty = true
      · rw [if_pos he, map_eraseIdx, map_eraseIdx,
          ih (P.eraseIdx (j + 1)) f (by rw [List.length_eraseIdx]; simp [hP]; omega)
            (by omega) (by rw [List.length_eraseIdx]; split <;> omega)]
        rw [(take_eraseIdx_self P (j + 1) hP).1, (take_eraseIdx_self P (j + 1) hP).2, htake,
          List.filter_append]
        simp [he]
      · rw [if_neg he, ih P f (by omega) (by omega) hmax, htake, List.filter_append, hdrop]
        simp [he]

/-- `erase_empty_clusters` is the forward compaction of the (medoid, cluster) pairs. -/
theorem erase_empty_clusters_eq (C : cluster_sequence) (M : medoid_sequence)
    (hlen : C.length = M.length) (hmax : C.length ≤ SIZE_MAX) :
    erase_empty_clusters (C, M) = some (forward_compaction (C, M)) := by
  unfold erase_empty_clusters forward_compaction
  have hC : (C.zip M).map Prod.fst = C := by
    rw [← List.unzip_fst, List.unzip_zip hlen]
  have hM : (C.zip M).map Prod.snd = M := by
    rw [← List.unzip_snd, List.unzip_zip hlen]
  have hzl : (C.zip M).length = C.length := by
    rw [List.length_zip, ← hlen, Nat.min_self]
  rw [List.unzip_eq_map]
  simp only
  cases hn : C.length with
  | zero =>
    have hCnil : C = [] := List.length_eq_zero.1 hn
    have hMnil : M = [] := List.length_eq_zero.1 (by omega)
    subst hCnil
    subst hMnil
    rw [size_t_pred_zero, erase_loop_stop]
    rfl
  | succ n =>
    rw [size_t_pred_succ]
    have h := erase_loop_pairs n (C.zip M) (n + 1) (by omega) (by omega) (by omega)
    rw [hC, hM] at h
    rw [h]
    have htake : (C.zip M).take (n + 1) = C.zip M := by
      apply List.take_of_length_le; omega
    have hdrop : (C.zip M).drop (n + 1) = [] := by
      apply List.drop_eq_nil_of_le; omega
    rw [htake, hdrop, List.append_nil]

theorem erase_loop_invariant (Inv : cluster_sequence × medoid_sequence → Prop)
    (hstep : ∀ (C : cluster_sequence) (M : medoid_sequence) (j : Nat), Inv (C, M) →
      C[j]? = some [] → j < M.length → Inv (C.eraseIdx j, M.eraseIdx j)) :
    ∀ (fuel i : Nat) (s s2 : cluster_sequence × medoid_sequence),
      Inv s → erase_loop fuel i s = some s2 → Inv s2 := by
  intro fuel
  induction fuel with
  | zero =>
    intro i s s2 hs h
    rw [erase_loop] at h
    by_cases hi : i ≠ SIZE_MAX
    · rw [if_pos hi] at h
      cases h
    · rw [if_neg hi] at h
      rw [← Option.some.inj h]
      exact hs
  | succ f ih =>
    intro i s s2 hs h
    rw [erase_loop] at h
    by_cases hi : i ≠ SIZE_MAX
    · rw [if_pos hi] at h
      simp only [Option.bind_eq_bind] at h
      rcases Option.bind_eq_some.1 h with ⟨c, hc, h2⟩
      by_cases he : c.isEmpty = true
      · rw [if_pos he] at h2
        by_cases hm : i < s.2.length
        · rw [if_pos hm] at h2
          have hnil : c = [] := List.isEmpty_iff.1 he
          rw [hnil] at hc
          exact ih _ _ s2 (hstep s.1 s.2 i hs hc hm) h2
        · rw [if_neg hm] at h2
          cases h2
      · rw [if_neg he] at h2
        exact ih _ _ s2 hs h2
    · rw [if_neg hi] at h
      rw [← Option.some.inj h]
      exact hs

theorem parallel_collect_eraseIdx {α : Type} (f : Nat → Option α) :
    ∀ (M : List Nat) (j : Nat) (ds : List α), parallel_collect f M = some ds →
      parallel_collect f (M.eraseIdx j) = some (ds.eraseIdx j) := by
  intro M
  induction M with
  | nil =>
    intro j ds h
    simp only [parallel_collect, Option.some.injEq] at h
    rw [← h]
    rfl
  | cons m rest ih =>
    intro j ds h
    rw [parallel_collect_forall2] at h
    cases h with
    | cons h1 h2 =>
      rename_i d ds2
      rw [← parallel_collect_forall2] at h2
      cases j with
      | zero =>
        simpa using h2
      | succ j2 =>
        rw [List.eraseIdx_cons_succ, List.eraseIdx_cons_succ, parallel_collect, h1,
          ih j2 ds2 h2]
        rfl

/-- Erasing a medoid slot that does not win for the point `p` leaves the first distance of
`p` as it is and shifts its winning slot accordingly. -/
theorem find_appropriate_cluster_eraseIdx (dist : distance_calculator) (p : Nat)
    (M : medoid_sequence) (j : Nat) (mk : appropriate_cluster)
    (h : find_appropriate_cluster dist p M = some mk) (hin : mk.m_index < M.length)
    (hmax : M.length ≤ SIZE_MAX) (hj : mk.m_index ≠ j) :
    ∃ mk2, find_appropriate_cluster dist p (M.eraseIdx j) = some mk2 ∧
      mk2.m_distance_to_first_medoid = mk.m_distance_to_first_medoid ∧
      mk2.m_index = if mk.m_index < j then mk.m_index else mk.m_index - 1 := by
  rw [find_appropriate_cluster_eq] at h
  rcases Option.bind_eq_some.1 h with ⟨ds, hds, h2⟩
  have hmk : scan 0 ds no_cluster = mk := Option.some.inj h2
  refine ⟨scan 0 (ds.eraseIdx j) no_cluster, ?_, ?_⟩
  · rw [find_appropriate_cluster_eq, parallel_collect_eraseIdx (dist p) M j ds hds]
    rfl
  · rcases scan_spec ds 0 no_cluster with ⟨h1, _, _⟩ | ⟨w, h1, h2, h3, h4, h5⟩
    · rw [hmk] at h1
      have : mk.m_index = SIZE_MAX := h1
      omega
    · rw [hmk] at h1 h2 h3 h4 h5
      have hw : mk.m_index = w := by omega
      have hwj : w ≠ j := by omega
      have key := scan_unique (ds.eraseIdx j) 0 no_cluster (if w < j then w else w - 1)
        mk.m_distance_to_first_medoid ?_ h3 ?_ ?_
      · rw [key.2, key.1, hw]
        exact ⟨rfl, by omega⟩
      · rw [List.getElem?_eraseIdx]
        by_cases hlt : w < j
        · rw [if_pos hlt, if_pos hlt]; exact h1
        · rw [if_neg hlt, if_neg (by omega)]
          have : w - 1 + 1 = w := by omega
          rw [this]; exact h1
      · intro j2 hj2 u hu
        rw [List.getElem?_eraseIdx] at hu
        by_cases hlt2 : j2 < j
        · rw [if_pos hlt2] at hu
          refine h4 j2 ?_ u hu
          by_cases hlt : w < j
          · rw [if_pos hlt] at hj2; exact hj2
          · omega
        · rw [if_neg hlt2] at hu
          refine h4 (j2 + 1) ?_ u hu
          by_cases hlt : w < j
          · rw [if_pos hlt] at hj2; omega
          · rw [if_neg hlt] at hj2; omega
      · intro u hu
        exact h5 u (List.mem_of_mem_eraseIdx hu)

theorem members_eq_nil_iff (labels : List Nat) (m i : Nat) :
    members labels m i = [] ↔ ∀ p < m, labels[p]? ≠ some i := by
  unfold members
  rw [List.filter_eq_nil_iff]
  constructor
  · intro h p hp
    have := h p (List.mem_range.2 hp)
    simpa using this
  · intro h p hp
    have := h p (List.mem_range.1 hp)
    simpa using this

theorem members_congr (l1 l2 : List Nat) (m i1 i2 : Nat)
    (h : ∀ p < m, (l1[p]? = some i1 ↔ l2[p]? = some i2)) :
    members l1 m i1 = members l2 m i2 := by
  unfold members
  apply List.filter_congr
  intro p hp
  have := h p (List.mem_range.1 hp)
  by_cases h1 : l1[p]? = some i1
  · simp [h1, this.1 h1]
  · have h2 : ¬ l2[p]? = some i2 := fun hc => h1 (this.2 hc)
    simp [h1, h2]

/-- Erasing an empty cluster together with its medoid keeps the result assigned. -/
theorem assigned_eraseIdx (size : Nat) (dist : distance_calculator) (r : kmedoids_data)
    (j : Nat) (h : assigned size dist r) (hj : r.clusters[j]? = some [])
    (hmax : r.medoids.length ≤ SIZE_MAX) :
    assigned size dist
      { r with clusters := r.clusters.eraseIdx j, medoids := r.medoids.eraseIdx j } := by
  rcases h with ⟨markers, h1, h2, h3, h4⟩
  have hlen : markers.length = size := by
    rw [parallel_collect_length h1, List.length_range]
  rw [h3, grouped_getElem?] at hj
  have hjk : j < r.medoids.length := by
    by_contra hc
    rw [if_neg hc] at hj
    cases hj
  rw [if_pos hjk] at hj
  have hnil := (members_eq_nil_iff _ _ _).1 (Option.some.inj hj)
  -- the search of every point on the shortened medoid sequence
  have hsearch : ∀ p < size, ∃ a b, markers[p]? = some a ∧
      find_appropriate_cluster dist p (r.medoids.eraseIdx j) = some b ∧
      b.m_distance_to_first_medoid = a.m_distance_to_first_medoid ∧
      b.m_index = (if a.m_index < j then a.m_index else a.m_index - 1) ∧
      a.m_index ≠ j ∧ a.m_index < r.medoids.length := by
    intro p hp
    rcases parallel_collect_range_getElem? h1 p hp with ⟨a, ha, hfa⟩
    have hain : a.m_index < r.medoids.length := h2 a (List.mem_iff_getElem?.2 ⟨p, ha⟩)
    have hne : a.m_index ≠ j := by
      intro hc
      apply hnil p hp
      rw [List.getElem?_map, ha, ← hc]
      rfl
    rcases find_appropriate_cluster_eraseIdx dist p r.medoids j a hfa hain hmax hne
      with ⟨b, hb1, hb2, hb3⟩
    exact ⟨a, b, ha, hb1, hb2, hb3, hne, hain⟩
  rcases parallel_collect_total
      (fun p_index => find_appropriate_cluster dist p_index (r.medoids.eraseIdx j))
      (List.range size)
      (fun i hi => by
        rcases hsearch i (List.mem_range.1 hi) with ⟨_, b, _, hb, _⟩
        exact ⟨b, hb⟩) with ⟨markers2, hm2⟩
  have hlen2 : markers2.length = size := by
    rw [parallel_collect_length hm2, List.length_range]
  have hpair : ∀ p < size, ∃ a b, markers[p]? = some a ∧ markers2[p]? = some b ∧
      b.m_distance_to_first_medoid = a.m_distance_to_first_medoid ∧
      b.m_index = (if a.m_index < j then a.m_index else a.m_index - 1) ∧
      a.m_index ≠ j ∧ a.m_index < r.medoids.length := by
    intro p hp
    rcases hsearch p hp with ⟨a, b, ha, hb, c1, c2, c3, c4⟩
    rcases parallel_collect_range_getElem? hm2 p hp with ⟨b2, hb2, hfb2⟩
    have : b2 = b := by
      rw [hb] at hfb2
      exact (Option.some.inj hfb2).symm
    subst this
    exact ⟨a, b2, ha, hb2, c1, c2, c3, c4⟩
  have hklen : (r.medoids.eraseIdx j).length = r.medoids.length - 1 := by
    rw [List.length_eraseIdx, if_pos hjk]
  refine ⟨markers2, hm2, ?_, ?_, ?_⟩
  · intro mk hmk
    rcases List.mem_iff_getElem?.1 hmk with ⟨p, hp⟩
    have hp2 : p < size := by
      rcases List.getElem?_eq_some.1 hp with ⟨hh, _⟩
      omega
    rcases hpair p hp2 with ⟨a, b, _, hb, _, c2, c3, c4⟩
    rw [hp] at hb
    rw [Option.some.inj hb]
    show b.m_index < (r.medoids.eraseIdx j).length
    rw [hklen, c2]
    split <;> omega
  · show (r.clusters.eraseIdx j) = grouped _ (r.medoids.eraseIdx j).length size
    rw [h3, hklen]
    apply List.ext_getElem?
    intro i
    rw [List.getElem?_eraseIdx, grouped_getElem?, grouped_getElem?, grouped_getElem?]
    have hmem : ∀ i2, (if i < j then i else i + 1) = i2 →
        members (markers.map fun mk => mk.m_index) size i2
          = members (markers2.map fun mk => mk.m_index) size i := by
      intro i2 hi2
      apply members_congr
      intro p hp
      rcases hpair p hp with ⟨a, b, ha, hb, _, c2, c3, c4⟩
      rw [List.getElem?_map, List.getElem?_map, ha, hb]
      simp only [Option.map_some', Option.some.injEq]
      rw [c2, ← hi2]
      by_cases hij : i < j
      · rw [if_pos hij]
        split <;> omega
      · rw [if_neg hij]
        split <;> omega
    by_cases hij : i < j
    · rw [if_pos hij, if_pos (by omega), if_pos (by omega), hmem i (by rw [if_pos hij])]
    · rw [if_neg hij]
      by_cases hik : i + 1 < r.medoids.length
      · rw [if_pos hik, if_pos (by omega), hmem (i + 1) (by rw [if_neg hij])]
      · rw [if_neg hik, if_neg (by omega)]
  · show r.total_deviation = _
    rw [h4]
    congr 1
    apply List.ext_getElem?
    intro p
    rw [List.getElem?_map, List.getElem?_map]
    by_cases hp : p < size
    · rcases hpair p hp with ⟨a, b, ha, hb, c1, _⟩
      rw [ha, hb]
      simp only [Option.map_some', Option.some.injEq]
      exact c1.symm
    · rw [List.getElem?_eq_none (by omega), List.getElem?_eq_none (by omega)]

/-! ### The loop of `process` -/

theorem assigned_congr (size : Nat) (dist : distance_calculator) (r r2 : kmedoids_data)
    (h : assigned size dist r) (h1 : r2.clusters = r.clusters) (h2 : r2.medoids = r.medoids)
    (h3 : r2.total_deviation = r.total_deviation) : assigned size dist r2 := by
  unfold assigned at h ⊢
  rw [h1, h2, h3]
  exact h

theorem assigned_length (size : Nat) (dist : distance_calculator) (r : kmedoids_data)
    (h : assigned size dist r) : r.clusters.length = r.medoids.length := by
  rcases h with ⟨markers, _, _, h3, _⟩
  rw [h3, grouped_length]

/-- One pass through the loop body: it either stops on the sentinel and leaves everything but
the iteration counter as it was, or it overwrites one medoid slot with a non-medoid point and
re-runs the assignment; `changes` is then the decrease of the total deviation. -/
theorem iteration_spec (size : Nat) (dist : distance_calculator) (st : state)
    (y : state × Option ℚ) (h : iteration size dist st = some y) :
    y.1.result.iterations = st.result.iterations + 1 ∧
    ((y.2 = none ∧ y.1 = { st with result :=
        { st.result with iterations := st.result.iterations + 1 } }) ∨
     (y.2 = some (st.result.total_deviation - y.1.result.total_deviation) ∧
      assigned size dist y.1.result ∧
      y.1.m_labels.length = st.m_labels.length ∧
      y.1.m_distance_first_medoid.length = st.m_distance_first_medoid.length ∧
      y.1.m_distance_second_medoid.length = st.m_distance_second_medoid.length ∧
      (y.1.result.medoids = st.result.medoids ∨
        ∃ index_cluster index_medoid, index_cluster < st.result.medoids.length ∧
          index_medoid < size ∧ index_medoid ∉ st.result.medoids ∧
          y.1.result.medoids = st.result.medoids.set index_cluster index_medoid))) := by
  unfold iteration at h
  simp only [Option.bind_eq_bind, Option.pure_def] at h
  rcases Option.bind_eq_some.1 h with ⟨swapped, hswap, h2⟩
  have hspec := swap_medoids_spec size dist _ swapped hswap
  by_cases hcost : swapped.1 = NOTHING_TO_SWAP
  · rw [if_neg (not_not.2 hcost)] at h2
    rw [← Option.some.inj h2, hspec.2 hcost]
    exact ⟨rfl, Or.inl ⟨rfl, rfl⟩⟩
  · rw [if_pos hcost] at h2
    rcases Option.bind_eq_some.1 h2 with ⟨updated, hupd, h3⟩
    rw [← Option.some.inj h3]
    rcases update_clusters_spec size dist swapped.2 updated hupd with
      ⟨a1, a2, a3, a4, a5, a6, a7, _, _, _⟩
    have hframe : swapped.2.result.iterations = st.result.iterations + 1 ∧
        swapped.2.result.total_deviation = st.result.total_deviation ∧
        swapped.2.m_labels = st.m_labels ∧
        swapped.2.m_distance_first_medoid = st.m_distance_first_medoid ∧
        swapped.2.m_distance_second_medoid = st.m_distance_second_medoid ∧
        (swapped.2.result.medoids = st.result.medoids ∨
          ∃ index_cluster index_medoid, index_cluster < st.result.medoids.length ∧
            index_medoid < size ∧ index_medoid ∉ st.result.medoids ∧
            swapped.2.result.medoids = st.result.medoids.set index_cluster index_medoid) := by
      rcases hspec.1 with e | ⟨_, ic, im, c1, _, c3, c4, e⟩
      · rw [e]
        exact ⟨rfl, rfl, rfl, rfl, rfl, Or.inl rfl⟩
      · rw [e]
        exact ⟨rfl, rfl, rfl, rfl, rfl, Or.inr ⟨ic, im, c1, c3, c4, rfl⟩⟩
    rcases hframe with ⟨f1, f2, f3, f4, f5, f6⟩
    refine ⟨?_, Or.inr ⟨?_, ?_, ?_, ?_, ?_, ?_⟩⟩
    · show updated.2.result.iterations = _
      rw [a3, f1]
    · show some (swapped.2.result.total_deviation - updated.1) = some (_ - updated.1)
      rw [f2]
    · exact assigned_congr size dist _ _ a1 rfl rfl rfl
    · show updated.2.m_labels.length = _
      rw [a5, f3]
    · show updated.2.m_distance_first_medoid.length = _
      rw [a6, f4]
    · show updated.2.m_distance_second_medoid.length = _
      rw [a7, f5]
    · show updated.2.result.medoids = _ ∨ ∃ ic im, _ ∧ _ ∧ _ ∧ updated.2.result.medoids = _
      rw [a2]
      exact f6

theorem process_loop_invariant (size : Nat) (dist : distance_calculator) (tol : ℚ)
    (itermax : Nat) (Inv : state → Prop)
    (hiter : ∀ st y, Inv st → iteration size dist st = some y → Inv y.1) :
    ∀ (fuel : Nat) (changes : ℚ) (st st2 : state), Inv st →
      process_loop size dist tol itermax fuel changes st = some st2 → Inv st2 := by
  intro fuel
  induction fuel with
  | zero =>
    intro changes st st2 hst h
    rw [process_loop] at h
    split at h
    · cases h
    · rw [← Option.some.inj h]; exact hst
  | succ f ih =>
    intro changes st st2 hst h
    rw [process_loop] at h
    split at h
    · simp only [Option.bind_eq_bind] at h
      rcases Option.bind_eq_some.1 h with ⟨y, hy, h2⟩
      have hInv := hiter st y hst hy
      cases hc : y.2 with
      | none =>
        rw [hc] at h2
        rw [← Option.some.inj h2]; exact hInv
      | some c =>
        rw [hc] at h2
        exact ih c y.1 st2 hInv h2
    · rw [← Option.some.inj h]; exact hst

/-! ### `process` as a whole -/

theorem process_run_eq_some (self : solver) (size : Nat) (dist : distance_calculator)
    (p_result r : kmedoids_data) (h : process_run self size dist p_result = some r) :
    ∃ entered final pruned,
      process_start self size dist p_result = some entered ∧
      process_loop size dist self.m_tolerance self.m_itermax self.m_itermax DBL_MAX entered
        = some final ∧
      erase_empty_clusters (final.result.clusters, final.result.medoids) = some pruned ∧
      r = { final.result with clusters := pruned.1, medoids := pruned.2 } := by
  unfold process_run at h
  simp only [Option.bind_eq_bind, Option.pure_def] at h
  rcases Option.bind_eq_some.1 h with ⟨entered, h1, h2⟩
  rcases Option.bind_eq_some.1 h2 with ⟨final, h3, h4⟩
  rcases Option.bind_eq_some.1 h4 with ⟨pruned, h5, h6⟩
  exact ⟨entered, final, pruned, h1, h3, h5, (Option.some.inj h6).symm⟩

theorem process_start_medoids (self : solver) (size : Nat) (dist : distance_calculator)
    (p_result : kmedoids_data) (st : state)
    (h : process_start self size dist p_result = some st) :
    st.result.medoids = self.m_initial_medoids ∧ st.result.iterations = 0 := by
  unfold process_start at h
  simp only [Option.bind_eq_bind, Option.pure_def] at h
  split at h
  · rcases Option.bind_eq_some.1 h with ⟨updated, hu, h3⟩
    simp only [Option.some_bind, Option.some.injEq] at h3
    rw [← h3]
    exact ⟨(update_clusters_spec size dist _ updated hu).2.1, rfl⟩
  · simp only [Option.some_bind, Option.some.injEq] at h
    rw [← h]
    exact ⟨rfl, rfl⟩

/-- With `m_itermax > 0` the loop is entered with the assignment of the initial medoids. -/
theorem process_start_spec (self : solver) (size : Nat) (dist : distance_calculator)
    (p_result : kmedoids_data) (st : state) (hit : 0 < self.m_itermax)
    (h : process_start self size dist p_result = some st) :
    assigned size dist st.result ∧ st.m_labels.length = size ∧
    st.m_distance_first_medoid.length = size ∧ st.m_distance_second_medoid.length = size := by
  unfold process_start at h
  simp only [Option.bind_eq_bind, Option.pure_def] at h
  rw [if_pos hit] at h
  rcases Option.bind_eq_some.1 h with ⟨updated, hu, h3⟩
  simp only [Option.some_bind, Option.some.injEq] at h3
  rw [← h3]
  rcases update_clusters_spec size dist _ updated hu with ⟨a1, _, _, _, a5, a6, a7, _⟩
  refine ⟨assigned_congr size dist _ _ a1 rfl rfl rfl, ?_, ?_, ?_⟩
  · show updated.2.m_labels.length = size
    rw [a5, List.length_replicate]
  · show updated.2.m_distance_first_medoid.length = size
    rw [a6, List.length_replicate]
  · show updated.2.m_distance_second_medoid.length = size
    rw [a7, List.length_replicate]

/-- The state with which the loop of `process` ends (before pruning) holds the assignment of
its medoids, as many as there were initial medoids. -/
theorem process_loop_spec (size : Nat) (dist : distance_calculator) (tol : ℚ) (itermax k : Nat)
    (fuel : Nat) (changes : ℚ) (st st2 : state)
    (h : process_loop size dist tol itermax fuel changes st = some st2)
    (hst : assigned size dist st.result ∧ st.result.medoids.length = k ∧
      st.m_labels.length = size ∧ st.m_distance_first_medoid.length = size ∧
      st.m_distance_second_medoid.length = size) :
    assigned size dist st2.result ∧ st2.result.medoids.length = k ∧
      st2.m_labels.length = size ∧ st2.m_distance_first_medoid.length = size ∧
      st2.m_distance_second_medoid.length = size := by
  refine process_loop_invariant size dist tol itermax
    (fun s => assigned size dist s.result ∧ s.result.medoids.length = k ∧
      s.m_labels.length = size ∧ s.m_distance_first_medoid.length = size ∧
      s.m_distance_second_medoid.length = size) ?_ fuel changes st st2 hst h
  intro s y hs hy
  rcases hs with ⟨s1, s2, s3, s4, s5⟩
  rcases (iteration_spec size dist s y hy).2 with ⟨_, e⟩ | ⟨_, b1, b2, b3, b4, b5⟩
  · rw [e]
    exact ⟨assigned_congr size dist _ _ s1 rfl rfl rfl, s2, s3, s4, s5⟩
  · refine ⟨b1, ?_, by rw [b2, s3], by rw [b3, s4], by rw [b4, s5]⟩
    rcases b5 with e | ⟨ic, im, _, _, _, e⟩
    · rw [e, s2]
    · rw [e, List.length_set, s2]

/-- The result of a run with `m_itermax > 0` holds the assignment of its final (pruned)
medoids, it is the forward compaction of the state the loop ended with, and it has no empty
cluster. -/
theorem process_run_spec (self : solver) (size : Nat) (dist : distance_calculator)
    (p_result r : kmedoids_data) (hit : 0 < self.m_itermax)
    (hmax : self.m_initial_medoids.length ≤ SIZE_MAX)
    (h : process_run self size dist p_result = some r) :
    assigned size dist r ∧
    (∃ final : state, assigned size dist final.result ∧
      final.result.medoids.length = self.m_initial_medoids.length ∧
      final.result.total_deviation = r.total_deviation ∧
      final.result.iterations = r.iterations ∧
      (r.clusters, r.medoids)
        = forward_compaction (final.result.clusters, final.result.medoids)) := by
  rcases process_run_eq_some self size dist p_result r h with
    ⟨entered, final, pruned, h1, h2, h3, rfl⟩
  rcases process_start_spec self size dist p_result entered hit h1 with ⟨e1, e2, e3, e4⟩
  have em := (process_start_medoids self size dist p_result entered h1).1
  rcases process_loop_spec size dist _ _ self.m_initial_medoids.length _ _ entered final h2
    ⟨e1, by rw [em], e2, e3, e4⟩ with ⟨f1, f2, _, _, _⟩
  have hfl := assigned_length size dist _ f1
  constructor
  · have hInv := erase_loop_invariant
      (fun s => assigned size dist
          { final.result with clusters := s.1, medoids := s.2 } ∧ s.2.length ≤ SIZE_MAX)
      (fun C M j hs hj _ => by
        refine ⟨assigned_eraseIdx size dist _ j hs.1 hj hs.2, ?_⟩
        show (M.eraseIdx j).length ≤ SIZE_MAX
        rw [List.length_eraseIdx]
        have := hs.2
        simp only at this
        split <;> omega)
      final.result.clusters.length (size_t_pred final.result.clusters.length)
      (final.result.clusters, final.result.medoids) pruned
      ⟨assigned_congr size dist _ _ f1 rfl rfl rfl, by simp only; omega⟩
      (by unfold erase_empty_clusters at h3; exact h3)
    exact hInv.1
  · refine ⟨final, f1, f2, rfl, rfl, ?_⟩
    rw [erase_empty_clusters_eq _ _ hfl (by omega)] at h3
    rw [← Option.some.inj h3]

/-! ### The run returns on well-formed inputs -/

theorem find_appropriate_cluster_total (size : Nat) (dist : distance_calculator)
    (M : medoid_sequence) (p : Nat) (hd : finite_distances size dist)
    (hM : valid_medoids size M) (hp : p < size) :
    ∃ mk, find_appropriate_cluster dist p M = some mk ∧ mk.m_index < M.length := by
  rcases hM with ⟨hv, hne, hmax⟩
  rcases parallel_collect_total (dist p) M (fun m hm => by
    rcases hd p hp m (hv m hm) with ⟨d, hd1, _⟩
    exact ⟨d, hd1⟩) with ⟨ds, hds⟩
  have hlen : ds.length = M.length := parallel_collect_length hds
  refine ⟨scan 0 ds no_cluster, ?_, ?_⟩
  · rw [find_appropriate_cluster_eq, hds]
    rfl
  · rcases scan_spec ds 0 no_cluster with ⟨_, _, h3⟩ | ⟨w, h1, h2, _⟩
    · exfalso
      have hMne : M ≠ [] := hne (by omega)
      have hpos : 0 < ds.length := by
        rw [hlen]
        exact List.length_pos.2 hMne
      have hmem : ds[0] ∈ ds := List.getElem_mem hpos
      rcases parallel_collect_mem hds _ hmem with ⟨m, hm, hdm⟩
      rcases hd p hp m (hv m hm) with ⟨d, hd1, hd2⟩
      rw [hd1] at hdm
      have := h3 _ hmem
      rw [← Option.some.inj hdm] at this
      exact absurd hd2 (not_lt.2 this)
    · rw [h2]
      rcases List.getElem?_eq_some.1 h1 with ⟨hw, _⟩
      omega

theorem update_clusters_total (size : Nat) (dist : distance_calculator) (st : state)
    (hd : finite_distances size dist) (hM : valid_medoids size st.result.medoids)
    (h1 : st.m_labels.length = size) (h2 : st.m_distance_first_medoid.length = size)
    (h3 : st.m_distance_second_medoid.length = size) :
    ∃ x, update_clusters size dist st = some x := by
  rcases parallel_collect_total
      (fun p_index => find_appropriate_cluster dist p_index st.result.medoids)
      (List.range size)
      (fun i hi => by
        rcases find_appropriate_cluster_total size dist _ i hd hM (List.mem_range.1 hi)
          with ⟨mk, hmk, _⟩
        exact ⟨mk, hmk⟩) with ⟨markers, hm⟩
  refine ⟨update_upto markers st.result.medoids.length st size, ?_⟩
  rw [update_clusters_eq_some]
  refine ⟨markers, hm, ?_, rfl⟩
  intro p hp
  rcases parallel_collect_range_getElem? hm p hp with ⟨a, ha, hfa⟩
  rcases find_appropriate_cluster_total size dist _ p hd hM hp with ⟨mk, hmk, hin⟩
  rw [hmk] at hfa
  rw [← Option.some.inj hfa] at ha
  exact ⟨mk, ha, hin, by omega, by omega, by omega⟩

theorem calculate_swap_cost_total (size : Nat) (dist : distance_calculator) (st : state)
    (hd : finite_distances size dist) (h1 : st.m_labels.length = size)
    (h2 : st.m_distance_first_medoid.length = size)
    (h3 : st.m_distance_second_medoid.length = size) (candidate index_cluster : Nat)
    (hc : candidate < size) :
    ∃ cost, calculate_swap_cost size dist st candidate index_cluster = some cost := by
  unfold calculate_swap_cost
  rcases foldlM_total (swap_cost_step dist st candidate index_cluster) (fun _ => True)
      (List.range size) 0 trivial (fun acc x hx _ => by
        have hx2 : x < size := List.mem_range.1 hx
        rcases hd x hx2 candidate hc with ⟨d, hd1, _⟩
        have hl : st.m_labels[x]? = some st.m_labels[x] :=
          List.getElem?_eq_getElem (by omega)
        have hf : st.m_distance_first_medoid[x]? = some st.m_distance_first_medoid[x] :=
          List.getElem?_eq_getElem (by omega)
        have hs : st.m_distance_second_medoid[x]? = some st.m_distance_second_medoid[x] :=
          List.getElem?_eq_getElem (by omega)
        unfold swap_cost_step
        by_cases hxc : x = candidate
        · rw [if_pos hxc]
          exact ⟨acc, rfl, trivial⟩
        · rw [if_neg hxc]
          simp only [hd1, hl, hf, hs, Option.bind_eq_bind, Option.some_bind, Option.pure_def]
          split
          · exact ⟨_, rfl, trivial⟩
          · split
            · exact ⟨_, rfl, trivial⟩
            · exact ⟨_, rfl, trivial⟩) with ⟨cost, hcost, _⟩
  have hf : st.m_distance_first_medoid[candidate]?
      = some st.m_distance_first_medoid[candidate] :=
    List.getElem?_eq_getElem (by omega)
  refine ⟨cost - st.m_distance_first_medoid[candidate], ?_⟩
  rw [hcost, hf]
  rfl

theorem swap_medoids_total (size : Nat) (dist : distance_calculator) (st : state)
    (hd : finite_distances size dist) (hr : ready size st) :
    ∃ x, swap_medoids size dist st = some x := by
  rcases hr with ⟨h1, h2, h3, h4, _⟩
  rcases parallel_collect_total
      (fun index_cluster =>
        (List.range size).foldlM (chunk_step size dist st index_cluster)
          { cost := DBL_MAX, index_medoid := INVALID_INDEX })
      (List.range st.result.clusters.length)
      (fun i _ => by
        rcases foldlM_total (chunk_step size dist st i) (fun _ => True) (List.range size)
            { cost := DBL_MAX, index_medoid := INVALID_INDEX } trivial
            (fun acc x hx _ => by
              have hx2 : x < size := List.mem_range.1 hx
              have hf : st.m_distance_first_medoid[x]?
                  = some st.m_distance_first_medoid[x] :=
                List.getElem?_eq_getElem (by omega)
              rcases calculate_swap_cost_total size dist st hd h1 h2 h3 x i hx2
                with ⟨cost, hcost⟩
              unfold chunk_step
              split
              · exact ⟨_, rfl, trivial⟩
              · simp only [hf, hcost, Option.bind_eq_bind, Option.some_bind, Option.pure_def]
                split
                · exact ⟨_, rfl, trivial⟩
                · split
                  · exact ⟨_, rfl, trivial⟩
                  · exact ⟨_, rfl, trivial⟩) with ⟨chunk, hchunk, _⟩
        exact ⟨chunk, hchunk⟩) with ⟨chunks, hchunks⟩
  have hlen : chunks.length = st.result.clusters.length := by
    rw [parallel_collect_length hchunks, List.length_range]
  rcases foldlM_total (select_step chunks) (fun _ => True) (List.range chunks.length)
      { optimal_swap_cost := DBL_MAX, optimal_index_cluster := INVALID_INDEX,
        optimal_index_medoid := INVALID_INDEX } trivial
      (fun acc x hx _ => by
        have hx2 : x < chunks.length := List.mem_range.1 hx
        have hc : chunks[x]? = some chunks[x] := List.getElem?_eq_getElem hx2
        unfold select_step
        simp only [hc, Option.bind_eq_bind, Option.some_bind, Option.pure_def]
        split
        · exact ⟨_, rfl, trivial⟩
        · exact ⟨_, rfl, trivial⟩) with ⟨best, hbest, _⟩
  have hall : ∀ chunk ∈ chunks, chunk.cost < DBL_MAX →
      chunk.index_medoid < size ∧ chunk.index_medoid ∉ st.result.medoids := by
    intro chunk hmem
    rcases parallel_collect_mem hchunks chunk hmem with ⟨i, _, hi⟩
    exact (chunk_fold_spec size dist st i chunk hi).2
  have hsel := select_fold_spec size st.result.medoids chunks best hall hbest
  unfold swap_medoids
  simp only [hchunks, hbest, Option.bind_eq_bind, Option.some_bind, Option.pure_def]
  by_cases hidx : best.optimal_index_cluster = INVALID_INDEX
  · rw [if_neg (not_not.2 hidx)]
    exact ⟨_, rfl⟩
  · rw [if_pos hidx]
    rcases hsel with ⟨e, _⟩ | ⟨_, c2, _, _⟩
    · exact absurd e hidx
    · have hw : write_at st.result.medoids best.optimal_index_cluster
          best.optimal_index_medoid
          = some (st.result.medoids.set best.optimal_index_cluster
              best.optimal_index_medoid) :=
        (write_at_eq_some _ _ _ _).2 ⟨by omega, rfl⟩
      rw [hw]
      exact ⟨_, rfl⟩

theorem valid_medoids_set (size : Nat) (M : medoid_sequence) (i x : Nat)
    (h : valid_medoids size M) (hx : x < size) : valid_medoids size (M.set i x) := by
  rcases h with ⟨h1, h2, h3⟩
  refine ⟨?_, ?_, ?_⟩
  · intro m hm
    rcases List.mem_or_eq_of_mem_set hm with h | h
    · exact h1 m h
    · rw [h]; exact hx
  · intro hs hc
    apply h2 hs
    have : (M.set i x).length = 0 := by rw [hc]; rfl
    rw [List.length_set] at this
    exact List.length_eq_zero.1 this
  · rw [List.length_set]; exact h3

theorem iteration_total (size : Nat) (dist : distance_calculator) (st : state)
    (hd : finite_distances size dist) (hr : ready size st) :
    ∃ y, iteration size dist st = some y ∧ ready size y.1 := by
  have hr1 : ready size
      { st with result := { st.result with iterations := st.result.iterations + 1 } } := hr
  rcases swap_medoids_total size dist _ hd hr1 with ⟨swapped, hswap⟩
  have hspec := swap_medoids_spec size dist _ swapped hswap
  have hr2 : ready size swapped.2 := by
    rcases hspec.1 with e | ⟨_, ic, im, _, _, c3, _, e⟩
    · rw [e]; exact hr1
    · rw [e]
      rcases hr with ⟨r1, r2, r3, r4, r5⟩
      refine ⟨r1, r2, r3, ?_, valid_medoids_set size _ ic im r5 c3⟩
      show st.result.clusters.length = (st.result.medoids.set ic im).length
      rw [List.length_set]; exact r4
  unfold iteration
  simp only [hswap, Option.bind_eq_bind, Option.some_bind, Option.pure_def]
  by_cases hcost : swapped.1 = NOTHING_TO_SWAP
  · rw [if_neg (not_not.2 hcost)]
    exact ⟨_, rfl, hr2⟩
  · rw [if_pos hcost]
    rcases hr2 with ⟨r1, r2, r3, r4, r5⟩
    rcases update_clusters_total size dist swapped.2 hd r5 r1 r2 r3 with ⟨updated, hupd⟩
    rcases update_clusters_spec size dist swapped.2 updated hupd with
      ⟨_, a2, _, a4, a5, a6, a7, _⟩
    rw [hupd]
    refine ⟨_, rfl, ?_⟩
    refine ⟨by show updated.2.m_labels.length = size; rw [a5, r1],
      by show updated.2.m_distance_first_medoid.length = size; rw [a6, r2],
      by show updated.2.m_distance_second_medoid.length = size; rw [a7, r3], ?_, ?_⟩
    · show updated.2.result.clusters.length = updated.2.result.medoids.length
      rw [a4, a2]
    · show valid_medoids size updated.2.result.medoids
      rw [a2]; exact r5

/-- The loop of `process` ends within the iterations that are unfolded: `m_itermax` minus
the iterations already counted suffice. -/
theorem process_loop_total (size : Nat) (dist : distance_calculator) (tol : ℚ) (itermax : Nat)
    (hd : finite_distances size dist) :
    ∀ (fuel : Nat) (changes : ℚ) (st : state), ready size st →
      itermax - st.result.iterations ≤ fuel →
      ∃ st2, process_loop size dist tol itermax fuel changes st = some st2 ∧
        ready size st2 := by
  intro fuel
  induction fuel with
  | zero =>
    intro changes st hr hf
    rw [process_loop]
    have : ¬ (st.result.iterations < itermax ∧ changes > tol) := by
      intro hc
      omega
    rw [if_neg this]
    exact ⟨st, rfl, hr⟩
  | succ f ih =>
    intro changes st hr hf
    rw [process_loop]
    by_cases hc : st.result.iterations < itermax ∧ changes > tol
    · rw [if_pos hc]
      rcases iteration_total size dist st hd hr with ⟨y, hy, hry⟩
      have hit := (iteration_spec size dist st y hy).1
      simp only [hy, Option.bind_eq_bind, Option.some_bind]
      cases hy2 : y.2 with
      | none => exact ⟨y.1, rfl, hry⟩
      | some c =>
        exact ih c y.1 hry (by omega)
    · rw [if_neg hc]
      exact ⟨st, rfl, hr⟩

theorem process_start_total (self : solver) (size : Nat) (dist : distance_calculator)
    (p_result : kmedoids_data) (hit : 0 < self.m_itermax) (hd : finite_distances size dist)
    (hM : valid_medoids size self.m_initial_medoids) :
    ∃ st, process_start self size dist p_result = some st ∧ ready size st ∧
      st.result.iterations = 0 := by
  rcases update_clusters_total size dist
      { result := { p_result with medoids := self.m_initial_medoids, total_deviation := 0 },
        m_labels := List.replicate size SIZE_MAX,
        m_distance_first_medoid := List.replicate size DBL_MAX,
        m_distance_second_medoid := List.replicate size DBL_MAX }
      hd hM (List.length_replicate _ _) (List.length_replicate _ _)
      (List.length_replicate _ _) with ⟨updated, hupd⟩
  rcases update_clusters_spec size dist _ updated hupd with ⟨_, a2, _, a4, a5, a6, a7, _⟩
  unfold process_start
  simp only [Option.bind_eq_bind, Option.pure_def]
  rw [if_pos hit, hupd]
  refine ⟨_, rfl, ⟨?_, ?_, ?_, ?_, ?_⟩, rfl⟩
  · show updated.2.m_labels.length = size
    rw [a5, List.length_replicate]
  · show updated.2.m_distance_first_medoid.length = size
    rw [a6, List.length_replicate]
  · show updated.2.m_distance_second_medoid.length = size
    rw [a7, List.length_replicate]
  · show updated.2.result.clusters.length = updated.2.result.medoids.length
    rw [a4, a2]
  · show valid_medoids size updated.2.result.medoids
    rw [a2]; exact hM

/-- With `m_itermax > 0`, finite distances and valid initial medoids, the body of `process`
returns a result: no access is out of range and the loops end. -/
theorem process_run_total (self : solver) (size : Nat) (dist : distance_calculator)
    (p_result : kmedoids_data) (hit : 0 < self.m_itermax) (hd : finite_distances size dist)
    (hM : valid_medoids size self.m_initial_medoids) :
    ∃ r, process_run self size dist p_result = some r := by
  rcases process_start_total self size dist p_result hit hd hM with ⟨entered, h1, hr, h0⟩
  rcases process_loop_total size dist self.m_tolerance self.m_itermax hd self.m_itermax
      DBL_MAX entered hr (by omega) with ⟨final, h2, hrf⟩
  rcases hrf with ⟨_, _, _, r4, _, _, r7⟩
  have h3 := erase_empty_clusters_eq final.result.clusters final.result.medoids r4 (by omega)
  unfold process_run
  simp only [h1, h2, h3, Option.bind_eq_bind, Option.some_bind, Option.pure_def]
  exact ⟨_, rfl⟩

theorem process_of_calculator (self : solver) (p_data : dataset) (p_type : data_t)
    (p_result : kmedoids_data) (dist : distance_calculator)
    (h : create_distance_calculator self.m_metric p_data p_type = Except.ok dist) :
    process self p_data p_type p_result =
      match process_run self p_data.length dist p_result with
      | some result => outcome.returned result
      | none => outcome.undefined := by
  unfold process
  simp only [h]

theorem process_returned_iff (self : solver) (p_data : dataset) (p_type : data_t)
    (p_result r : kmedoids_data) :
    process self p_data p_type p_result = outcome.returned r ↔
      ∃ dist, create_distance_calculator self.m_metric p_data p_type = Except.ok dist ∧
        process_run self p_data.length dist p_result = some r := by
  constructor
  · intro h
    cases hc : create_distance_calculator self.m_metric p_data p_type with
    | error code =>
      unfold process at h
      rw [hc] at h
      cases h
    | ok dist =>
      rw [process_of_calculator self p_data p_type p_result dist hc] at h
      refine ⟨dist, rfl, ?_⟩
      cases hr : process_run self p_data.length dist p_result with
      | none => rw [hr] at h; cases h
      | some r2 =>
        rw [hr] at h
        injection h with h
        rw [h]
  · rintro ⟨dist, hc, hr⟩
    rw [process_of_calculator self p_data p_type p_result dist hc, hr]

/-! ### Partition -/

theorem flatten_set_append : ∀ (L : List (List Nat)) (w : Nat) (c : List Nat) (x : Nat),
    L[w]? = some c → List.Perm (L.set w (c ++ [x])).flatten (x :: L.flatten) := by
  intro L
  induction L with
  | nil =>
    intro w c x h
    simp at h
  | cons d L ih =>
    intro w c x h
    cases w with
    | zero =>
      simp only [List.getElem?_cons_zero, Option.some.injEq] at h
      subst h
      simp only [List.set_cons_zero, List.flatten_cons, List.append_assoc, List.singleton_append]
      exact List.perm_middle
    | succ w2 =>
      simp only [List.getElem?_cons_succ] at h
      simp only [List.set_cons_succ, List.flatten_cons]
      exact (List.Perm.append_left d (ih w2 c x h)).trans List.perm_middle

theorem grouped_succ (labels : List Nat) (k m w : Nat) (hw : labels[m]? = some w)
    (hk : w < k) :
    grouped labels k (m + 1) = (grouped labels k m).set w (members labels m w ++ [m]) := by
  have h := (push_back_at_grouped labels k m w hw (grouped labels k (m + 1))).2 ⟨hk, rfl⟩
  unfold push_back_at at h
  rw [grouped_getElem?, if_pos hk] at h
  simp only [Option.bind_eq_bind, Option.some_bind, Option.pure_def, Option.some.injEq] at h
  exact h.symm

theorem flatten_replicate_nil (k : Nat) : (List.replicate k ([] : List Nat)).flatten = [] := by
  induction k with
  | zero => rfl
  | succ n ih => rw [List.replicate_succ, List.flatten_cons, ih]; rfl

/-- The clusters that group the points `0 .. m-1` under winning slots in range hold every one
of these points exactly once. -/
theorem grouped_perm (labels : List Nat) (k : Nat) :
    ∀ m, (∀ p < m, ∃ w, labels[p]? = some w ∧ w < k) →
      List.Perm (grouped labels k m).flatten (List.range m) := by
  intro m
  induction m with
  | zero =>
    intro _
    rw [grouped_zero, flatten_replicate_nil]
    exact List.Perm.refl _
  | succ m ih =>
    intro h
    rcases h m (Nat.lt_succ_self m) with ⟨w, hw, hk⟩
    rw [grouped_succ labels k m w hw hk, List.range_succ]
    have hget : (grouped labels k m)[w]? = some (members labels m w) := by
      rw [grouped_getElem?, if_pos hk]
    refine (flatten_set_append _ w _ m hget).trans ?_
    refine List.Perm.trans ?_ (List.perm_append_singleton m (List.range m)).symm
    exact List.Perm.cons m (ih (fun p hp => h p (Nat.lt_succ_of_lt hp)))

theorem assigned_perm (size : Nat) (dist : distance_calculator) (r : kmedoids_data)
    (h : assigned size dist r) : List.Perm r.clusters.flatten (List.range size) := by
  rcases h with ⟨markers, h1, h2, h3, _⟩
  rw [h3]
  apply grouped_perm
  intro p hp
  rcases parallel_collect_range_getElem? h1 p hp with ⟨a, ha, _⟩
  refine ⟨a.m_index, ?_, h2 a (List.mem_iff_getElem?.2 ⟨p, ha⟩)⟩
  rw [List.getElem?_map, ha]
  rfl

theorem flatten_eraseIdx_nil : ∀ (C : List (List Nat)) (j : Nat), C[j]? = some [] →
    (C.eraseIdx j).flatten = C.flatten := by
  intro C
  induction C with
  | nil => intro j h; rfl
  | cons c C ih =>
    intro j h
    cases j with
    | zero =>
      simp only [List.getElem?_cons_zero, Option.some.injEq] at h
      subst h
      rfl
    | succ j2 =>
      simp only [List.getElem?_cons_succ] at h
      rw [List.eraseIdx_cons_succ, List.flatten_cons, List.flatten_cons, ih j2 h]

/-- In a sequence of clusters whose concatenation holds `p` once, exactly one cluster holds
`p`, and it holds it once. -/
theorem exactly_one_cluster (p : Nat) : ∀ (C : List (List Nat)), C.flatten.count p = 1 →
    ∃ (i : Nat) (c : List Nat), C[i]? = some c ∧ c.count p = 1 ∧
      ∀ (i2 : Nat) (c2 : List Nat), C[i2]? = some c2 → i2 ≠ i → p ∉ c2 := by
  intro C
  induction C with
  | nil => intro h; simp at h
  | cons d C ih =>
    intro h
    rw [List.flatten_cons, List.count_append] at h
    by_cases hd : d.count p = 0
    · rw [hd, Nat.zero_add] at h
      rcases ih h with ⟨i, c, h1, h2, h3⟩
      refine ⟨i + 1, c, by rw [List.getElem?_cons_succ]; exact h1, h2, ?_⟩
      intro i2 c2 hc2 hne
      cases i2 with
      | zero =>
        simp only [List.getElem?_cons_zero, Option.some.injEq] at hc2
        rw [← hc2]
        exact List.count_eq_zero.1 hd
      | succ i3 =>
        simp only [List.getElem?_cons_succ] at hc2
        exact h3 i3 c2 hc2 (by omega)
    · have hd1 : d.count p = 1 := by omega
      have hrest : C.flatten.count p = 0 := by omega
      refine ⟨0, d, List.getElem?_cons_zero, hd1, ?_⟩
      intro i2 c2 hc2 hne
      cases i2 with
      | zero => exact absurd rfl hne
      | succ i3 =>
        simp only [List.getElem?_cons_succ] at hc2
        intro hmem
        have : p ∈ C.flatten :=
          List.mem_flatten.2 ⟨c2, List.mem_iff_getElem?.2 ⟨i3, hc2⟩, hmem⟩
        exact absurd this (List.count_eq_zero.1 hrest)

/-- The clusters of a returned result of a run with `m_itermax > 0` are a partition of the
points. -/
theorem process_run_perm (self : solver) (size : Nat) (dist : distance_calculator)
    (p_result r : kmedoids_data) (hit : 0 < self.m_itermax)
    (h : process_run self size dist p_result = some r) :
    List.Perm r.clusters.flatten (List.range size) := by
  rcases process_run_eq_some self size dist p_result r h with
    ⟨entered, final, pruned, h1, h2, h3, rfl⟩
  rcases process_start_spec self size dist p_result entered hit h1 with ⟨e1, e2, e3, e4⟩
  rcases process_loop_spec size dist _ _ entered.result.medoids.length _ _ entered final h2
    ⟨e1, rfl, e2, e3, e4⟩ with ⟨f1, _⟩
  have hInv := erase_loop_invariant
    (fun s => List.Perm s.1.flatten (List.range size))
    (fun C M j hs hj _ => by
      show List.Perm (C.eraseIdx j).flatten (List.range size)
      rw [flatten_eraseIdx_nil C j hj]
      exact hs)
    final.result.clusters.length (size_t_pred final.result.clusters.length)
    (final.result.clusters, final.result.medoids) pruned
    (assigned_perm size dist _ f1)
    (by unfold erase_empty_clusters at h3; exact h3)
  exact hInv

/-- C1 (partition validity): after a run of `process` with `m_itermax > 0` has returned, the
concatenation of the clusters is a permutation of the point indices `0 .. n-1`; so every
point index lies in exactly one cluster and occurs once in it.  On finite distances and valid
initial medoids the run does return. -/
theorem partition_validity (self : solver) (p_data : dataset) (p_type : data_t)
    (p_result : kmedoids_data) (hit : 0 < self.m_itermax) :
    (∀ r, process self p_data p_type p_result = outcome.returned r →
      List.Perm r.clusters.flatten (List.range p_data.length) ∧
      ∀ p < p_data.length, ∃ (i : Nat) (c : cluster), r.clusters[i]? = some c ∧
        c.count p = 1 ∧
        ∀ (i2 : Nat) (c2 : cluster), r.clusters[i2]? = some c2 → i2 ≠ i → p ∉ c2) ∧
    (∀ dist, create_distance_calculator self.m_metric p_data p_type = Except.ok dist →
      finite_distances p_data.length dist →
      valid_medoids p_data.length self.m_initial_medoids →
      ∃ r, process self p_data p_type p_result = outcome.returned r) := by
  constructor
  · intro r hr
    rcases (process_returned_iff self p_data p_type p_result r).1 hr with ⟨dist, _, hrun⟩
    have hperm := process_run_perm self p_data.length dist p_result r hit hrun
    refine ⟨hperm, ?_⟩
    intro p hp
    apply exactly_one_cluster
    rw [hperm.count_eq]
    exact List.count_eq_one_of_mem (List.nodup_range _) (List.mem_range.2 hp)
  · intro dist hc hd hM
    rcases process_run_total self p_data.length dist p_result hit hd hM with ⟨r, hr⟩
    exact ⟨r, (process_returned_iff self p_data p_type p_result r).2 ⟨dist, hc, hr⟩⟩

/-! ### Pairing of medoids and clusters, pruning, medoid set -/

theorem process_run_invariant (self : solver) (size : Nat) (dist : distance_calculator)
    (p_result r : kmedoids_data) (Inv : cluster_sequence × medoid_sequence → Prop)
    (hstart : ∀ st, process_start self size dist p_result = some st →
      Inv (st.result.clusters, st.result.medoids))
    (hiter : ∀ st y, Inv (st.result.clusters, st.result.medoids) →
      iteration size dist st = some y → Inv (y.1.result.clusters, y.1.result.medoids))
    (herase : ∀ (C : cluster_sequence) (M : medoid_sequence) (j : Nat), Inv (C, M) →
      C[j]? = some [] → j < M.length → Inv (C.eraseIdx j, M.eraseIdx j))
    (h : process_run self size dist p_result = some r) : Inv (r.clusters, r.medoids) := by
  rcases process_run_eq_some self size dist p_result r h with
    ⟨entered, final, pruned, h1, h2, h3, rfl⟩
  have hfinal := process_loop_invariant size dist self.m_tolerance self.m_itermax
    (fun s => Inv (s.result.clusters, s.result.medoids)) hiter self.m_itermax DBL_MAX
    entered final (hstart entered h1) h2
  exact erase_loop_invariant Inv herase
    final.result.clusters.length (size_t_pred final.result.clusters.length)
    (final.result.clusters, final.result.medoids) pruned hfinal
    (by unfold erase_empty_clusters at h3; exact h3)

/-- C9 (medoid-cluster pairing): every assignment pass leaves as many clusters as there are
medoids, and so does a run of `process` with `m_itermax > 0` in its result, after the
pruning.  On finite distances and valid initial medoids the run does return. -/
theorem medoid_cluster_pairing (self : solver) (p_data : dataset) (p_type : data_t)
    (p_result : kmedoids_data) (hit : 0 < self.m_itermax) :
    (∀ (dist : distance_calculator) (st : state) (x : ℚ × state),
      update_clusters p_data.length dist st = some x →
      x.2.result.clusters.length = x.2.result.medoids.length) ∧
    (∀ r, process self p_data p_type p_result = outcome.returned r →
      r.clusters.length = r.medoids.length) ∧
    (∀ dist, create_distance_calculator self.m_metric p_data p_type = Except.ok dist →
      finite_distances p_data.length dist →
      valid_medoids p_data.length self.m_initial_medoids →
      ∃ r, process self p_data p_type p_result = outcome.returned r) := by
  refine ⟨?_, ?_, ?_⟩
  · intro dist st x hx
    rcases update_clusters_spec p_data.length dist st x hx with ⟨_, a2, _, a4, _⟩
    rw [a4, a2]
  · intro r hr
    rcases (process_returned_iff self p_data p_type p_result r).1 hr with ⟨dist, _, hrun⟩
    refine process_run_invariant self p_data.length dist p_result r
      (fun s => s.1.length = s.2.length) ?_ ?_ ?_ hrun
    · intro st hst
      exact assigned_length _ dist _
        (process_start_spec self p_data.length dist p_result st hit hst).1
    · intro st y hs hy
      rcases (iteration_spec p_data.length dist st y hy).2 with ⟨_, e⟩ | ⟨_, b1, _⟩
      · rw [e]; exact hs
      · exact assigned_length _ dist _ b1
    · intro C M j hs hj hjM
      show (C.eraseIdx j).length = (M.eraseIdx j).length
      have hjC : j < C.length := by
        rcases List.getElem?_eq_some.1 hj with ⟨hh, _⟩
        exact hh
      have hs2 : C.length = M.length := hs
      rw [List.length_eraseIdx, List.length_eraseIdx, if_pos hjC, if_pos hjM, hs2]
  · intro dist hc hd hM
    rcases process_run_total self p_data.length dist p_result hit hd hM with ⟨r, hr⟩
    exact ⟨r, (process_returned_iff self p_data p_type p_result r).2 ⟨dist, hc, hr⟩⟩

theorem forward_compaction_nonempty (C : cluster_sequence) (M : medoid_sequence) :
    ∀ c ∈ (forward_compaction (C, M)).1, c ≠ [] := by
  intro c hc
  unfold forward_compaction at hc
  rw [List.unzip_eq_map] at hc
  simp only [List.mem_map] at hc
  rcases hc with ⟨pair, hp, rfl⟩
  have := (List.mem_filter.1 hp).2
  intro hnil
  rw [hnil] at this
  simp at this

/-- C10 (pruning is a forward compaction): on a cluster sequence and a medoid sequence of the
same length (below `2 ^ 64`), the backward scan of `erase_empty_clusters` returns the pairs
whose cluster is not empty, in their original order; so the result of a run with
`m_itermax > 0` has no empty cluster. -/
theorem erase_empty_clusters_forward_compaction (C : cluster_sequence) (M : medoid_sequence)
    (hlen : C.length = M.length) (hmax : C.length ≤ SIZE_MAX) :
    erase_empty_clusters (C, M) = some (forward_compaction (C, M)) ∧
    (∀ (self : solver) (p_data : dataset) (p_type : data_t) (p_result r : kmedoids_data),
      0 < self.m_itermax → self.m_initial_medoids.length ≤ SIZE_MAX →
      process self p_data p_type p_result = outcome.returned r →
      ∀ c ∈ r.clusters, c ≠ []) := by
  refine ⟨erase_empty_clusters_eq C M hlen hmax, ?_⟩
  intro self p_data p_type p_result r hit hk hr
  rcases (process_returned_iff self p_data p_type p_result r).1 hr with ⟨dist, _, hrun⟩
  rcases (process_run_spec self p_data.length dist p_result r hit hk hrun).2 with
    ⟨final, _, _, _, _, hfc⟩
  have h1 : r.clusters = (forward_compaction (final.result.clusters, final.result.medoids)).1 := by
    rw [← hfc]
  rw [h1]
  exact forward_compaction_nonempty _ _

/-- C8 (medoid-set invariant): a swap applied by `swap_medoids` keeps the medoids pairwise
distinct and in range; and when the initial medoids are pairwise distinct indices of points,
so are the medoids of the result of `process`, after the pruning. -/
theorem medoid_set_invariant (self : solver) (p_data : dataset) (p_type : data_t)
    (p_result : kmedoids_data) (hnd : self.m_initial_medoids.Nodup)
    (hv : ∀ m ∈ self.m_initial_medoids, m < p_data.length) :
    (∀ (dist : distance_calculator) (st : state) (x : ℚ × state),
      swap_medoids p_data.length dist st = some x →
      st.result.medoids.Nodup → (∀ m ∈ st.result.medoids, m < p_data.length) →
      x.2.result.medoids.Nodup ∧ ∀ m ∈ x.2.result.medoids, m < p_data.length) ∧
    (∀ r, process self p_data p_type p_result = outcome.returned r →
      r.medoids.Nodup ∧ ∀ m ∈ r.medoids, m < p_data.length) := by
  have hset : ∀ (M : medoid_sequence) (ic im : Nat), M.Nodup →
      (∀ m ∈ M, m < p_data.length) → im < p_data.length → im ∉ M →
      (M.set ic im).Nodup ∧ ∀ m ∈ M.set ic im, m < p_data.length := by
    intro M ic im h1 h2 h3 h4
    refine ⟨List.Nodup.set h1 h4, ?_⟩
    intro m hm
    rcases List.mem_or_eq_of_mem_set hm with h | h
    · exact h2 m h
    · rw [h]; exact h3
  constructor
  · intro dist st x hx h1 h2
    rcases (swap_medoids_spec p_data.length dist st x hx).1 with e | ⟨_, ic, im, _, _, c3, c4, e⟩
    · rw [e]; exact ⟨h1, h2⟩
    · rw [e]; exact hset _ ic im h1 h2 c3 c4
  · intro r hr
    rcases (process_returned_iff self p_data p_type p_result r).1 hr with ⟨dist, _, hrun⟩
    refine process_run_invariant self p_data.length dist p_result r
      (fun s => s.2.Nodup ∧ ∀ m ∈ s.2, m < p_data.length) ?_ ?_ ?_ hrun
    · intro st hst
      show st.result.medoids.Nodup ∧ ∀ m ∈ st.result.medoids, m < p_data.length
      rw [(process_start_medoids self p_data.length dist p_result st hst).1]
      exact ⟨hnd, hv⟩
    · intro st y hs hy
      rcases (iteration_spec p_data.length dist st y hy).2 with
        ⟨_, e⟩ | ⟨_, _, _, _, _, e | ⟨ic, im, _, c3, c4, e⟩⟩
      · rw [e]; exact hs
      · show y.1.result.medoids.Nodup ∧ ∀ m ∈ y.1.result.medoids, m < p_data.length
        rw [e]; exact hs
      · show y.1.result.medoids.Nodup ∧ ∀ m ∈ y.1.result.medoids, m < p_data.length
        rw [e]; exact hset _ ic im hs.1 hs.2 c3 c4
    · intro C M j hs _ _
      exact ⟨List.Nodup.eraseIdx j hs.1,
        fun m hm => hs.2 m (List.mem_of_mem_eraseIdx hm)⟩

/-- C5 (input-kind equivalence): a run on the points `P` with the metric of the solver and a
run on the matrix of all pairwise distances of `P` under that metric, with the same initial
medoids, tolerance and iteration budget, have the same outcome: the same medoids, clusters,
total deviation and iteration count, or both fail. -/
theorem input_kind_equivalence (self : solver) (P : dataset) (p_result : kmedoids_data) :
    process self P data_t.POINTS p_result =
      process self (P.map (fun a => P.map (fun b => self.m_metric a b)))
        data_t.DISTANCE_MATRIX p_result := by
  rw [process_POINTS, process_DISTANCE_MATRIX, List.length_map]
  have hcalc : calculate_distance_using_points self.m_metric P =
      calculate_distance_using_distance_matrix
        (P.map (fun a => P.map (fun b => self.m_metric a b))) := by
    funext i j
    unfold calculate_distance_using_points calculate_distance_using_distance_matrix
    rw [List.getElem?_map]
    cases hi : P[i]? with
    | none => rfl
    | some a =>
      simp only [Option.bind_eq_bind, Option.some_bind, Option.map_some', Option.pure_def]
      rw [List.getElem?_map]
      cases hj : P[j]? with
      | none => rfl
      | some b => rfl
  rw [hcalc]

/-! ### Idempotence and recomputation of the total deviation -/

theorem process_run_medoids_length (self : solver) (size : Nat) (dist : distance_calculator)
    (p_result r : kmedoids_data) (h : process_run self size dist p_result = some r) :
    r.medoids.length ≤ self.m_initial_medoids.length := by
  refine process_run_invariant self size dist p_result r
    (fun s => s.2.length ≤ self.m_initial_medoids.length) ?_ ?_ ?_ h
  · intro st hst
    show st.result.medoids.length ≤ _
    rw [(process_start_medoids self size dist p_result st hst).1]
  · intro st y hs hy
    show y.1.result.medoids.length ≤ _
    rcases (iteration_spec size dist st y hy).2 with
      ⟨_, e⟩ | ⟨_, _, _, _, _, e | ⟨ic, im, _, _, _, e⟩⟩
    · rw [e]; exact hs
    · rw [e]; exact hs
    · rw [e, List.length_set]; exact hs
  · intro C M j hs _ _
    show (M.eraseIdx j).length ≤ _
    have hs2 : M.length ≤ self.m_initial_medoids.length := hs
    rw [List.length_eraseIdx]
    split <;> omega

/-- C4 (idempotence at convergence): after a run of `process` with `m_itermax > 0` has
returned, `update_clusters` alone, on any state that holds the final (pruned) medoids and has
one slot per point in the three per-point vectors, returns the reported total deviation and
rebuilds the reported clusters.  On finite distances and valid initial medoids the run does
return. -/
theorem idempotence_at_convergence (self : solver) (p_data : dataset) (p_type : data_t)
    (p_result : kmedoids_data) (dist : distance_calculator) (hit : 0 < self.m_itermax)
    (hmax : self.m_initial_medoids.length ≤ SIZE_MAX)
    (hc : create_distance_calculator self.m_metric p_data p_type = Except.ok dist) :
    (∀ r, process self p_data p_type p_result = outcome.returned r →
      ∀ st : state, st.result.medoids = r.medoids →
        p_data.length ≤ st.m_labels.length →
        p_data.length ≤ st.m_distance_first_medoid.length →
        p_data.length ≤ st.m_distance_second_medoid.length →
        ∃ st2, update_clusters p_data.length dist st = some (r.total_deviation, st2) ∧
          st2.result.clusters = r.clusters ∧ st2.result.medoids = r.medoids) ∧
    (finite_distances p_data.length dist →
      valid_medoids p_data.length self.m_initial_medoids →
      ∃ r, process self p_data p_type p_result = outcome.returned r) := by
  constructor
  · intro r hr st hm h1 h2 h3
    rcases (process_returned_iff self p_data p_type p_result r).1 hr with ⟨dist2, hc2, hrun⟩
    rw [hc] at hc2
    have hd : dist = dist2 := Except.ok.inj hc2
    subst hd
    have hasg := (process_run_spec self p_data.length dist p_result r hit hmax hrun).1
    exact update_clusters_of_assigned p_data.length dist r st hasg hm h1 h2 h3
  · intro hd hM
    rcases process_run_total self p_data.length dist p_result hit hd hM with ⟨r, hr⟩
    exact ⟨r, (process_returned_iff self p_data p_type p_result r).2 ⟨dist, hc, hr⟩⟩

/-- The first distance that `find_appropriate_cluster` returns is the distance from the
point to the medoid of the winning slot. -/
theorem find_appropriate_cluster_first (dist : distance_calculator) (p : Nat)
    (M : medoid_sequence) (mk : appropriate_cluster)
    (h : find_appropriate_cluster dist p M = some mk) (hin : mk.m_index < M.length)
    (hmax : M.length ≤ SIZE_MAX) :
    ∃ m, M[mk.m_index]? = some m ∧ dist p m = some mk.m_distance_to_first_medoid := by
  rw [find_appropriate_cluster_eq] at h
  rcases Option.bind_eq_some.1 h with ⟨ds, hds, h2⟩
  have hmk : scan 0 ds no_cluster = mk := Option.some.inj h2
  rcases scan_spec ds 0 no_cluster with ⟨h1, _, _⟩ | ⟨w, h1, h2, _⟩
  · rw [hmk] at h1
    have : mk.m_index = SIZE_MAX := h1
    omega
  · rw [hmk] at h1 h2
    have hw : mk.m_index = w := by omega
    rw [hw]
    have hf := (parallel_collect_forall2 (dist p) M ds).1 hds
    have hwM : w < M.length := by omega
    have hwd : w < ds.length := by
      rcases List.getElem?_eq_some.1 h1 with ⟨hh, _⟩
      exact hh
    refine ⟨M[w], List.getElem?_eq_getElem hwM, ?_⟩
    have h3 := List.Forall₂.get hf hwM hwd
    simp only [List.get_eq_getElem] at h3
    rw [h3]
    rcases List.getElem?_eq_some.1 h1 with ⟨_, hh⟩
    rw [hh]

theorem mem_members (labels : List Nat) (m i p : Nat) :
    p ∈ members labels m i ↔ p < m ∧ labels[p]? = some i := by
  unfold members
  rw [List.mem_filter, List.mem_range]
  simp

theorem expected_cluster_fold (dist : distance_calculator) (m : Nat) (F : Nat → ℚ)
    (hsym : ∀ i j, dist i j = dist j i) (hzero : ∀ i d, dist i i = some d → d = 0) :
    ∀ (c : List Nat) (acc : ℚ), (∀ p ∈ c, dist p m = some (F p)) →
      c.foldlM (expected_cluster_deviation dist m) acc = some (acc + (c.map F).sum) := by
  intro c
  induction c with
  | nil =>
    intro acc _
    simp
  | cons p c ih =>
    intro acc h
    have hp := h p (List.mem_cons_self p c)
    rw [List.foldlM_cons]
    have hstep : expected_cluster_deviation dist m acc p = some (acc + F p) := by
      unfold expected_cluster_deviation
      by_cases hmp : m = p
      · rw [if_pos hmp]
        rw [hmp] at hp
        rw [hzero p (F p) hp, add_zero]
        rfl
      · rw [if_neg hmp, hsym m p, hp]
        rfl
    rw [hstep]
    simp only [Option.bind_eq_bind, Option.some_bind]
    rw [ih (acc + F p) (fun q hq => h q (List.mem_cons_of_mem p hq)), List.map_cons,
      List.sum_cons, add_assoc]

theorem expected_total_fold (dist : distance_calculator) (M : medoid_sequence)
    (C : cluster_sequence) (F : Nat → ℚ)
    (hsym : ∀ i j, dist i j = dist j i) (hzero : ∀ i d, dist i i = some d → d = 0)
    (hC : ∀ (i : Nat) (c : cluster), C[i]? = some c →
      ∃ m, M[i]? = some m ∧ ∀ p ∈ c, dist p m = some (F p)) :
    ∀ j ≤ C.length, (List.range j).foldlM
      (fun acc index_cluster => do
        let index_point_medoid ← M[index_cluster]?
        let members ← C[index_cluster]?
        members.foldlM (expected_cluster_deviation dist index_point_medoid) acc) 0
      = some (((C.take j).map (fun c => (c.map F).sum)).sum) := by
  intro j
  induction j with
  | zero => intro _; rfl
  | succ j ih =>
    intro hj
    have hjC : j < C.length := by omega
    have hget : C[j]? = some C[j] := List.getElem?_eq_getElem hjC
    rcases hC j C[j] hget with ⟨m, hm, hdist⟩
    rw [List.range_succ, List.foldlM_append, ih (by omega)]
    simp only [List.foldlM_cons, List.foldlM_nil, Option.bind_eq_bind, Option.some_bind,
      Option.pure_def, hm, hget]
    rw [expected_cluster_fold dist m F hsym hzero C[j] _ hdist]
    simp only [Option.some_bind, Option.some.injEq]
    rw [List.take_succ, hget, Option.toList_some, List.map_append, List.sum_append,
      List.map_singleton, List.sum_singleton]

/-- The recomputation of the unit tests on an assigned result gives its total deviation. -/
theorem assigned_expected (size : Nat) (dist : distance_calculator) (r : kmedoids_data)
    (h : assigned size dist r) (hmax : r.medoids.length ≤ SIZE_MAX)
    (hsym : ∀ i j, dist i j = dist j i) (hzero : ∀ i d, dist i i = some d → d = 0) :
    expected_total_deviation dist r.medoids r.clusters = some r.total_deviation := by
  have hperm := assigned_perm size dist r h
  rcases h with ⟨markers, h1, h2, h3, h4⟩
  have hlen : markers.length = size := by
    rw [parallel_collect_length h1, List.length_range]
  let F : Nat → ℚ := fun p =>
    ((markers.map (fun mk => mk.m_distance_to_first_medoid))[p]?).getD 0
  have hC : ∀ (i : Nat) (c : cluster), r.clusters[i]? = some c →
      ∃ m, r.medoids[i]? = some m ∧ ∀ p ∈ c, dist p m = some (F p) := by
    intro i c hic
    rw [h3, grouped_getElem?] at hic
    have hik : i < r.medoids.length := by
      by_contra hcon
      rw [if_neg hcon] at hic
      cases hic
    rw [if_pos hik] at hic
    refine ⟨r.medoids[i], List.getElem?_eq_getElem hik, ?_⟩
    intro p hp
    rw [← Option.some.inj hic, mem_members] at hp
    rcases hp with ⟨hp1, hp2⟩
    rcases parallel_collect_range_getElem? h1 p hp1 with ⟨a, ha, hfa⟩
    rw [List.getElem?_map, ha] at hp2
    have hai : a.m_index = i := Option.some.inj hp2
    rcases find_appropriate_cluster_first dist p r.medoids a hfa
        (h2 a (List.mem_iff_getElem?.2 ⟨p, ha⟩)) hmax with ⟨m, hm1, hm2⟩
    rw [hai, List.getElem?_eq_getElem hik] at hm1
    rw [Option.some.inj hm1, hm2]
    show some a.m_distance_to_first_medoid = some (F p)
    simp only [F]
    rw [List.getElem?_map, ha]
    rfl
  unfold expected_total_deviation
  rw [expected_total_fold dist r.medoids r.clusters F hsym hzero hC r.clusters.length
    (le_refl _), List.take_length, h4]
  congr 1
  have hsum : (r.clusters.map (fun c => (c.map F).sum)).sum = (r.clusters.flatten.map F).sum := by
    rw [List.map_flatten, List.sum_flatten, List.map_map]
    rfl
  rw [hsum, (hperm.map F).sum_eq]
  congr 1
  apply List.ext_getElem?
  intro p
  rw [List.getElem?_map]
  by_cases hp : p < size
  · rw [List.getElem?_range hp]
    simp only [Option.map_some', F]
    have hp2 : p < (markers.map fun mk => mk.m_distance_to_first_medoid).length := by
      rw [List.length_map]; omega
    rw [List.getElem?_eq_getElem hp2]
    rfl
  · rw [List.getElem?_eq_none (by simpa using hp),
      List.getElem?_eq_none (by rw [List.length_map]; omega)]
    rfl

/-- C2 (the reported deviation is recomputable): under a symmetric distance that is zero
from a point to itself, after a run of `process` with `m_itermax > 0` has returned, the
recomputation of the unit tests (the sum, over every final cluster and every member other
than its medoid, of the distance from the medoid to the member) gives the reported total
deviation.  On finite distances and valid initial medoids the run does return. -/
theorem reported_deviation_recomputable (self : solver) (p_data : dataset) (p_type : data_t)
    (p_result : kmedoids_data) (dist : distance_calculator) (hit : 0 < self.m_itermax)
    (hmax : self.m_initial_medoids.length ≤ SIZE_MAX)
    (hc : create_distance_calculator self.m_metric p_data p_type = Except.ok dist)
    (hsym : ∀ i j, dist i j = dist j i) (hzero : ∀ i d, dist i i = some d → d = 0) :
    (∀ r, process self p_data p_type p_result = outcome.returned r →
      expected_total_deviation dist r.medoids r.clusters = some r.total_deviation) ∧
    (finite_distances p_data.length dist →
      valid_medoids p_data.length self.m_initial_medoids →
      ∃ r, process self p_data p_type p_result = outcome.returned r) := by
  constructor
  · intro r hr
    rcases (process_returned_iff self p_data p_type p_result r).1 hr with ⟨dist2, hc2, hrun⟩
    rw [hc] at hc2
    have hd : dist = dist2 := Except.ok.inj hc2
    subst hd
    have hasg := (process_run_spec self p_data.length dist p_result r hit hmax hrun).1
    have hlen := process_run_medoids_length self p_data.length dist p_result r hrun
    exact assigned_expected p_data.length dist r hasg (by omega) hsym hzero
  · intro hd hM
    rcases process_run_total self p_data.length dist p_result hit hd hM with ⟨r, hr⟩
    exact ⟨r, (process_returned_iff self p_data p_type p_result r).2 ⟨dist, hc, hr⟩⟩

/-! ### The recorded total deviations -/

theorem loop_deviations_spec (size : Nat) (dist : distance_calculator) (tol : ℚ)
    (itermax : Nat) :
    ∀ (fuel : Nat) (changes : ℚ) (st : state) (later : List ℚ),
      loop_deviations size dist tol itermax fuel changes st = some later →
      (later ≠ [] → changes > tol) ∧
      List.Chain' (fun previous next => previous - next > tol)
        (st.result.total_deviation :: later).dropLast := by
  intro fuel
  induction fuel with
  | zero =>
    intro changes st later h
    rw [loop_deviations] at h
    split at h
    · cases h
    · rw [← Option.some.inj h]
      exact ⟨fun hc => absurd rfl hc, by simp⟩
  | succ f ih =>
    intro changes st later h
    rw [loop_deviations] at h
    by_cases hc : st.result.iterations < itermax ∧ changes > tol
    · rw [if_pos hc] at h
      simp only [Option.bind_eq_bind] at h
      rcases Option.bind_eq_some.1 h with ⟨y, hy, h2⟩
      cases hy2 : y.2 with
      | none =>
        rw [hy2] at h2
        rw [← Option.some.inj h2]
        exact ⟨fun hc2 => absurd rfl hc2, by simp⟩
      | some c =>
        rw [hy2] at h2
        simp only [Option.pure_def] at h2
        rcases Option.bind_eq_some.1 h2 with ⟨later1, hl1, h3⟩
        rw [← Option.some.inj h3]
        refine ⟨fun _ => hc.2, ?_⟩
        rcases ih c y.1 later1 hl1 with ⟨i1, i2⟩
        have hcval : c = st.result.total_deviation - y.1.result.total_deviation := by
          rcases (iteration_spec size dist st y hy).2 with ⟨e, _⟩ | ⟨e, _⟩
          · rw [hy2] at e; cases e
          · rw [hy2] at e; exact Option.some.inj e
        cases later1 with
        | nil => simp
        | cons d rest =>
          have hgt := i1 (by simp)
          rw [hcval] at hgt
          rw [List.dropLast_cons₂, List.dropLast_cons₂]
          rw [List.dropLast_cons₂] at i2
          exact List.Chain'.cons hgt i2
    · rw [if_neg hc] at h
      rw [← Option.some.inj h]
      exact ⟨fun hc2 => absurd rfl hc2, by simp⟩

theorem loop_deviations_last (size : Nat) (dist : distance_calculator) (tol : ℚ)
    (itermax : Nat) :
    ∀ (fuel : Nat) (changes : ℚ) (st st2 : state),
      process_loop size dist tol itermax fuel changes st = some st2 →
      ∃ later, loop_deviations size dist tol itermax fuel changes st = some later ∧
        (st.result.total_deviation :: later).getLast? = some st2.result.total_deviation := by
  intro fuel
  induction fuel with
  | zero =>
    intro changes st st2 h
    rw [process_loop] at h
    rw [loop_deviations]
    split at h
    · cases h
    · rename_i hc
      rw [if_neg hc, ← Option.some.inj h]
      exact ⟨[], rfl, rfl⟩
  | succ f ih =>
    intro changes st st2 h
    rw [process_loop] at h
    rw [loop_deviations]
    by_cases hc : st.result.iterations < itermax ∧ changes > tol
    · rw [if_pos hc] at h
      rw [if_pos hc]
      simp only [Option.bind_eq_bind] at h
      rcases Option.bind_eq_some.1 h with ⟨y, hy, h2⟩
      simp only [hy, Option.bind_eq_bind, Option.some_bind]
      cases hy2 : y.2 with
      | none =>
        rw [hy2] at h2
        refine ⟨[], rfl, ?_⟩
        rw [← Option.some.inj h2]
        rcases (iteration_spec size dist st y hy).2 with ⟨_, e⟩ | ⟨e, _⟩
        · rw [e]; rfl
        · rw [hy2] at e; cases e
      | some c =>
        rw [hy2] at h2
        rcases ih c y.1 st2 h2 with ⟨later1, hl1, hl2⟩
        refine ⟨y.1.result.total_deviation :: later1, ?_, ?_⟩
        · simp only [hl1, Option.some_bind, Option.pure_def]
        · rw [List.getLast?_cons_cons]
          exact hl2
    · rw [if_neg hc] at h
      rw [if_neg hc, ← Option.some.inj h]
      exact ⟨[], rfl, rfl⟩

/-- C3 fails as stated: on three points on a line with an end point as initial medoid, the
baseline deviation is 3, the first iteration moves the medoid to the middle point and records
2, and the second iteration applies the cheapest swap although its cost is positive and
records 3, which is what the run reports. -/
theorem monotonicity_counterexample :
    recorded_deviations line_solver line_matrix data_t.DISTANCE_MATRIX kmedoids_data.empty
      = some [3, 2, 3] ∧
    process line_solver line_matrix data_t.DISTANCE_MATRIX kmedoids_data.empty
      = outcome.returned ⟨[[0, 1, 2]], [0], 3, 2⟩ ∧
    ¬ monotone_deviations [3, 2, 3] := by
  refine ⟨by decide!, by decide!, ?_⟩
  unfold monotone_deviations
  simp only [List.chain'_cons, List.chain'_singleton, and_true]
  norm_num

/-! ### The properties on a sample run -/

theorem sample_run :
    process sample_solver sample_matrix data_t.DISTANCE_MATRIX kmedoids_data.empty
      = outcome.returned ⟨[[0, 1], [2]], [1, 2], 1, 1⟩ := by
  decide!

theorem sample_calculator :
    create_distance_calculator sample_solver.m_metric sample_matrix data_t.DISTANCE_MATRIX
      = Except.ok (calculate_distance_using_distance_matrix sample_matrix) := by
  rfl

theorem sample_symmetric (i j : Nat) :
    calculate_distance_using_distance_matrix sample_matrix i j
      = calculate_distance_using_distance_matrix sample_matrix j i := by
  rcases i with _ | _ | _ | i <;> rcases j with _ | _ | _ | j <;> rfl

theorem sample_zero (i : Nat) (d : ℚ)
    (h : calculate_distance_using_distance_matrix sample_matrix i i = some d) : d = 0 := by
  rcases i with _ | _ | _ | i
  · exact (Option.some.inj h).symm
  · exact (Option.some.inj h).symm
  · exact (Option.some.inj h).symm
  · cases h

theorem sample_medoids_fit : sample_solver.m_initial_medoids.length ≤ SIZE_MAX := by
  decide

theorem sample_finite_distances :
    finite_distances sample_matrix.length
      (calculate_distance_using_distance_matrix sample_matrix) := by
  have h0 : (0 : ℚ) < DBL_MAX := by unfold DBL_MAX; norm_num
  have h1 : (1 : ℚ) < DBL_MAX := by unfold DBL_MAX; norm_num
  have h3 : (3 : ℚ) < DBL_MAX := by unfold DBL_MAX; norm_num
  have h5 : (5 : ℚ) < DBL_MAX := by unfold DBL_MAX; norm_num
  intro i hi j hj
  have hi3 : i < 3 := hi
  have hj3 : j < 3 := hj
  interval_cases i <;> interval_cases j
  · exact ⟨0, rfl, h0⟩
  · exact ⟨1, rfl, h1⟩
  · exact ⟨5, rfl, h5⟩
  · exact ⟨1, rfl, h1⟩
  · exact ⟨0, rfl, h0⟩
  · exact ⟨3, rfl, h3⟩
  · exact ⟨5, rfl, h5⟩
  · exact ⟨3, rfl, h3⟩
  · exact ⟨0, rfl, h0⟩

theorem sample_valid_medoids :
    valid_medoids sample_matrix.length sample_solver.m_initial_medoids := by
  refine ⟨by decide, fun _ => by decide, sample_medoids_fit⟩

theorem partition_validity_witness :
    List.Perm ([[0, 1], [2]] : cluster_sequence).flatten (List.range sample_matrix.length) ∧
    ∃ r, process sample_solver sample_matrix data_t.DISTANCE_MATRIX kmedoids_data.empty
      = outcome.returned r := by
  exact ⟨((partition_validity sample_solver sample_matrix data_t.DISTANCE_MATRIX
      kmedoids_data.empty (by decide)).1 _ sample_run).1,
    (partition_validity sample_solver sample_matrix data_t.DISTANCE_MATRIX
      kmedoids_data.empty (by decide)).2 _ sample_calculator sample_finite_distances
      sample_valid_medoids⟩

theorem reported_deviation_recomputable_witness :
    expected_total_deviation (calculate_distance_using_distance_matrix sample_matrix)
      [1, 2] [[0, 1], [2]] = some 1 := by
  exact (reported_deviation_recomputable sample_solver sample_matrix data_t.DISTANCE_MATRIX
    kmedoids_data.empty _ (by decide) sample_medoids_fit sample_calculator sample_symmetric
    sample_zero).1 _ sample_run

theorem idempotence_at_convergence_witness :
    ∃ st2, update_clusters sample_matrix.length
        (calculate_distance_using_distance_matrix sample_matrix)
        ⟨⟨[], [1, 2], 0, 0⟩, [0, 0, 0], [0, 0, 0], [0, 0, 0]⟩ = some (1, st2) ∧
      st2.result.clusters = [[0, 1], [2]] ∧ st2.result.medoids = [1, 2] := by
  exact (idempotence_at_convergence sample_solver sample_matrix data_t.DISTANCE_MATRIX
    kmedoids_data.empty _ (by decide) sample_medoids_fit sample_calculator).1 _ sample_run
    ⟨⟨[], [1, 2], 0, 0⟩, [0, 0, 0], [0, 0, 0], [0, 0, 0]⟩ rfl (by decide) (by decide)
    (by decide)

theorem medoid_set_invariant_witness :
    ([1, 2] : medoid_sequence).Nodup ∧ ∀ m ∈ ([1, 2] : medoid_sequence), m < sample_matrix.length := by
  exact (medoid_set_invariant sample_solver sample_matrix data_t.DISTANCE_MATRIX
    kmedoids_data.empty (by decide) (by decide)).2 _ sample_run

theorem medoid_cluster_pairing_witness :
    ([[0, 1], [2]] : cluster_sequence).length = ([1, 2] : medoid_sequence).length := by
  exact (medoid_cluster_pairing sample_solver sample_matrix data_t.DISTANCE_MATRIX
    kmedoids_data.empty (by decide)).2.1 _ sample_run

theorem erase_empty_clusters_forward_compaction_witness :
    erase_empty_clusters ([[], [0, 1], [], [2], []], [3, 1, 4, 2, 0])
      = some (forward_compaction ([[], [0, 1], [], [2], []], [3, 1, 4, 2, 0])) ∧
    forward_compaction ([[], [0, 1], [], [2], []], [3, 1, 4, 2, 0]) = ([[0, 1], [2]], [1, 2]) := by
  exact ⟨(erase_empty_clusters_forward_compaction [[], [0, 1], [], [2], []] [3, 1, 4, 2, 0]
    rfl (by decide)).1, by decide⟩

theorem DBL_MAX_pos : 0 < DBL_MAX := by
  unfold DBL_MAX
  norm_num

theorem parallel_collect_getElem? {α : Type} {f : Nat → Option α} {l : List Nat} {r : List α}
    (h : parallel_collect f l = some r) (j : Nat) :
    (∀ a, r[j]? = some a → ∃ i, l[j]? = some i ∧ f i = some a) ∧
    (∀ i, l[j]? = some i → ∃ a, r[j]? = some a ∧ f i = some a) := by
  have hf := (parallel_collect_forall2 f l r).1 h
  have hlen : r.length = l.length := parallel_collect_length h
  constructor
  · intro a ha
    rcases List.getElem?_eq_some.1 ha with ⟨hj, hja⟩
    have hjl : j < l.length := by omega
    refine ⟨l[j], List.getElem?_eq_getElem hjl, ?_⟩
    have h3 := List.Forall₂.get hf hjl hj
    simp only [List.get_eq_getElem] at h3
    rw [h3, hja]
  · intro i hi
    rcases List.getElem?_eq_some.1 hi with ⟨hj, hji⟩
    have hjr : j < r.length := by omega
    refine ⟨r[j], List.getElem?_eq_getElem hjr, ?_⟩
    have h3 := List.Forall₂.get hf hj hjr
    simp only [List.get_eq_getElem] at h3
    rw [← hji, h3]

theorem scan_second : ∀ (ds : List ℚ) (s : Nat) (acc : appropriate_cluster),
    acc.m_distance_to_first_medoid ≤ acc.m_distance_to_second_medoid →
    (acc.m_index < s ∨ s + ds.length ≤ acc.m_index) →
    (scan s ds acc).m_distance_to_first_medoid ≤ (scan s ds acc).m_distance_to_second_medoid ∧
    (scan s ds acc).m_distance_to_second_medoid ≤ acc.m_distance_to_second_medoid ∧
    (∀ j u, ds[j]? = some u → (scan s ds acc).m_index ≠ s + j →
      (scan s ds acc).m_distance_to_second_medoid ≤ u) ∧
    ((scan s ds acc).m_index ≠ acc.m_index →
      (scan s ds acc).m_distance_to_second_medoid ≤ acc.m_distance_to_first_medoid) ∧
    ((scan s ds acc).m_distance_to_second_medoid = acc.m_distance_to_second_medoid ∨
      ((scan s ds acc).m_index ≠ acc.m_index ∧
        (scan s ds acc).m_distance_to_second_medoid = acc.m_distance_to_first_medoid) ∨
      ∃ j, ds[j]? = some (scan s ds acc).m_distance_to_second_medoid ∧
        (scan s ds acc).m_index ≠ s + j) ∧
    ((scan s ds acc).m_index = acc.m_index ∨
      ∃ j, j < ds.length ∧ (scan s ds acc).m_index = s + j) := by
  intro ds
  induction ds with
  | nil =>
    intro s acc hle _
    simp only [scan]
    refine ⟨hle, le_refl _, ?_, ?_, Or.inl trivial, Or.inl trivial⟩
    · intro j u hj
      simp at hj
    · intro hne
      exact absurd rfl hne
  | cons d rest ih =>
    intro s acc hle hidx
    simp only [scan, List.length_cons] at *
    by_cases h1 : d < acc.m_distance_to_first_medoid
    · have ht : track acc s d = ⟨s, d, acc.m_distance_to_first_medoid⟩ := by
        simp only [track, if_pos h1]
      rw [ht]
      rcases ih (s + 1) ⟨s, d, acc.m_distance_to_first_medoid⟩ (le_of_lt h1)
        (Or.inl (Nat.lt_succ_self s)) with ⟨i1, i2, i3, i4, i5, i6⟩
      simp only at i1 i2 i3 i4 i5 i6
      have hne : (scan (s + 1) rest ⟨s, d, acc.m_distance_to_first_medoid⟩).m_index
          ≠ acc.m_index := by
        rcases i6 with i6 | ⟨j, hj, i6⟩
        · rw [i6]; omega
        · rw [i6]; omega
      refine ⟨i1, le_trans i2 hle, ?_, fun _ => i2, ?_, ?_⟩
      · intro j u hj hne2
        cases j with
        | zero =>
          simp only [List.getElem?_cons_zero, Option.some.injEq] at hj
          rw [← hj]
          exact i4 (by simpa using hne2)
        | succ j =>
          simp only [List.getElem?_cons_succ] at hj
          exact i3 j u hj (by omega)
      · rcases i5 with i5 | ⟨i5a, i5b⟩ | ⟨j, i5a, i5b⟩
        · exact Or.inr (Or.inl ⟨hne, i5⟩)
        · refine Or.inr (Or.inr ⟨0, ?_, by simpa using i5a⟩)
          rw [i5b, List.getElem?_cons_zero]
        · exact Or.inr (Or.inr ⟨j + 1, by simpa using i5a, by omega⟩)
      · rcases i6 with i6 | ⟨j, hj, i6⟩
        · exact Or.inr ⟨0, by omega, by simpa using i6⟩
        · exact Or.inr ⟨j + 1, by omega, by omega⟩
    · by_cases h2 : d < acc.m_distance_to_second_medoid
      · have ht : track acc s d
            = ⟨acc.m_index, acc.m_distance_to_first_medoid, d⟩ := by
          simp only [track, if_neg h1, if_pos h2]
        rw [ht]
        rcases ih (s + 1) ⟨acc.m_index, acc.m_distance_to_first_medoid, d⟩ (not_lt.1 h1)
          (by simp only; omega) with ⟨i1, i2, i3, i4, i5, i6⟩
        simp only at i1 i2 i3 i4 i5 i6
        refine ⟨i1, le_trans i2 (le_of_lt h2), ?_, i4, ?_, ?_⟩
        · intro j u hj hne2
          cases j with
          | zero =>
            simp only [List.getElem?_cons_zero, Option.some.injEq] at hj
            rw [← hj]
            exact i2
          | succ j =>
            simp only [List.getElem?_cons_succ] at hj
            exact i3 j u hj (by omega)
        · rcases i5 with i5 | ⟨i5a, i5b⟩ | ⟨j, i5a, i5b⟩
          · refine Or.inr (Or.inr ⟨0, ?_, ?_⟩)
            · rw [i5, List.getElem?_cons_zero]
            · rcases i6 with i6 | ⟨j, hj, i6⟩
              · rw [i6]; omega
              · rw [i6]; omega
          · exact Or.inr (Or.inl ⟨i5a, i5b⟩)
          · exact Or.inr (Or.inr ⟨j + 1, by simpa using i5a, by omega⟩)
        · rcases i6 with i6 | ⟨j, hj, i6⟩
          · exact Or.inl i6
          · exact Or.inr ⟨j + 1, by omega, by omega⟩
      · have ht : track acc s d = acc := by
          simp only [track, if_neg h1, if_neg h2]
        rw [ht]
        rcases ih (s + 1) acc hle (by omega) with ⟨i1, i2, i3, i4, i5, i6⟩
        refine ⟨i1, i2, ?_, i4, ?_, ?_⟩
        · intro j u hj hne2
          cases j with
          | zero =>
            simp only [List.getElem?_cons_zero, Option.some.injEq] at hj
            rw [← hj]
            exact le_trans i2 (not_lt.1 h2)
          | succ j =>
            simp only [List.getElem?_cons_succ] at hj
            exact i3 j u hj (by omega)
        · rcases i5 with i5 | ⟨i5a, i5b⟩ | ⟨j, i5a, i5b⟩
          · exact Or.inl i5
          · exact Or.inr (Or.inl ⟨i5a, i5b⟩)
          · exact Or.inr (Or.inr ⟨j + 1, by simpa using i5a, by omega⟩)
        · rcases i6 with i6 | ⟨j, hj, i6⟩
          · exact Or.inl i6
          · exact Or.inr ⟨j + 1, by omega, by omega⟩

/-- C18: for a point `p` and a non-empty medoid sequence whose distances to `p` are all defined
and below the sentinel `DBL_MAX`, `find_appropriate_cluster` returns a slot of the sequence whose
medoid is at the returned first distance, that distance is the least one over all slots, and
every slot before the returned one is strictly farther: the winner is the smallest slot that
attains the minimum. -/
theorem nearest_medoid_stable_tie_break (dist : distance_calculator) (p : Nat)
    (M : medoid_sequence) (hne : M ≠ [])
    (hd : ∀ m ∈ M, ∃ d, dist p m = some d ∧ d < DBL_MAX) :
    ∃ mk m, find_appropriate_cluster dist p M = some mk ∧
      M[mk.m_index]? = some m ∧ dist p m = some mk.m_distance_to_first_medoid ∧
      (∀ (j m2 : Nat) (d : ℚ), M[j]? = some m2 → dist p m2 = some d → mk.m_distance_to_first_medoid ≤ d) ∧
      (∀ (j m2 : Nat) (d : ℚ), j < mk.m_index → M[j]? = some m2 → dist p m2 = some d →
        mk.m_distance_to_first_medoid < d) := by
  rcases parallel_collect_total (dist p) M (fun m hm => by
    rcases hd m hm with ⟨d, hd1, _⟩
    exact ⟨d, hd1⟩) with ⟨ds, hds⟩
  have hlen : ds.length = M.length := parallel_collect_length hds
  have hfind : find_appropriate_cluster dist p M = some (scan 0 ds no_cluster) := by
    rw [find_appropriate_cluster_eq, hds]
    rfl
  rcases scan_spec ds 0 no_cluster with ⟨_, _, h3⟩ | ⟨w, h1, h2, _, h4, h5⟩
  · exfalso
    have hpos : 0 < ds.length := by
      rw [hlen]
      exact List.length_pos.2 hne
    have hmem : ds[0] ∈ ds := List.getElem_mem hpos
    rcases parallel_collect_mem hds _ hmem with ⟨m, hm, hdm⟩
    rcases hd m hm with ⟨d, hd1, hd2⟩
    rw [hd1] at hdm
    have := h3 _ hmem
    rw [← Option.some.inj hdm] at this
    exact absurd hd2 (not_lt.2 this)
  · rcases (parallel_collect_getElem? hds w).1 _ h1 with ⟨m, hm1, hm2⟩
    have hw : (scan 0 ds no_cluster).m_index = w := by omega
    refine ⟨scan 0 ds no_cluster, m, hfind, ?_, hm2, ?_, ?_⟩
    · rw [hw]
      exact hm1
    · intro j m2 d hj hd2
      rcases (parallel_collect_getElem? hds j).2 m2 hj with ⟨a, ha1, ha2⟩
      rw [hd2] at ha2
      rw [← Option.some.inj ha2] at ha1
      exact h5 d (List.mem_iff_getElem?.2 ⟨_, ha1⟩)
    · intro j m2 d hjw hj hd2
      rcases (parallel_collect_getElem? hds j).2 m2 hj with ⟨a, ha1, ha2⟩
      rw [hd2] at ha2
      rw [← Option.some.inj ha2] at ha1
      exact h4 j (by omega) d ha1

/-- C19: the second distance returned by `find_appropriate_cluster` is never below the first
one; with a single medoid it is the sentinel `DBL_MAX`; it is a lower bound of the distances to
the medoids of all slots other than the winning one; and, when there are at least two medoids
and every distance is a finite `double` (at most `DBL_MAX`), it is attained at a slot other
than the winning one, so that it is the minimum over those slots. -/
theorem second_best_distance (dist : distance_calculator) (p : Nat) (M : medoid_sequence)
    (mk : appropriate_cluster) (hmax : M.length ≤ SIZE_MAX)
    (h : find_appropriate_cluster dist p M = some mk) :
    mk.m_distance_to_first_medoid ≤ mk.m_distance_to_second_medoid ∧
    (M.length = 1 → mk.m_distance_to_second_medoid = DBL_MAX) ∧
    (∀ (j m : Nat) (d : ℚ), M[j]? = some m → dist p m = some d → j ≠ mk.m_index →
      mk.m_distance_to_second_medoid ≤ d) ∧
    ((∀ m ∈ M, ∀ d, dist p m = some d → d ≤ DBL_MAX) → 2 ≤ M.length →
      ∃ (j m : Nat), j ≠ mk.m_index ∧ M[j]? = some m ∧
        dist p m = some mk.m_distance_to_second_medoid) := by
  rw [find_appropriate_cluster_eq] at h
  rcases Option.bind_eq_some.1 h with ⟨ds, hds, h2⟩
  have hmk : scan 0 ds no_cluster = mk := Option.some.inj h2
  have hlen : ds.length = M.length := parallel_collect_length hds
  have hidx : no_cluster.m_index < 0 ∨ 0 + ds.length ≤ no_cluster.m_index := by
    right
    show 0 + ds.length ≤ SIZE_MAX
    omega
  rcases scan_second ds 0 no_cluster (le_refl _) hidx with ⟨i1, i2, i3, i4, i5, i6⟩
  rw [hmk] at i1 i2 i3 i4 i5 i6
  have i2b : mk.m_distance_to_second_medoid ≤ DBL_MAX := i2
  have hlow : ∀ (j m : Nat) (d : ℚ), M[j]? = some m → dist p m = some d → j ≠ mk.m_index →
      mk.m_distance_to_second_medoid ≤ d := by
    intro j m d hj hd hne
    rcases (parallel_collect_getElem? hds j).2 m hj with ⟨a, ha1, ha2⟩
    rw [hd] at ha2
    rw [← Option.some.inj ha2] at ha1
    exact i3 j d ha1 (by omega)
  refine ⟨i1, ?_, hlow, ?_⟩
  · intro hone
    rcases i5 with i5 | ⟨_, i5⟩ | ⟨j, i5a, i5b⟩
    · exact i5
    · exact i5
    · have hj : j < ds.length := (List.getElem?_eq_some.1 i5a).1
      have hj0 : j = 0 := by omega
      rcases scan_spec ds 0 no_cluster with ⟨_, _, h3⟩ | ⟨w, h1, h2, _⟩
      · have hge := h3 _ (List.mem_iff_getElem?.2 ⟨_, i5a⟩)
        exact le_antisymm i2b hge
      · exfalso
        rw [hmk] at h2
        have hw : w < ds.length := (List.getElem?_eq_some.1 h1).1
        omega
  · intro hfin htwo
    rcases i5 with i5 | ⟨_, i5⟩ | ⟨j, i5a, i5b⟩
    · have hs : mk.m_distance_to_second_medoid = DBL_MAX := i5
      have hex : ∃ j, j < M.length ∧ j ≠ mk.m_index := by
        by_cases h0 : mk.m_index = 0
        · exact ⟨1, by omega, by omega⟩
        · exact ⟨0, by omega, fun h => h0 h.symm⟩
      rcases hex with ⟨j, hj, hne⟩
      rcases (parallel_collect_getElem? hds j).2 M[j] (List.getElem?_eq_getElem hj)
        with ⟨a, ha1, ha2⟩
      have h1 := hlow j M[j] a (List.getElem?_eq_getElem hj) ha2 hne
      have h2 := hfin M[j] (List.getElem_mem hj) a ha2
      refine ⟨j, M[j], hne, List.getElem?_eq_getElem hj, ?_⟩
      rw [ha2, hs]
      rw [hs] at h1
      exact congrArg some (le_antisymm h2 h1)
    · have hs : mk.m_distance_to_second_medoid = DBL_MAX := i5
      have hex : ∃ j, j < M.length ∧ j ≠ mk.m_index := by
        by_cases h0 : mk.m_index = 0
        · exact ⟨1, by omega, by omega⟩
        · exact ⟨0, by omega, fun h => h0 h.symm⟩
      rcases hex with ⟨j, hj, hne⟩
      rcases (parallel_collect_getElem? hds j).2 M[j] (List.getElem?_eq_getElem hj)
        with ⟨a, ha1, ha2⟩
      have h1 := hlow j M[j] a (List.getElem?_eq_getElem hj) ha2 hne
      have h2 := hfin M[j] (List.getElem_mem hj) a ha2
      refine ⟨j, M[j], hne, List.getElem?_eq_getElem hj, ?_⟩
      rw [ha2, hs]
      rw [hs] at h1
      exact congrArg some (le_antisymm h2 h1)
    · rcases (parallel_collect_getElem? hds j).1 _ i5a with ⟨m, hm1, hm2⟩
      exact ⟨j, m, by omega, hm1, hm2⟩

theorem swap_cost_step_eq (size : Nat) (dist : distance_calculator) (st : state) (x c : Nat)
    (distance : Nat → Nat → ℚ) (label : Nat → Nat) (firstDist secondDist : Nat → ℚ)
    (hd : ∀ y < size, y ≠ x → dist y x = some (distance y x))
    (hl : ∀ y < size, st.m_labels[y]? = some (label y))
    (hf : ∀ y < size, st.m_distance_first_medoid[y]? = some (firstDist y))
    (hs : ∀ y < size, st.m_distance_second_medoid[y]? = some (secondDist y))
    (cost : ℚ) (y : Nat) (hy : y < size) :
    swap_cost_step dist st x c cost y
      = some (cost + swap_cost_term distance label firstDist secondDist x c y) := by
  unfold swap_cost_step swap_cost_term
  by_cases hyx : y = x
  · rw [if_pos hyx, if_pos hyx, add_zero]
    rfl
  · rw [if_neg hyx, if_neg hyx, hd y hy hyx, hl y hy, hf y hy, hs y hy]
    simp only [Option.bind_eq_bind, Option.some_bind, Option.pure_def]
    by_cases hlc : label y = c
    · rw [if_pos hlc, if_pos hlc]
    · rw [if_neg hlc, if_neg hlc]
      by_cases hlt : distance y x < firstDist y
      · rw [if_pos hlt, if_pos hlt]
      · rw [if_neg hlt, if_neg hlt, add_zero]

theorem swap_cost_fold (size : Nat) (dist : distance_calculator) (st : state) (x c : Nat)
    (distance : Nat → Nat → ℚ) (label : Nat → Nat) (firstDist secondDist : Nat → ℚ)
    (hd : ∀ y < size, y ≠ x → dist y x = some (distance y x))
    (hl : ∀ y < size, st.m_labels[y]? = some (label y))
    (hf : ∀ y < size, st.m_distance_first_medoid[y]? = some (firstDist y))
    (hs : ∀ y < size, st.m_distance_second_medoid[y]? = some (secondDist y)) :
    ∀ m ≤ size, (List.range m).foldlM (swap_cost_step dist st x c) 0
      = some (((List.range m).map
          (swap_cost_term distance label firstDist secondDist x c)).sum) := by
  intro m
  induction m with
  | zero =>
    intro _
    rfl
  | succ m ih =>
    intro hm
    rw [List.range_succ, List.foldlM_append, ih (by omega), List.map_append, List.sum_append]
    simp only [Option.bind_eq_bind, Option.some_bind, List.foldlM_cons, List.foldlM_nil,
      List.map_cons, List.map_nil, List.sum_cons, List.sum_nil, add_zero]
    rw [swap_cost_step_eq size dist st x c distance label firstDist secondDist hd hl hf hs _ m
      (by omega)]
    rfl

theorem calculate_swap_cost_eq (size : Nat) (dist : distance_calculator) (st : state)
    (x c : Nat) (distance : Nat → Nat → ℚ) (label : Nat → Nat) (firstDist secondDist : Nat → ℚ)
    (hd : ∀ y < size, y ≠ x → dist y x = some (distance y x))
    (hl : ∀ y < size, st.m_labels[y]? = some (label y))
    (hf : ∀ y < size, st.m_distance_first_medoid[y]? = some (firstDist y))
    (hs : ∀ y < size, st.m_distance_second_medoid[y]? = some (secondDist y))
    (hx : x < size) :
    calculate_swap_cost size dist st x c
      = some (((List.range size).map
          (swap_cost_term distance label firstDist secondDist x c)).sum - firstDist x) := by
  unfold calculate_swap_cost
  rw [swap_cost_fold size dist st x c distance label firstDist secondDist hd hl hf hs size
    (le_refl _), hf x hx]
  rfl

theorem sample_medoids_finite (p : Nat) (hp : p < 3) :
    ∀ m ∈ ([0, 2] : medoid_sequence),
      ∃ d, calculate_distance_using_distance_matrix sample_matrix p m = some d ∧ d < DBL_MAX := by
  intro m hm
  refine sample_finite_distances p hp m ?_
  simp only [List.mem_cons, List.mem_singleton, List.not_mem_nil, or_false] at hm
  rcases hm with rfl | rfl <;> decide

theorem nearest_medoid_stable_tie_break_witness :
    ∃ mk m, find_appropriate_cluster (calculate_distance_using_distance_matrix sample_matrix)
        1 [0, 2] = some mk ∧
      ([0, 2] : medoid_sequence)[mk.m_index]? = some m ∧
      calculate_distance_using_distance_matrix sample_matrix 1 m
        = some mk.m_distance_to_first_medoid ∧
      (∀ (j m2 : Nat) (d : ℚ), ([0, 2] : medoid_sequence)[j]? = some m2 →
        calculate_distance_using_distance_matrix sample_matrix 1 m2 = some d →
        mk.m_distance_to_first_medoid ≤ d) ∧
      (∀ (j m2 : Nat) (d : ℚ), j < mk.m_index → ([0, 2] : medoid_sequence)[j]? = some m2 →
        calculate_distance_using_distance_matrix sample_matrix 1 m2 = some d →
        mk.m_distance_to_first_medoid < d) := by
  exact nearest_medoid_stable_tie_break _ 1 [0, 2] (by decide)
    (sample_medoids_finite 1 (by decide))

theorem second_best_distance_witness :
    ((1 : ℚ) ≤ 3) ∧
    ∃ (j m : Nat), j ≠ 0 ∧ ([0, 2] : medoid_sequence)[j]? = some m ∧
      calculate_distance_using_distance_matrix sample_matrix 1 m = some 3 := by
  have h := second_best_distance (calculate_distance_using_distance_matrix sample_matrix) 1
    [0, 2] ⟨0, 1, 3⟩ (by decide) (by decide!)
  refine ⟨h.1, h.2.2.2 ?_ (by decide)⟩
  intro m hm d hd
  rcases sample_medoids_finite 1 (by decide) m hm with ⟨d2, h1, h2⟩
  rw [h1] at hd
  rw [← Option.some.inj hd]
  exact le_of_lt h2

theorem one_le_SIZE_MAX : 1 ≤ SIZE_MAX := by
  decide

theorem assigned_medoid_member (size : Nat) (dist : distance_calculator) (r : kmedoids_data)
    (h : assigned size dist r) (hnd : r.medoids.Nodup) (hv : ∀ m ∈ r.medoids, m < size)
    (hzero : ∀ i < size, dist i i = some 0)
    (hpos : ∀ i < size, ∀ j < size, i ≠ j → ∀ d, dist i j = some d → 0 < d) :
    ∀ (j m : Nat), r.medoids[j]? = some m → ∃ c, r.clusters[j]? = some c ∧ m ∈ c := by
  intro j m hjm
  rcases h with ⟨markers, hm, _, hc, _⟩
  have hmem : m ∈ r.medoids := List.mem_iff_getElem?.2 ⟨j, hjm⟩
  have hms : m < size := hv m hmem
  rcases parallel_collect_range_getElem? hm m hms with ⟨mk, hmk1, hmk2⟩
  rw [find_appropriate_cluster_eq] at hmk2
  rcases Option.bind_eq_some.1 hmk2 with ⟨ds, hds, h2⟩
  have hscan : scan 0 ds no_cluster = mk := Option.some.inj h2
  rcases (parallel_collect_getElem? hds j).2 m hjm with ⟨a, ha1, ha2⟩
  rw [hzero m hms] at ha2
  rw [← Option.some.inj ha2] at ha1
  have hjlen : j < r.medoids.length := (List.getElem?_eq_some.1 hjm).1
  have hother : ∀ j2 u, j2 ≠ j → ds[j2]? = some u → 0 < u := by
    intro j2 u hne hu
    rcases (parallel_collect_getElem? hds j2).1 u hu with ⟨m2, hm2, hd2⟩
    have hm2s : m2 < size := hv m2 (List.mem_iff_getElem?.2 ⟨j2, hm2⟩)
    have hne2 : m ≠ m2 := by
      intro e
      rw [← e] at hm2
      rcases List.getElem?_eq_some.1 hm2 with ⟨hj2, e2⟩
      rcases List.getElem?_eq_some.1 hjm with ⟨hj1, e1⟩
      exact hne ((List.Nodup.getElem_inj_iff hnd).1 (e2.trans e1.symm))
    exact hpos m hms m2 hm2s hne2 u hd2
  have hidx := scan_unique ds 0 no_cluster j 0 ha1 DBL_MAX_pos
    (fun j2 hj2 u hu => hother j2 u (by omega) hu)
    (fun u hu => by
      rcases List.mem_iff_getElem?.1 hu with ⟨j2, hj2⟩
      by_cases e : j2 = j
      · rw [e, ha1] at hj2
        rw [← Option.some.inj hj2]
      · exact le_of_lt (hother j2 u e hj2))
  rw [hscan] at hidx
  refine ⟨members (markers.map (fun mk => mk.m_index)) size j, ?_, ?_⟩
  · rw [hc, grouped_getElem?, if_pos hjlen]
  · rw [mem_members]
    refine ⟨hms, ?_⟩
    rw [List.getElem?_map, hmk1]
    show some mk.m_index = some j
    rw [hidx.1, Nat.zero_add]

/-- C17: when the distance of every point to itself is zero and the distance between two
different points is positive, and the initial medoids are pairwise distinct points, a run of
`process` with `m_itermax > 0` returns as many medoids and as many clusters as there were
initial medoids, and every medoid of the result belongs to the cluster of its own slot. -/
theorem no_pruning_for_distinct_points (self : solver) (p_data : dataset) (p_type : data_t)
    (p_result : kmedoids_data) (dist : distance_calculator) (hit : 0 < self.m_itermax)
    (hc : create_distance_calculator self.m_metric p_data p_type = Except.ok dist)
    (hzero : ∀ i < p_data.length, dist i i = some 0)
    (hpos : ∀ i < p_data.length, ∀ j < p_data.length, i ≠ j → ∀ d, dist i j = some d → 0 < d)
    (hnd : self.m_initial_medoids.Nodup)
    (hv : ∀ m ∈ self.m_initial_medoids, m < p_data.length) :
    ∀ r, process self p_data p_type p_result = outcome.returned r →
      r.medoids.length = self.m_initial_medoids.length ∧
      r.clusters.length = self.m_initial_medoids.length ∧
      ∀ (j m : Nat), r.medoids[j]? = some m → ∃ c, r.clusters[j]? = some c ∧ m ∈ c := by
  intro r hr
  rcases (process_returned_iff self p_data p_type p_result r).1 hr with ⟨dist2, hc2, hrun⟩
  rw [hc] at hc2
  have hdd : dist2 = dist := (Except.ok.inj hc2).symm
  rw [hdd] at hrun
  have hset : ∀ (M : medoid_sequence) (ic im : Nat), M.Nodup →
      (∀ m ∈ M, m < p_data.length) → im < p_data.length → im ∉ M →
      (M.set ic im).Nodup ∧ ∀ m ∈ M.set ic im, m < p_data.length := by
    intro M ic im h1 h2 h3 h4
    refine ⟨List.Nodup.set h1 h4, ?_⟩
    intro m hm
    rcases List.mem_or_eq_of_mem_set hm with h | h
    · exact h2 m h
    · rw [h]; exact h3
  have hinv := process_run_invariant self p_data.length dist p_result r
    (fun s => s.2.Nodup ∧ (∀ m ∈ s.2, m < p_data.length) ∧
      s.2.length = self.m_initial_medoids.length ∧
      s.1.length = self.m_initial_medoids.length ∧
      ∀ (j m : Nat), s.2[j]? = some m → ∃ c, s.1[j]? = some c ∧ m ∈ c) ?_ ?_ ?_ hrun
  · exact ⟨hinv.2.2.1, hinv.2.2.2.1, hinv.2.2.2.2⟩
  · intro st hst
    have hmed := (process_start_medoids self p_data.length dist p_result st hst).1
    have hasg := (process_start_spec self p_data.length dist p_result st hit hst).1
    have hnd2 : st.result.medoids.Nodup := by rw [hmed]; exact hnd
    have hv2 : ∀ m ∈ st.result.medoids, m < p_data.length := by rw [hmed]; exact hv
    refine ⟨hnd2, hv2, by rw [hmed], ?_, ?_⟩
    · show st.result.clusters.length = _
      rw [assigned_length _ _ _ hasg, hmed]
    · exact assigned_medoid_member _ _ _ hasg hnd2 hv2 hzero hpos
  · intro st y hs hy
    rcases hs with ⟨s1, s2, s3, s4, s5⟩
    rcases (iteration_spec p_data.length dist st y hy).2 with
      ⟨_, e⟩ | ⟨_, hasg, _, _, _, e | ⟨ic, im, _, c3, c4, e⟩⟩
    · rw [e]
      exact ⟨s1, s2, s3, s4, s5⟩
    · have hnd2 : y.1.result.medoids.Nodup := by rw [e]; exact s1
      have hv2 : ∀ m ∈ y.1.result.medoids, m < p_data.length := by rw [e]; exact s2
      refine ⟨hnd2, hv2, ?_, ?_, ?_⟩
      · show y.1.result.medoids.length = _
        rw [e]; exact s3
      · show y.1.result.clusters.length = _
        rw [assigned_length _ _ _ hasg, e]; exact s3
      · exact assigned_medoid_member _ _ _ hasg hnd2 hv2 hzero hpos
    · have hboth := hset _ ic im s1 s2 c3 c4
      have hnd2 : y.1.result.medoids.Nodup := by rw [e]; exact hboth.1
      have hv2 : ∀ m ∈ y.1.result.medoids, m < p_data.length := by rw [e]; exact hboth.2
      refine ⟨hnd2, hv2, ?_, ?_, ?_⟩
      · show y.1.result.medoids.length = _
        rw [e, List.length_set]; exact s3
      · show y.1.result.clusters.length = _
        rw [assigned_length _ _ _ hasg, e, List.length_set]; exact s3
      · exact assigned_medoid_member _ _ _ hasg hnd2 hv2 hzero hpos
  · intro C M j hs hj hjM
    exfalso
    rcases hs with ⟨_, _, _, _, s5⟩
    rcases s5 j M[j] (List.getElem?_eq_getElem hjM) with ⟨c, hc1, hc2⟩
    have hc1b : C[j]? = some c := hc1
    rw [hj] at hc1b
    rw [← Option.some.inj hc1b] at hc2
    cases hc2

theorem members_all (labels : List Nat) (m i : Nat)
    (h : ∀ p < m, labels[p]? = some i) : members labels m i = List.range m := by
  unfold members
  rw [List.filter_eq_self]
  intro p hp
  simpa using h p (List.mem_range.1 hp)

theorem forward_compaction_count : ∀ (C : cluster_sequence) (M : medoid_sequence),
    C.length = M.length →
    (forward_compaction (C, M)).2.length + (C.filter List.isEmpty).length
      = M.length := by
  intro C
  induction C with
  | nil =>
    intro M h
    cases M with
    | nil => rfl
    | cons m M => simp at h
  | cons c C ih =>
    intro M h
    cases M with
    | nil => simp at h
    | cons m M =>
      have hlen : C.length = M.length := by simpa using h
      have ih2 := ih M hlen
      unfold forward_compaction at ih2 ⊢
      simp only [List.unzip_eq_map, List.length_map, List.zip_cons_cons, List.length_cons]
        at ih2 ⊢
      by_cases hc : c.isEmpty = true
      · rw [List.filter_cons_of_neg (by simp [hc]), List.filter_cons_of_pos hc]
        simp only [List.length_cons]
        omega
      · rw [List.filter_cons_of_pos (by simp [hc]), List.filter_cons_of_neg hc]
        simp only [List.length_cons]
        omega

theorem process_unpruned_spec (self : solver) (size : Nat) (dist : distance_calculator)
    (p_result r : kmedoids_data) (hit : 0 < self.m_itermax)
    (hmax : self.m_initial_medoids.length ≤ SIZE_MAX)
    (h : process_run self size dist p_result = some r) :
    ∃ u, process_unpruned self size dist p_result = some u ∧ assigned size dist u ∧
      u.medoids.length = self.m_initial_medoids.length ∧
      u.total_deviation = r.total_deviation ∧ u.iterations = r.iterations ∧
      (r.clusters, r.medoids) = forward_compaction (u.clusters, u.medoids) := by
  rcases process_run_eq_some self size dist p_result r h with
    ⟨entered, final, pruned, h1, h2, h3, h4⟩
  have hs := process_start_spec self size dist p_result entered hit h1
  have hm := (process_start_medoids self size dist p_result entered h1).1
  have hl := process_loop_spec size dist self.m_tolerance self.m_itermax
    self.m_initial_medoids.length self.m_itermax DBL_MAX entered final h2
    ⟨hs.1, by rw [hm], hs.2.1, hs.2.2.1, hs.2.2.2⟩
  have hlen := assigned_length size dist final.result hl.1
  rw [erase_empty_clusters_eq _ _ hlen (by rw [hlen, hl.2.1]; exact hmax)] at h3
  refine ⟨final.result, ?_, hl.1, hl.2.1, ?_, ?_, ?_⟩
  · unfold process_unpruned
    rw [h1, Option.bind_eq_bind, Option.some_bind, h2]
    rfl
  · rw [h4]
  · rw [h4]
  · rw [h4, ← Option.some.inj h3]

/-- C16: the result of `process` never has more medoids than the solver was given; and for a
run with `m_itermax > 0` the number of medoids of the result and the number of empty clusters
of the last assignment (the result object before `erase_empty_clusters` runs) add up to the
number of initial medoids. -/
theorem medoid_set_never_grows (self : solver) (p_data : dataset) (p_type : data_t)
    (p_result : kmedoids_data) :
    (∀ r, process self p_data p_type p_result = outcome.returned r →
      r.medoids.length ≤ self.m_initial_medoids.length) ∧
    (0 < self.m_itermax → self.m_initial_medoids.length ≤ SIZE_MAX →
      ∀ r dist, create_distance_calculator self.m_metric p_data p_type = Except.ok dist →
        process self p_data p_type p_result = outcome.returned r →
        ∃ u, process_unpruned self p_data.length dist p_result = some u ∧
          u.medoids.length = self.m_initial_medoids.length ∧
          u.clusters.length = self.m_initial_medoids.length ∧
          r.medoids.length + (u.clusters.filter (fun c => c.isEmpty)).length
            = self.m_initial_medoids.length) := by
  constructor
  · intro r hr
    rcases (process_returned_iff self p_data p_type p_result r).1 hr with ⟨dist, _, hrun⟩
    exact process_run_medoids_length self p_data.length dist p_result r hrun
  · intro hit hmax r dist hc hr
    rcases (process_returned_iff self p_data p_type p_result r).1 hr with ⟨dist2, hc2, hrun⟩
    rw [hc] at hc2
    have hdd : dist2 = dist := (Except.ok.inj hc2).symm
    rw [hdd] at hrun
    rcases process_unpruned_spec self p_data.length dist p_result r hit hmax hrun with
      ⟨u, hu, hasg, hlen, _, _, hfc⟩
    have hcl := assigned_length _ _ _ hasg
    refine ⟨u, hu, hlen, by rw [hcl, hlen], ?_⟩
    have hcount := forward_compaction_count u.clusters u.medoids hcl
    rw [← hfc, hlen] at hcount
    exact hcount

/-- C15: a run of `process` with `m_itermax > 0` from a single initial medoid that is a point
of the dataset returns one medoid and one cluster, and that cluster lists every point index
`0 .. n-1`; on finite distances the run does return. -/
theorem single_medoid (self : solver) (p_data : dataset) (p_type : data_t)
    (p_result : kmedoids_data) (m : Nat) (hit : 0 < self.m_itermax)
    (hone : self.m_initial_medoids = [m]) (hm : m < p_data.length) :
    (∀ r, process self p_data p_type p_result = outcome.returned r →
      r.medoids.length = 1 ∧ r.clusters = [List.range p_data.length]) ∧
    (∀ dist, create_distance_calculator self.m_metric p_data p_type = Except.ok dist →
      finite_distances p_data.length dist →
      ∃ r, process self p_data p_type p_result = outcome.returned r) := by
  have hlen1 : self.m_initial_medoids.length = 1 := by rw [hone]; rfl
  have hmax : self.m_initial_medoids.length ≤ SIZE_MAX := by
    rw [hlen1]
    exact one_le_SIZE_MAX
  constructor
  · intro r hr
    rcases (process_returned_iff self p_data p_type p_result r).1 hr with ⟨dist, _, hrun⟩
    rcases process_unpruned_spec self p_data.length dist p_result r hit hmax hrun with
      ⟨u, _, hasg, hlen, _, _, hfc⟩
    rw [hlen1] at hlen
    rcases hasg with ⟨markers, hmk, hin, hcl, _⟩
    have hmlen : markers.length = p_data.length := by
      rw [parallel_collect_length hmk, List.length_range]
    have hall : ∀ p < p_data.length,
        (markers.map (fun mk => mk.m_index))[p]? = some 0 := by
      intro p hp
      have hp2 : p < markers.length := by omega
      rw [List.getElem?_map, List.getElem?_eq_getElem hp2]
      have := hin markers[p] (List.getElem_mem hp2)
      rw [hlen] at this
      show some (markers[p].m_index) = some 0
      congr 1
      omega
    have hclusters : u.clusters = [List.range p_data.length] := by
      rw [hcl, hlen]
      unfold grouped
      have hr1 : List.range 1 = [0] := rfl
      rw [hr1, List.map_singleton, members_all _ _ _ hall]
    rcases List.length_eq_one.1 hlen with ⟨m2, hm2⟩
    rw [hclusters, hm2] at hfc
    have hne : (List.range p_data.length).isEmpty = false := by
      cases hn : p_data.length with
      | zero => omega
      | succ n => rw [List.range_succ_eq_map]; rfl
    have hfc2 : forward_compaction ([List.range p_data.length], [m2])
        = ([List.range p_data.length], [m2]) := by
      unfold forward_compaction
      rw [List.zip_cons_cons, List.zip_nil_left, List.filter_cons_of_pos (by simp [hne])]
      rfl
    rw [hfc2] at hfc
    have h1 : r.clusters = [List.range p_data.length] := (Prod.mk.inj hfc).1
    have h2 : r.medoids = [m2] := (Prod.mk.inj hfc).2
    exact ⟨by rw [h2]; rfl, h1⟩
  · intro dist hc hd
    have hvalid : valid_medoids p_data.length self.m_initial_medoids := by
      refine ⟨?_, ?_, hmax⟩
      · intro m2 hm2
        rw [hone] at hm2
        rw [List.mem_singleton.1 hm2]
        exact hm
      · intro _
        rw [hone]
        exact List.cons_ne_nil _ _
    rcases process_run_total self p_data.length dist p_result hit hd hvalid with ⟨r, hr⟩
    exact ⟨r, (process_returned_iff self p_data p_type p_result r).2 ⟨dist, hc, hr⟩⟩

theorem loop_passes_spec (size : Nat) (dist : distance_calculator) (tol : ℚ)
    (itermax : Nat) :
    ∀ (fuel : Nat) (changes : ℚ) (st : state) (ps : List (state × Option ℚ)),
      loop_passes size dist tol itermax fuel changes st = some ps →
      (ps ≠ [] ↔ (st.result.iterations < itermax ∧ changes > tol)) ∧
      (∀ (i : Nat) (y : state × Option ℚ), ps[i]? = some y →
        y.1.result.iterations = st.result.iterations + i + 1) ∧
      (ps ≠ [] → st.result.iterations + ps.length ≤ itermax) ∧
      (∀ (i : Nat) (y : state × Option ℚ), ps[i]? = some y → y.2 = none →
        i + 1 = ps.length) ∧
      (∀ (i : Nat) (y : state × Option ℚ) (c : ℚ), ps[i]? = some y → y.2 = some c →
        (i + 1 < ps.length ↔ (y.1.result.iterations < itermax ∧ c > tol))) := by
  intro fuel
  induction fuel with
  | zero =>
    intro changes st ps h
    rw [loop_passes] at h
    split at h
    · cases h
    · rename_i hc
      rw [← Option.some.inj h]
      refine ⟨⟨fun hne => absurd rfl hne, fun hc2 => absurd hc2 hc⟩, ?_,
        fun hne => absurd rfl hne, ?_, ?_⟩
      · intro i y hi
        simp at hi
      · intro i y hi
        simp at hi
      · intro i y c hi
        simp at hi
  | succ f ih =>
    intro changes st ps h
    rw [loop_passes] at h
    by_cases hc : st.result.iterations < itermax ∧ changes > tol
    · rw [if_pos hc] at h
      simp only [Option.bind_eq_bind] at h
      rcases Option.bind_eq_some.1 h with ⟨y0, hy0, h2⟩
      have hit := (iteration_spec size dist st y0 hy0).1
      cases hy2 : y0.2 with
      | none =>
        rw [hy2] at h2
        rw [← Option.some.inj h2]
        refine ⟨⟨fun _ => hc, fun _ => List.cons_ne_nil _ _⟩, ?_, ?_, ?_, ?_⟩
        · intro i y hi
          cases i with
          | zero =>
            simp only [List.getElem?_cons_zero, Option.some.injEq] at hi
            rw [← hi, hit]
          | succ i => simp at hi
        · intro _
          simp only [List.length_singleton]
          omega
        · intro i y hi _
          cases i with
          | zero => rfl
          | succ i => simp at hi
        · intro i y c hi hyc
          cases i with
          | zero =>
            simp only [List.getElem?_cons_zero, Option.some.injEq] at hi
            rw [← hi, hy2] at hyc
            cases hyc
          | succ i => simp at hi
      | some c0 =>
        rw [hy2] at h2
        simp only [Option.pure_def] at h2
        rcases Option.bind_eq_some.1 h2 with ⟨later, hl, h3⟩
        rw [← Option.some.inj h3]
        rcases ih c0 y0.1 later hl with ⟨i1, i2, i3, i4, i5⟩
        refine ⟨⟨fun _ => hc, fun _ => List.cons_ne_nil _ _⟩, ?_, ?_, ?_, ?_⟩
        · intro i y hi
          cases i with
          | zero =>
            simp only [List.getElem?_cons_zero, Option.some.injEq] at hi
            rw [← hi, hit]
          | succ i =>
            simp only [List.getElem?_cons_succ] at hi
            rw [i2 i y hi, hit]
            omega
        · intro _
          simp only [List.length_cons]
          by_cases hl0 : later = []
          · rw [hl0]
            simp only [List.length_nil]
            omega
          · have := i3 hl0
            omega
        · intro i y hi hn
          cases i with
          | zero =>
            simp only [List.getElem?_cons_zero, Option.some.injEq] at hi
            rw [← hi, hy2] at hn
            cases hn
          | succ i =>
            simp only [List.getElem?_cons_succ] at hi
            simp only [List.length_cons]
            rw [i4 i y hi hn]
        · intro i y c hi hyc
          cases i with
          | zero =>
            simp only [List.getElem?_cons_zero, Option.some.injEq] at hi
            rw [← hi, hy2] at hyc
            rw [← hi, ← Option.some.inj hyc, ← i1]
            simp only [List.length_cons]
            constructor
            · intro hlt hnil
              rw [hnil] at hlt
              simp at hlt
            · intro hne
              have := List.length_pos.2 hne
              omega
          | succ i =>
            simp only [List.getElem?_cons_succ] at hi
            simp only [List.length_cons]
            rw [← i5 i y c hi hyc]
            omega
    · rw [if_neg hc] at h
      rw [← Option.some.inj h]
      refine ⟨⟨fun hne => absurd rfl hne, fun hc2 => absurd hc2 hc⟩, ?_,
        fun hne => absurd rfl hne, ?_, ?_⟩
      · intro i y hi
        simp at hi
      · intro i y hi
        simp at hi
      · intro i y c hi
        simp at hi

theorem loop_passes_of_loop (size : Nat) (dist : distance_calculator) (tol : ℚ)
    (itermax : Nat) :
    ∀ (fuel : Nat) (changes : ℚ) (st st2 : state),
      process_loop size dist tol itermax fuel changes st = some st2 →
      ∃ ps, loop_passes size dist tol itermax fuel changes st = some ps ∧
        (st :: ps.map (fun y => y.1)).getLast? = some st2 := by
  intro fuel
  induction fuel with
  | zero =>
    intro changes st st2 h
    rw [process_loop] at h
    rw [loop_passes]
    split at h
    · cases h
    · rename_i hc
      rw [if_neg hc, ← Option.some.inj h]
      exact ⟨[], rfl, rfl⟩
  | succ f ih =>
    intro changes st st2 h
    rw [process_loop] at h
    rw [loop_passes]
    by_cases hc : st.result.iterations < itermax ∧ changes > tol
    · rw [if_pos hc] at h
      rw [if_pos hc]
      simp only [Option.bind_eq_bind] at h
      rcases Option.bind_eq_some.1 h with ⟨y, hy, h2⟩
      simp only [hy, Option.bind_eq_bind, Option.some_bind]
      cases hy2 : y.2 with
      | none =>
        rw [hy2] at h2
        refine ⟨[y], rfl, ?_⟩
        rw [← Option.some.inj h2]
        rfl
      | some c =>
        rw [hy2] at h2
        rcases ih c y.1 st2 h2 with ⟨later1, hl1, hl2⟩
        refine ⟨y :: later1, ?_, ?_⟩
        · simp only [hl1, Option.some_bind, Option.pure_def]
        · rw [List.map_cons, List.getLast?_cons_cons]
          exact hl2
    · rw [if_neg hc] at h
      rw [if_neg hc, ← Option.some.inj h]
      exact ⟨[], rfl, rfl⟩

theorem loop_passes_chain (size : Nat) (dist : distance_calculator) (tol : ℚ)
    (itermax : Nat) (Inv : state → Prop) (R : state → state × Option ℚ → Prop)
    (hiter : ∀ st y, Inv st → iteration size dist st = some y → Inv y.1 ∧ R st y) :
    ∀ (fuel : Nat) (changes : ℚ) (st : state) (ps : List (state × Option ℚ)),
      Inv st → loop_passes size dist tol itermax fuel changes st = some ps →
      ∀ (i : Nat) (y : state × Option ℚ), ps[i]? = some y →
        ∃ previous, (st :: ps.map (fun y => y.1))[i]? = some previous ∧ R previous y := by
  intro fuel
  induction fuel with
  | zero =>
    intro changes st ps _ h
    rw [loop_passes] at h
    split at h
    · cases h
    · rw [← Option.some.inj h]
      intro i y hi
      simp at hi
  | succ f ih =>
    intro changes st ps hinv h
    rw [loop_passes] at h
    by_cases hc : st.result.iterations < itermax ∧ changes > tol
    · rw [if_pos hc] at h
      simp only [Option.bind_eq_bind] at h
      rcases Option.bind_eq_some.1 h with ⟨y0, hy0, h2⟩
      rcases hiter st y0 hinv hy0 with ⟨hinv2, hR⟩
      cases hy2 : y0.2 with
      | none =>
        rw [hy2] at h2
        rw [← Option.some.inj h2]
        intro i y hi
        cases i with
        | zero =>
          simp only [List.getElem?_cons_zero, Option.some.injEq] at hi
          rw [← hi]
          exact ⟨st, rfl, hR⟩
        | succ i => simp at hi
      | some c0 =>
        rw [hy2] at h2
        simp only [Option.pure_def] at h2
        rcases Option.bind_eq_some.1 h2 with ⟨later, hl, h3⟩
        rw [← Option.some.inj h3]
        intro i y hi
        cases i with
        | zero =>
          simp only [List.getElem?_cons_zero, Option.some.injEq] at hi
          rw [← hi]
          exact ⟨st, rfl, hR⟩
        | succ i =>
          simp only [List.getElem?_cons_succ] at hi
          rcases ih c0 y0.1 later hinv2 hl i y hi with ⟨previous, hp1, hp2⟩
          exact ⟨previous, by simpa using hp1, hp2⟩
    · rw [if_neg hc] at h
      rw [← Option.some.inj h]
      intro i y hi
      simp at hi

theorem foldlM_range_invariant {β : Type} (f : β → Nat → Option β) (P : Nat → β → Prop) :
    ∀ (n : Nat) (init r : β), P 0 init →
      (∀ m acc acc2, m < n → P m acc → f acc m = some acc2 → P (m + 1) acc2) →
      (List.range n).foldlM f init = some r → P n r := by
  intro n
  induction n with
  | zero =>
    intro init r h0 _ h
    rw [List.range_zero, List.foldlM_nil] at h
    rw [← Option.some.inj h]
    exact h0
  | succ n ih =>
    intro init r h0 hstep h
    rw [List.range_succ, List.foldlM_append] at h
    rcases Option.bind_eq_some.1 h with ⟨a, ha, h2⟩
    have hPa := ih init a h0 (fun m acc acc2 hm => hstep m acc acc2 (by omega)) ha
    rw [List.foldlM_cons] at h2
    rcases Option.bind_eq_some.1 h2 with ⟨b, hb, h3⟩
    rw [List.foldlM_nil] at h3
    rw [← Option.some.inj h3]
    exact hstep n a b (Nat.lt_succ_self n) hPa hb

theorem chunk_step_le (size : Nat) (dist : distance_calculator) (st : state)
    (index_cluster : Nat) (chunk : optimal_chunk) (x : Nat) (chunk2 : optimal_chunk)
    (h : chunk_step size dist st index_cluster chunk x = some chunk2) :
    chunk2.cost ≤ chunk.cost ∧
    (x ∉ st.result.medoids →
      (∃ first, st.m_distance_first_medoid[x]? = some first ∧ first ≠ 0) →
      ∀ v, calculate_swap_cost size dist st x index_cluster = some v → chunk2.cost ≤ v) := by
  unfold chunk_step at h
  by_cases hmem : x ∈ st.result.medoids
  · rw [if_pos hmem] at h
    rw [← Option.some.inj h]
    exact ⟨le_refl _, fun hn => absurd hmem hn⟩
  · rw [if_neg hmem] at h
    simp only [Option.bind_eq_bind, Option.pure_def] at h
    rcases Option.bind_eq_some.1 h with ⟨first, hfirst, h2⟩
    by_cases hz : first = 0
    · rw [if_pos hz] at h2
      rw [← Option.some.inj h2]
      refine ⟨le_refl _, fun _ hex => ?_⟩
      rcases hex with ⟨f2, hf2, hne⟩
      rw [hfirst] at hf2
      rw [← Option.some.inj hf2] at hne
      exact absurd hz hne
    · rw [if_neg hz] at h2
      rcases Option.bind_eq_some.1 h2 with ⟨cost, hcost, h3⟩
      by_cases hlt : cost < chunk.cost
      · rw [if_pos hlt] at h3
        rw [← Option.some.inj h3]
        refine ⟨le_of_lt hlt, fun _ _ v hv => ?_⟩
        rw [hcost] at hv
        rw [← Option.some.inj hv]
      · rw [if_neg hlt] at h3
        rw [← Option.some.inj h3]
        refine ⟨le_refl _, fun _ _ v hv => ?_⟩
        rw [hcost] at hv
        rw [← Option.some.inj hv]
        exact not_lt.1 hlt

/-- The best candidate of one cluster: its cost is the least swap cost over the candidates,
and it is the cost of the candidate that is recorded with it. -/
theorem chunk_fold_best (size : Nat) (dist : distance_calculator) (st : state)
    (index_cluster : Nat) (chunk : optimal_chunk)
    (h : (List.range size).foldlM (chunk_step size dist st index_cluster)
      { cost := DBL_MAX, index_medoid := INVALID_INDEX } = some chunk) :
    chunk.cost ≤ DBL_MAX ∧
    (∀ x, swap_candidate size st x →
      ∀ v, calculate_swap_cost size dist st x index_cluster = some v → chunk.cost ≤ v) ∧
    (chunk.cost < DBL_MAX → swap_candidate size st chunk.index_medoid ∧
      calculate_swap_cost size dist st chunk.index_medoid index_cluster = some chunk.cost) := by
  have hinv := foldlM_range_invariant (chunk_step size dist st index_cluster)
    (fun m c => c.cost ≤ DBL_MAX ∧
      (∀ x, x < m → swap_candidate size st x →
        ∀ v, calculate_swap_cost size dist st x index_cluster = some v → c.cost ≤ v) ∧
      (c.cost < DBL_MAX → swap_candidate size st c.index_medoid ∧
        calculate_swap_cost size dist st c.index_medoid index_cluster = some c.cost))
    size _ chunk ?_ ?_ h
  · exact ⟨hinv.1, fun x hx => hinv.2.1 x hx.1 hx, hinv.2.2⟩
  · exact ⟨le_refl _, fun x hx => absurd hx (Nat.not_lt_zero x),
      fun hlt => absurd hlt (lt_irrefl _)⟩
  · intro m acc acc2 hm hacc hstep
    rcases chunk_step_le size dist st index_cluster acc m acc2 hstep with ⟨hle, hmin⟩
    refine ⟨le_trans hle hacc.1, ?_, ?_⟩
    · intro x hx hcand v hv
      by_cases hxm : x = m
      · rw [hxm] at hcand hv
        exact hmin hcand.2.1 hcand.2.2 v hv
      · exact le_trans hle (hacc.2.1 x (by omega) hcand v hv)
    · intro hlt
      rcases chunk_step_cases size dist st index_cluster acc m acc2 hstep with
        e | ⟨h1, h2, _, first, h4, h5, h6⟩
      · rw [e] at hlt ⊢
        exact hacc.2.2 hlt
      · rw [h2]
        exact ⟨⟨hm, h1, first, h4, h5⟩, h6⟩

theorem select_step_le (cluster_chunks : List optimal_chunk) (best : optimal_swap)
    (index_cluster : Nat) (best2 : optimal_swap)
    (h : select_step cluster_chunks best index_cluster = some best2) :
    best2.optimal_swap_cost ≤ best.optimal_swap_cost ∧
    ∀ chunk, cluster_chunks[index_cluster]? = some chunk →
      best2.optimal_swap_cost ≤ chunk.cost := by
  unfold select_step at h
  simp only [Option.bind_eq_bind, Option.pure_def] at h
  rcases Option.bind_eq_some.1 h with ⟨chunk, hchunk, h2⟩
  by_cases hlt : chunk.cost < best.optimal_swap_cost
  · rw [if_pos hlt] at h2
    rw [← Option.some.inj h2]
    refine ⟨le_of_lt hlt, fun c hc => ?_⟩
    rw [hchunk] at hc
    rw [← Option.some.inj hc]
  · rw [if_neg hlt] at h2
    rw [← Option.some.inj h2]
    refine ⟨le_refl _, fun c hc => ?_⟩
    rw [hchunk] at hc
    rw [← Option.some.inj hc]
    exact not_lt.1 hlt

/-- The swap selected over all clusters: its cost is the least chunk cost, and it is the cost of
the chunk of the cluster that is recorded with it; the cluster index stays invalid exactly
when no chunk had a cost below the sentinel. -/
theorem select_fold_best (cluster_chunks : List optimal_chunk) (best : optimal_swap)
    (h : (List.range cluster_chunks.length).foldlM (select_step cluster_chunks)
      { optimal_swap_cost := DBL_MAX, optimal_index_cluster := INVALID_INDEX,
        optimal_index_medoid := INVALID_INDEX } = some best) :
    best.optimal_swap_cost ≤ DBL_MAX ∧
    (∀ chunk ∈ cluster_chunks, best.optimal_swap_cost ≤ chunk.cost) ∧
    (best.optimal_swap_cost < DBL_MAX →
      best.optimal_index_cluster < cluster_chunks.length ∧
      cluster_chunks[best.optimal_index_cluster]?
        = some ⟨best.optimal_swap_cost, best.optimal_index_medoid⟩) ∧
    (best.optimal_swap_cost = DBL_MAX → best.optimal_index_cluster = INVALID_INDEX) := by
  have hinv := foldlM_range_invariant (select_step cluster_chunks)
    (fun m b => b.optimal_swap_cost ≤ DBL_MAX ∧
      (∀ i, i < m → ∀ chunk, cluster_chunks[i]? = some chunk →
        b.optimal_swap_cost ≤ chunk.cost) ∧
      (b.optimal_swap_cost < DBL_MAX →
        b.optimal_index_cluster < m ∧
        cluster_chunks[b.optimal_index_cluster]?
          = some ⟨b.optimal_swap_cost, b.optimal_index_medoid⟩) ∧
      (b.optimal_swap_cost = DBL_MAX → b.optimal_index_cluster = INVALID_INDEX))
    cluster_chunks.length _ best ?_ ?_ h
  · refine ⟨hinv.1, ?_, hinv.2.2.1, hinv.2.2.2⟩
    intro chunk hmem
    rcases List.mem_iff_getElem?.1 hmem with ⟨i, hi⟩
    exact hinv.2.1 i (List.getElem?_eq_some.1 hi).1 chunk hi
  · exact ⟨le_refl _, fun i hi => absurd hi (Nat.not_lt_zero i),
      fun hlt => absurd hlt (lt_irrefl _), fun _ => rfl⟩
  · intro m acc acc2 hm hacc hstep
    rcases select_step_le cluster_chunks acc m acc2 hstep with ⟨hle, hmin⟩
    refine ⟨le_trans hle hacc.1, ?_, ?_, ?_⟩
    · intro i hi chunk hchunk
      by_cases him : i = m
      · rw [him] at hchunk
        exact hmin chunk hchunk
      · exact le_trans hle (hacc.2.1 i (by omega) chunk hchunk)
    · intro hlt
      rcases select_step_cases cluster_chunks acc m acc2 hstep with e | ⟨chunk, h1, _, e⟩
      · rw [e] at hlt ⊢
        have := hacc.2.2.1 hlt
        exact ⟨by omega, this.2⟩
      · rw [e]
        exact ⟨Nat.lt_succ_self m, h1⟩
    · intro heq
      rcases select_step_cases cluster_chunks acc m acc2 hstep with e | ⟨chunk, _, h2, e⟩
      · rw [e] at heq ⊢
        exact hacc.2.2.2 heq
      · exfalso
        rw [e] at heq
        have h3 : chunk.cost = DBL_MAX := heq
        rw [h3] at h2
        exact absurd hacc.1 (not_le.2 h2)

/-- The swap that `swap_medoids` selects: its cost is the least swap cost over all clusters and
all candidates; when that cost is below the sentinel (and the clusters fit a `std::vector`), it
is the swap cost of a candidate for a cluster slot, and that slot of the medoid sequence is
overwritten with the candidate; when it is the sentinel, the state is left as it was. -/
theorem swap_medoids_best (size : Nat) (dist : distance_calculator) (st : state)
    (x : ℚ × state) (h : swap_medoids size dist st = some x) :
    x.1 ≤ DBL_MAX ∧
    (∀ index_cluster candidate, index_cluster < st.result.clusters.length →
      swap_candidate size st candidate →
      ∀ v, calculate_swap_cost size dist st candidate index_cluster = some v → x.1 ≤ v) ∧
    (x.1 < DBL_MAX → st.result.clusters.length ≤ SIZE_MAX →
      ∃ index_cluster candidate, index_cluster < st.result.clusters.length ∧
        index_cluster < st.result.medoids.length ∧ swap_candidate size st candidate ∧
        calculate_swap_cost size dist st candidate index_cluster = some x.1 ∧
        x.2 = { st with result :=
          { st.result with medoids := st.result.medoids.set index_cluster candidate } }) ∧
    (x.1 = DBL_MAX → x.2 = st) := by
  have hspec := swap_medoids_spec size dist st x h
  unfold swap_medoids at h
  simp only [Option.bind_eq_bind, Option.pure_def] at h
  rcases Option.bind_eq_some.1 h with ⟨chunks, hchunks, h2⟩
  rcases Option.bind_eq_some.1 h2 with ⟨best, hbest, h3⟩
  have hlen : chunks.length = st.result.clusters.length := by
    rw [parallel_collect_length hchunks, List.length_range]
  rcases select_fold_best chunks best hbest with ⟨s1, s2, s3, s4⟩
  have hcost : x.1 = best.optimal_swap_cost := by
    by_cases hidx : best.optimal_index_cluster = INVALID_INDEX
    · rw [if_neg (not_not.2 hidx)] at h3
      rw [← Option.some.inj h3]
    · rw [if_pos hidx] at h3
      rcases Option.bind_eq_some.1 h3 with ⟨medoids, _, h4⟩
      rw [← Option.some.inj h4]
  refine ⟨by rw [hcost]; exact s1, ?_, ?_, hspec.2⟩
  · intro ic candidate hic hcand v hv
    rw [← List.length_range st.result.clusters.length] at hic
    rcases parallel_collect_range_getElem? hchunks ic
      (by rw [List.length_range] at hic; exact hic) with ⟨chunk, hc1, hc2⟩
    have hb := (chunk_fold_best size dist st ic chunk hc2).2.1 candidate hcand v hv
    rw [hcost]
    exact le_trans (s2 chunk (List.mem_iff_getElem?.2 ⟨ic, hc1⟩)) hb
  · intro hlt hmax
    rw [hcost] at hlt
    rcases s3 hlt with ⟨t1, t2⟩
    have hidx : best.optimal_index_cluster ≠ INVALID_INDEX := by
      have : INVALID_INDEX = SIZE_MAX := rfl
      omega
    rw [if_pos hidx] at h3
    rcases Option.bind_eq_some.1 h3 with ⟨medoids, hw, h4⟩
    rcases (write_at_eq_some _ _ _ _).1 hw with ⟨hin, rfl⟩
    rcases parallel_collect_range_getElem? hchunks best.optimal_index_cluster (by omega)
      with ⟨chunk, hc1, hc2⟩
    rw [t2] at hc1
    rw [← Option.some.inj hc1] at hc2
    rcases (chunk_fold_best size dist st best.optimal_index_cluster _ hc2).2.2 hlt with
      ⟨u1, u2⟩
    refine ⟨best.optimal_index_cluster, best.optimal_index_medoid, by omega, hin, u1, ?_, ?_⟩
    · rw [hcost]
      exact u2
    · rw [← Option.some.inj h4]

theorem update_clusters_tracked (size : Nat) (dist : distance_calculator) (st : state)
    (x : ℚ × state) (h : update_clusters size dist st = some x)
    (h1 : st.m_labels.length = size) (h2 : st.m_distance_first_medoid.length = size)
    (h3 : st.m_distance_second_medoid.length = size) :
    tracked size dist { x.2 with result := { x.2.result with total_deviation := x.1 } } := by
  rcases (update_clusters_eq_some size dist st x).1 h with ⟨markers, hm, hr, hx⟩
  have hlen : markers.length = size := by
    rw [parallel_collect_length hm, List.length_range]
  have hspec := update_clusters_spec size dist st x h
  rcases hspec.1 with ⟨markers2, hm2, hin, _, _⟩
  have hmed : x.2.result.medoids = st.result.medoids := hspec.2.1
  have hm2b : parallel_collect (fun p_index => find_appropriate_cluster dist p_index
      st.result.medoids) (List.range size) = some markers2 := by
    rw [← hmed]
    exact hm2
  rw [hm] at hm2b
  have hmk : markers2 = markers := (Option.some.inj hm2b).symm
  rw [hmk] at hin
  refine ⟨markers, ?_, ?_, ?_, ?_, ?_, ?_, ?_⟩
  · show parallel_collect (fun p_index => find_appropriate_cluster dist p_index
      x.2.result.medoids) (List.range size) = some markers
    rw [hmed]
    exact hm
  · exact hin
  · show x.2.result.clusters = grouped _ x.2.result.medoids.length size
    rw [hmed, hx]
    rfl
  · show x.1 = _
    rw [hx]
    show ((markers.take size).map _).sum = _
    rw [List.take_of_length_le (by omega)]
  · show x.2.m_labels = _
    rw [hx]
    show overwrite _ _ size = _
    rw [← hlen, ← List.length_map markers (fun mk => mk.m_index)]
    exact overwrite_all _ _ (by rw [h1, List.length_map, hlen])
  · show x.2.m_distance_first_medoid = _
    rw [hx]
    show overwrite _ _ size = _
    rw [← hlen, ← List.length_map markers (fun mk => mk.m_distance_to_first_medoid)]
    exact overwrite_all _ _ (by rw [h2, List.length_map, hlen])
  · show x.2.m_distance_second_medoid = _
    rw [hx]
    show overwrite _ _ size = _
    rw [← hlen, ← List.length_map markers (fun mk => mk.m_distance_to_second_medoid)]
    exact overwrite_all _ _ (by rw [h3, List.length_map, hlen])

theorem tracked_assigned (size : Nat) (dist : distance_calculator) (st : state)
    (h : tracked size dist st) :
    assigned size dist st.result ∧ st.m_labels.length = size ∧
    st.m_distance_first_medoid.length = size ∧ st.m_distance_second_medoid.length = size := by
  rcases h with ⟨markers, hm, hin, hc, hd, hl, hf, hs⟩
  have hlen : markers.length = size := by
    rw [parallel_collect_length hm, List.length_range]
  refine ⟨⟨markers, hm, hin, hc, hd⟩, ?_, ?_, ?_⟩
  · rw [hl, List.length_map, hlen]
  · rw [hf, List.length_map, hlen]
  · rw [hs, List.length_map, hlen]

/-- One pass through the loop body, in full: a pass that leaves by `break` changes nothing but
the iteration counter; any other pass overwrites one medoid slot with the candidate of the
least swap cost over all clusters and candidates, and leaves the assignment of the new
medoids. -/
theorem iteration_best (size : Nat) (dist : distance_calculator) (st : state)
    (y : state × Option ℚ) (h : iteration size dist st = some y)
    (h1 : st.m_labels.length = size) (h2 : st.m_distance_first_medoid.length = size)
    (h3 : st.m_distance_second_medoid.length = size)
    (hmax : st.result.clusters.length ≤ SIZE_MAX) :
    (y.2 = none → y.1 = { st with result :=
        { st.result with iterations := st.result.iterations + 1 } }) ∧
    (∀ c, y.2 = some c → tracked size dist y.1 ∧
      ∃ index_cluster candidate cost, index_cluster < st.result.medoids.length ∧
        index_cluster < st.result.clusters.length ∧ swap_candidate size st candidate ∧
        calculate_swap_cost size dist st candidate index_cluster = some cost ∧
        (∀ index_cluster2 candidate2, index_cluster2 < st.result.clusters.length →
          swap_candidate size st candidate2 →
          ∀ v, calculate_swap_cost size dist st candidate2 index_cluster2 = some v →
            cost ≤ v) ∧
        y.1.result.medoids = st.result.medoids.set index_cluster candidate) := by
  have hspec := iteration_spec size dist st y h
  constructor
  · intro hn
    rcases hspec.2 with ⟨_, e⟩ | ⟨e, _⟩
    · exact e
    · rw [hn] at e
      cases e
  · intro c hc
    unfold iteration at h
    simp only [Option.bind_eq_bind, Option.pure_def] at h
    rcases Option.bind_eq_some.1 h with ⟨swapped, hswap, h4⟩
    by_cases hcost : swapped.1 = NOTHING_TO_SWAP
    · rw [if_neg (not_not.2 hcost)] at h4
      rw [← Option.some.inj h4] at hc
      cases hc
    · rw [if_pos hcost] at h4
      rcases Option.bind_eq_some.1 h4 with ⟨updated, hupd, h5⟩
      rcases swap_medoids_best size dist _ swapped hswap with ⟨b1, b2, b3, _⟩
      have hlt : swapped.1 < DBL_MAX := lt_of_le_of_ne b1 hcost
      rcases b3 hlt hmax with ⟨ic, cand, c1, c2, c3, c4, c5⟩
      rw [← Option.some.inj h5]
      constructor
      · refine update_clusters_tracked size dist swapped.2 updated hupd ?_ ?_ ?_
        · rw [c5]; exact h1
        · rw [c5]; exact h2
        · rw [c5]; exact h3
      · refine ⟨ic, cand, swapped.1, c2, c1, c3, c4, ?_, ?_⟩
        · intro ic2 cand2 hic2 hcand2 v hv
          exact b2 ic2 cand2 hic2 hcand2 v hv
        · show updated.2.result.medoids = _
          rw [(update_clusters_spec size dist swapped.2 updated hupd).2.1, c5]

theorem process_start_tracked (self : solver) (size : Nat) (dist : distance_calculator)
    (p_result : kmedoids_data) (st : state) (hit : 0 < self.m_itermax)
    (h : process_start self size dist p_result = some st) :
    tracked size dist st := by
  unfold process_start at h
  simp only [Option.bind_eq_bind, Option.pure_def] at h
  rw [if_pos hit] at h
  rcases Option.bind_eq_some.1 h with ⟨updated, hupd, h3⟩
  simp only [Option.some_bind, Option.some.injEq] at h3
  rw [← h3]
  exact update_clusters_tracked size dist _ updated hupd (List.length_replicate _ _)
    (List.length_replicate _ _) (List.length_replicate _ _)

theorem getLast?_cons_map {α β : Type} (f : α → β) (a b : β) (l : List α)
    (h : (a :: l.map f).getLast? = some b) :
    (l = [] ∧ b = a) ∨ ∃ y, l[l.length - 1]? = some y ∧ 0 < l.length ∧ f y = b := by
  cases l with
  | nil =>
    left
    simp only [List.map_nil, List.getLast?_singleton, Option.some.injEq] at h
    exact ⟨rfl, h.symm⟩
  | cons c rest =>
    right
    rw [List.map_cons, List.getLast?_cons_cons, ← List.map_cons, List.getLast?_eq_getElem?,
      List.getElem?_map, List.length_map] at h
    rcases Option.map_eq_some'.1 h with ⟨y, hy1, hy2⟩
    exact ⟨y, hy1, by simp, hy2⟩

theorem filter_none_le_one : ∀ (ps : List (state × Option ℚ)),
    (∀ (i : Nat) (y : state × Option ℚ), ps[i]? = some y → y.2 = none → i + 1 = ps.length) →
    (ps.filter (fun y => y.2.isNone)).length ≤ 1 := by
  intro ps
  induction ps with
  | nil => intro _; simp
  | cons a rest ih =>
    intro h
    by_cases ha : a.2 = none
    · have h0 := h 0 a (List.getElem?_cons_zero) ha
      simp only [List.length_cons] at h0
      have hrest : rest = [] := List.length_eq_zero.1 (by omega)
      rw [hrest]
      simp [ha]
    · have hf : (fun y : state × Option ℚ => y.2.isNone) a = false := by
        cases h2 : a.2 with
        | none => exact absurd h2 ha
        | some c => simp [h2]
      rw [List.filter_cons_of_neg (by simp [hf])]
      apply ih
      intro i y hi hy
      have := h (i + 1) y (by simpa using hi) hy
      simp only [List.length_cons] at this
      omega

theorem applied_swaps_add (ps : List (state × Option ℚ)) :
    ps.length = applied_swaps ps + (ps.filter (fun y => y.2.isNone)).length := by
  unfold applied_swaps
  induction ps with
  | nil => rfl
  | cons a rest ih =>
    cases h2 : a.2 with
    | none =>
      rw [List.filter_cons_of_neg (by simp [h2]), List.filter_cons_of_pos (by simp [h2])]
      simp only [List.length_cons]
      omega
    | some c =>
      rw [List.filter_cons_of_pos (by simp [h2]), List.filter_cons_of_neg (by simp [h2])]
      simp only [List.length_cons]
      omega

/-- The passes of a run that has returned: they exist, the run entered the loop with the
counter at zero, and the reported iteration count is the number of passes. -/
theorem recorded_passes_of_run (self : solver) (p_data : dataset) (p_type : data_t)
    (p_result r : kmedoids_data)
    (h : process self p_data p_type p_result = outcome.returned r) :
    ∃ dist entered passes,
      create_distance_calculator self.m_metric p_data p_type = Except.ok dist ∧
      recorded_passes self p_data p_type p_result = some (entered, passes) ∧
      process_start self p_data.length dist p_result = some entered ∧
      loop_passes p_data.length dist self.m_tolerance self.m_itermax self.m_itermax DBL_MAX
        entered = some passes ∧
      entered.result.iterations = 0 ∧
      r.iterations = passes.length := by
  rcases (process_returned_iff self p_data p_type p_result r).1 h with ⟨dist, hc, hrun⟩
  rcases process_run_eq_some self p_data.length dist p_result r hrun with
    ⟨entered, final, pruned, h1, h2, _, h4⟩
  rcases loop_passes_of_loop p_data.length dist self.m_tolerance self.m_itermax self.m_itermax
    DBL_MAX entered final h2 with ⟨ps, hps, hlast⟩
  have h0 := (process_start_medoids self p_data.length dist p_result entered h1).2
  refine ⟨dist, entered, ps, hc, ?_, h1, hps, h0, ?_⟩
  · unfold recorded_passes
    rw [hc]
    simp only [h1, hps, Option.bind_eq_bind, Option.some_bind, Option.pure_def]
  · have hri : r.iterations = final.result.iterations := by rw [h4]
    rw [hri]
    rcases getLast?_cons_map _ _ _ _ hlast with ⟨e1, e2⟩ | ⟨y, hy, hpos, e⟩
    · rw [e2, e1, h0]
      rfl
    · have := (loop_passes_spec p_data.length dist self.m_tolerance self.m_itermax
        self.m_itermax DBL_MAX entered ps hps).2.1 _ y hy
      rw [← e, this, h0]
      omega

/-- C11, as the code has it: the iteration counter counts the passes of the loop.  The
reported iteration count is the number of passes; every pass either applied a swap and re-ran
the assignment or left by `break` on the sentinel, only the last pass can be of the second
kind, so the count is the number of applied swaps, plus one when the run ended on the
sentinel.  A pass that left on the sentinel kept the medoids, any other pass overwrote one
medoid slot with a point that was not a medoid. -/
theorem iterations_count_passes (self : solver) (p_data : dataset) (p_type : data_t)
    (p_result : kmedoids_data) :
    ∀ r, process self p_data p_type p_result = outcome.returned r →
      ∃ entered passes,
        recorded_passes self p_data p_type p_result = some (entered, passes) ∧
        r.iterations = passes.length ∧
        passes.length = applied_swaps passes + (passes.filter (fun y => y.2.isNone)).length ∧
        (passes.filter (fun y => y.2.isNone)).length ≤ 1 ∧
        (∀ (i : Nat) (y : state × Option ℚ), passes[i]? = some y → y.2 = none →
          i + 1 = passes.length) ∧
        (self.m_initial_medoids.length ≤ SIZE_MAX →
          ∀ (i : Nat) (y : state × Option ℚ), passes[i]? = some y →
            ∃ previous, (entered :: passes.map (fun y => y.1))[i]? = some previous ∧
              (y.2 = none → y.1.result.medoids = previous.result.medoids) ∧
              (∀ c, y.2 = some c → ∃ index_cluster candidate,
                index_cluster < previous.result.medoids.length ∧
                candidate ∉ previous.result.medoids ∧
                y.1.result.medoids = previous.result.medoids.set index_cluster candidate)) := by
  intro r hr
  rcases recorded_passes_of_run self p_data p_type p_result r hr with
    ⟨dist, entered, ps, hc, hrec, hstart, hps, h0, hit⟩
  have hspec := loop_passes_spec p_data.length dist self.m_tolerance self.m_itermax
    self.m_itermax DBL_MAX entered ps hps
  refine ⟨entered, ps, hrec, hit, applied_swaps_add ps, filter_none_le_one ps hspec.2.2.2.1,
    hspec.2.2.2.1, ?_⟩
  intro hmax
  by_cases hpos : 0 < self.m_itermax
  · have htr := process_start_tracked self p_data.length dist p_result entered hpos hstart
    have hmed := (process_start_medoids self p_data.length dist p_result entered hstart).1
    rcases tracked_assigned _ _ _ htr with ⟨ha, hl1, hl2, hl3⟩
    refine loop_passes_chain p_data.length dist self.m_tolerance self.m_itermax
      (fun st => st.m_labels.length = p_data.length ∧
        st.m_distance_first_medoid.length = p_data.length ∧
        st.m_distance_second_medoid.length = p_data.length ∧
        st.result.clusters.length = self.m_initial_medoids.length ∧
        st.result.medoids.length = self.m_initial_medoids.length)
      (fun previous y => (y.2 = none → y.1.result.medoids = previous.result.medoids) ∧
        (∀ c, y.2 = some c → ∃ index_cluster candidate,
          index_cluster < previous.result.medoids.length ∧
          candidate ∉ previous.result.medoids ∧
          y.1.result.medoids = previous.result.medoids.set index_cluster candidate))
      ?_ self.m_itermax DBL_MAX entered ps
      ⟨hl1, hl2, hl3, by rw [assigned_length _ _ _ ha, hmed], by rw [hmed]⟩ hps
    intro st y hinv hy
    rcases hinv with ⟨i1, i2, i3, i4, i5⟩
    rcases iteration_best p_data.length dist st y hy i1 i2 i3 (by rw [i4]; exact hmax) with
      ⟨b1, b2⟩
    cases hy2 : y.2 with
    | none =>
      have e := b1 hy2
      refine ⟨?_, ?_, ?_⟩
      · rw [e]
        exact ⟨i1, i2, i3, i4, i5⟩
      · intro _
        rw [e]
      · intro c hc2
        rw [hy2] at hc2
        cases hc2
    | some c =>
      rcases b2 c hy2 with ⟨htr2, ic, cand, cost, c1, _, c3, _, _, c6⟩
      rcases tracked_assigned _ _ _ htr2 with ⟨ha2, m1, m2, m3⟩
      have hlen : y.1.result.medoids.length = self.m_initial_medoids.length := by
        rw [c6, List.length_set, i5]
      refine ⟨⟨m1, m2, m3, by rw [assigned_length _ _ _ ha2, hlen], hlen⟩, ?_, ?_⟩
      · intro hn
        rw [hy2] at hn
        cases hn
      · intro c2 _
        exact ⟨ic, cand, c1, c3.2.1, c6⟩
  · have hnil : ps = [] := by
      by_contra hne
      have := (hspec.1.1 hne).1
      omega
    rw [hnil]
    intro i y hi
    simp at hi

/-- C11 fails as stated: on three identical points with two initial medoids the Swap Evaluator
returns the sentinel in the first pass, so no swap is applied (the one pass leaves by `break`
with the medoids `0, 1` as they were), yet the run reports one iteration. -/
theorem iteration_counter_counterexample :
    process zero_solver zero_matrix data_t.DISTANCE_MATRIX kmedoids_data.empty
      = outcome.returned ⟨[[0, 1, 2]], [0], 0, 1⟩ ∧
    recorded_passes zero_solver zero_matrix data_t.DISTANCE_MATRIX kmedoids_data.empty
      = some (⟨⟨[[0, 1, 2], []], [0, 1], 0, 0⟩, [0, 0, 0], [0, 0, 0], [0, 0, 0]⟩,
          [(⟨⟨[[0, 1, 2], []], [0, 1], 0, 1⟩, [0, 0, 0], [0, 0, 0], [0, 0, 0]⟩, none)]) ∧
    swap_medoids 3 (calculate_distance_using_distance_matrix zero_matrix)
        ⟨⟨[[0, 1, 2], []], [0, 1], 0, 1⟩, [0, 0, 0], [0, 0, 0], [0, 0, 0]⟩
      = some (NOTHING_TO_SWAP,
          ⟨⟨[[0, 1, 2], []], [0, 1], 0, 1⟩, [0, 0, 0], [0, 0, 0], [0, 0, 0]⟩) ∧
    applied_swaps
      [((⟨⟨[[0, 1, 2], []], [0, 1], 0, 1⟩, [0, 0, 0], [0, 0, 0], [0, 0, 0]⟩ : state),
        (none : Option ℚ))] = 0 := by
  refine ⟨by decide!, by decide!, by decide!, by decide!⟩

/-- C12, as the code has it: for a run with `m_itermax > 0` and a tolerance below the largest
finite `double`, the reported iteration count is at least 1 and at most `m_itermax` (so it is 1
when `m_itermax = 1`); and on finite distances and valid initial medoids the run returns: the
loop ends within `m_itermax` passes. -/
theorem iteration_budget (self : solver) (p_data : dataset) (p_type : data_t)
    (p_result : kmedoids_data) (hit : 0 < self.m_itermax) (htol : self.m_tolerance < DBL_MAX) :
    (∀ r, process self p_data p_type p_result = outcome.returned r →
      1 ≤ r.iterations ∧ r.iterations ≤ self.m_itermax ∧
      (self.m_itermax = 1 → r.iterations = 1)) ∧
    (∀ dist, create_distance_calculator self.m_metric p_data p_type = Except.ok dist →
      finite_distances p_data.length dist →
      valid_medoids p_data.length self.m_initial_medoids →
      ∃ r, process self p_data p_type p_result = outcome.returned r) := by
  constructor
  · intro r hr
    rcases recorded_passes_of_run self p_data p_type p_result r hr with
      ⟨dist, entered, ps, hc, hrec, hstart, hps, h0, hlen⟩
    rcases loop_passes_spec p_data.length dist self.m_tolerance self.m_itermax
      self.m_itermax DBL_MAX entered ps hps with ⟨s1, _, s3, _, _⟩
    have hne : ps ≠ [] := s1.2 ⟨by rw [h0]; exact hit, htol⟩
    have hpos := List.length_pos.2 hne
    have hle := s3 hne
    rw [h0] at hle
    rw [hlen]
    exact ⟨hpos, by omega, fun h1 => by omega⟩
  · intro dist hc hd hv
    rcases process_run_total self p_data.length dist p_result hit hd hv with ⟨r, hr⟩
    exact ⟨r, (process_returned_iff self p_data p_type p_result r).2 ⟨dist, hc, hr⟩⟩

/-- C12 fails as stated: with the largest finite `double` as tolerance and an iteration budget
of 100, the initial value of `changes` does not exceed the tolerance, the loop body never runs,
and the run reports zero iterations. -/
theorem iteration_budget_counterexample :
    0 < saturated_solver.m_itermax ∧
    process saturated_solver line_matrix data_t.DISTANCE_MATRIX kmedoids_data.empty
      = outcome.returned ⟨[[0, 1, 2]], [0], 3, 0⟩ := by
  refine ⟨by decide, by decide!⟩

/-- C13: in a run of `process`, a pass that applied a swap sets `changes` to the total
deviation before the pass minus the total deviation after it, and it is followed by another
pass if and only if that improvement exceeds the tolerance and the iteration counter is below
`m_itermax`; hence every applied swap that is followed by another pass reduced the total
deviation by more than the tolerance. -/
theorem tolerance_stop (self : solver) (p_data : dataset) (p_type : data_t)
    (p_result : kmedoids_data) :
    ∀ entered passes,
      recorded_passes self p_data p_type p_result = some (entered, passes) →
      ∀ (i : Nat) (y : state × Option ℚ) (c : ℚ), passes[i]? = some y → y.2 = some c →
        ∃ previous, (entered :: passes.map (fun y => y.1))[i]? = some previous ∧
          c = previous.result.total_deviation - y.1.result.total_deviation ∧
          (i + 1 < passes.length ↔
            (c > self.m_tolerance ∧ y.1.result.iterations < self.m_itermax)) ∧
          (i + 1 < passes.length →
            previous.result.total_deviation - y.1.result.total_deviation
              > self.m_tolerance) := by
  intro entered ps hrec i y c hi hyc
  unfold recorded_passes at hrec
  cases hcalc : create_distance_calculator self.m_metric p_data p_type with
  | error code =>
    rw [hcalc] at hrec
    cases hrec
  | ok dist =>
    rw [hcalc] at hrec
    simp only [Option.bind_eq_bind, Option.pure_def] at hrec
    rcases Option.bind_eq_some.1 hrec with ⟨e2, hstart, h2⟩
    rcases Option.bind_eq_some.1 h2 with ⟨ps2, hps, h3⟩
    have hpair : (e2, ps2) = (entered, ps) := Option.some.inj h3
    have he : e2 = entered := (Prod.mk.inj hpair).1
    have hp : ps2 = ps := (Prod.mk.inj hpair).2
    rw [he, hp] at hps
    have hspec := loop_passes_spec p_data.length dist self.m_tolerance self.m_itermax
      self.m_itermax DBL_MAX entered ps hps
    rcases loop_passes_chain p_data.length dist self.m_tolerance self.m_itermax
      (fun _ => True)
      (fun previous y => ∀ c, y.2 = some c →
        c = previous.result.total_deviation - y.1.result.total_deviation)
      (fun st y _ hy => ⟨trivial, fun c hc => by
        rcases (iteration_spec p_data.length dist st y hy).2 with ⟨e, _⟩ | ⟨e, _⟩
        · rw [hc] at e
          cases e
        · rw [hc] at e
          exact Option.some.inj e⟩)
      self.m_itermax DBL_MAX entered ps trivial hps i y hi with ⟨previous, hp1, hp2⟩
    have hiff := hspec.2.2.2.2 i y c hi hyc
    have hc := hp2 c hyc
    refine ⟨previous, hp1, hc, ?_, ?_⟩
    · rw [hiff]
      exact And.comm
    · intro hlt
      rw [← hc]
      exact (hiff.1 hlt).2

theorem line_run :
    process line_solver line_matrix data_t.DISTANCE_MATRIX kmedoids_data.empty
      = outcome.returned ⟨[[0, 1, 2]], [0], 3, 2⟩ := by
  decide!

theorem zero_run :
    process zero_solver zero_matrix data_t.DISTANCE_MATRIX kmedoids_data.empty
      = outcome.returned ⟨[[0, 1, 2]], [0], 0, 1⟩ := by
  decide!

theorem line_passes :
    recorded_passes line_solver line_matrix data_t.DISTANCE_MATRIX kmedoids_data.empty
      = some (⟨⟨[[0, 1, 2]], [0], 3, 0⟩, [0, 0, 0], [0, 1, 2], [DBL_MAX, DBL_MAX, DBL_MAX]⟩,
          [(⟨⟨[[0, 1, 2]], [1], 2, 1⟩, [0, 0, 0], [1, 0, 1], [DBL_MAX, DBL_MAX, DBL_MAX]⟩,
              some 1),
            (⟨⟨[[0, 1, 2]], [0], 3, 2⟩, [0, 0, 0], [0, 1, 2], [DBL_MAX, DBL_MAX, DBL_MAX]⟩,
              some (-1))]) := by
  decide!

theorem sample_positive (i : Nat) (hi : i < sample_matrix.length) (j : Nat)
    (hj : j < sample_matrix.length) (hij : i ≠ j) (d : ℚ)
    (h : calculate_distance_using_distance_matrix sample_matrix i j = some d) : 0 < d := by
  have hi3 : i < 3 := hi
  have hj3 : j < 3 := hj
  interval_cases i <;> interval_cases j <;>
    first
    | exact absurd rfl hij
    | (simp [calculate_distance_using_distance_matrix, sample_matrix] at h
       rw [← h]
       norm_num)

theorem sample_self (i : Nat) (hi : i < sample_matrix.length) :
    calculate_distance_using_distance_matrix sample_matrix i i = some 0 := by
  have hi3 : i < 3 := hi
  interval_cases i <;> rfl

theorem iterations_count_passes_witness :
    ∃ entered passes,
      recorded_passes zero_solver zero_matrix data_t.DISTANCE_MATRIX kmedoids_data.empty
        = some (entered, passes) ∧
      1 = passes.length ∧
      passes.length = applied_swaps passes + (passes.filter (fun y => y.2.isNone)).length := by
  rcases iterations_count_passes zero_solver zero_matrix data_t.DISTANCE_MATRIX
    kmedoids_data.empty _ zero_run with ⟨entered, passes, h1, h2, h3, _⟩
  exact ⟨entered, passes, h1, h2, h3⟩

theorem iteration_budget_witness :
    1 ≤ 2 ∧ 2 ≤ line_solver.m_itermax ∧ (line_solver.m_itermax = 1 → 2 = 1) := by
  exact (iteration_budget line_solver line_matrix data_t.DISTANCE_MATRIX kmedoids_data.empty
    (by decide) (by unfold DBL_MAX line_solver DEFAULT_TOLERANCE; norm_num)).1 _ line_run

theorem tolerance_stop_witness :
    ∃ previous : state,
      some (⟨⟨[[0, 1, 2]], [0], 3, 0⟩, [0, 0, 0], [0, 1, 2], [DBL_MAX, DBL_MAX, DBL_MAX]⟩
        : state) = some previous ∧
      (1 : ℚ) = previous.result.total_deviation - 2 ∧
      (0 + 1 < 2 ↔ ((1 : ℚ) > line_solver.m_tolerance ∧ 1 < line_solver.m_itermax)) ∧
      (0 + 1 < 2 → previous.result.total_deviation - 2 > line_solver.m_tolerance) := by
  exact tolerance_stop line_solver line_matrix data_t.DISTANCE_MATRIX kmedoids_data.empty
    _ _ line_passes 0 _ 1 rfl rfl

theorem single_medoid_witness :
    ([0] : medoid_sequence).length = 1 ∧
    ([[0, 1, 2]] : cluster_sequence) = [List.range line_matrix.length] := by
  exact (single_medoid line_solver line_matrix data_t.DISTANCE_MATRIX kmedoids_data.empty 0
    (by decide) rfl (by decide)).1 _ line_run

theorem medoid_set_never_grows_witness :
    ∃ u, process_unpruned zero_solver zero_matrix.length
        (calculate_distance_using_distance_matrix zero_matrix) kmedoids_data.empty = some u ∧
      u.medoids.length = 2 ∧ u.clusters.length = 2 ∧
      1 + (u.clusters.filter (fun c => c.isEmpty)).length = 2 := by
  exact (medoid_set_never_grows zero_solver zero_matrix data_t.DISTANCE_MATRIX
    kmedoids_data.empty).2 (by decide) (by decide) _ _ rfl zero_run

theorem no_pruning_for_distinct_points_witness :
    ([1, 2] : medoid_sequence).length = 2 ∧ ([[0, 1], [2]] : cluster_sequence).length = 2 ∧
    ∀ (j m : Nat), ([1, 2] : medoid_sequence)[j]? = some m →
      ∃ c, ([[0, 1], [2]] : cluster_sequence)[j]? = some c ∧ m ∈ c := by
  exact no_pruning_for_distinct_points sample_solver sample_matrix data_t.DISTANCE_MATRIX
    kmedoids_data.empty _ (by decide) sample_calculator sample_self sample_positive
    (by decide) (by decide) _ sample_run

/-- With a tolerance that is not below the sentinel the loop of `process` is not entered. -/
theorem process_loop_saturated (size : Nat) (dist : distance_calculator) (tol : ℚ)
    (itermax fuel : Nat) (st : state) (htol : DBL_MAX ≤ tol) :
    process_loop size dist tol itermax fuel DBL_MAX st = some st := by
  have hc : ¬ (st.result.iterations < itermax ∧ DBL_MAX > tol) :=
    fun h => absurd h.2 (not_lt.2 htol)
  cases fuel with
  | zero => rw [process_loop, if_neg hc]
  | succ f => rw [process_loop, if_neg hc]

/-- The best candidate of one cluster is the first one of the least cost: every candidate
before it costs strictly more. -/
theorem chunk_fold_first (size : Nat) (dist : distance_calculator) (st : state)
    (index_cluster : Nat) (chunk : optimal_chunk)
    (h : (List.range size).foldlM (chunk_step size dist st index_cluster)
      { cost := DBL_MAX, index_medoid := INVALID_INDEX } = some chunk) :
    chunk.cost < DBL_MAX →
      ∀ x, x < chunk.index_medoid → swap_candidate size st x →
        ∀ v, calculate_swap_cost size dist st x index_cluster = some v → chunk.cost < v := by
  have hinv := foldlM_range_invariant (chunk_step size dist st index_cluster)
    (fun m c =>
      (∀ x, x < m → swap_candidate size st x →
        ∀ v, calculate_swap_cost size dist st x index_cluster = some v → c.cost ≤ v) ∧
      (c.cost < DBL_MAX → c.index_medoid < m ∧
        ∀ x, x < c.index_medoid → swap_candidate size st x →
          ∀ v, calculate_swap_cost size dist st x index_cluster = some v → c.cost < v))
    size _ chunk ?_ ?_ h
  · intro hlt
    exact (hinv.2 hlt).2
  · exact ⟨fun x hx => absurd hx (Nat.not_lt_zero x), fun hlt => absurd hlt (lt_irrefl _)⟩
  · intro m acc acc2 hm hacc hstep
    rcases chunk_step_le size dist st index_cluster acc m acc2 hstep with ⟨hle, hmin⟩
    constructor
    · intro x hx hcand v hv
      by_cases hxm : x = m
      · rw [hxm] at hcand hv
        exact hmin hcand.2.1 hcand.2.2 v hv
      · exact le_trans hle (hacc.1 x (by omega) hcand v hv)
    · intro hlt
      rcases chunk_step_cases size dist st index_cluster acc m acc2 hstep with
        e | ⟨_, h2, h3, _⟩
      · rw [e] at hlt ⊢
        have := hacc.2 hlt
        exact ⟨by omega, this.2⟩
      · rw [h2]
        refine ⟨Nat.lt_succ_self m, ?_⟩
        intro x hx hcand v hv
        exact lt_of_lt_of_le h3 (hacc.1 x hx hcand v hv)

/-- The swap selected over all clusters belongs to the first cluster whose chunk has the least
cost: every chunk before it costs strictly more. -/
theorem select_fold_first (cluster_chunks : List optimal_chunk) (best : optimal_swap)
    (h : (List.range cluster_chunks.length).foldlM (select_step cluster_chunks)
      { optimal_swap_cost := DBL_MAX, optimal_index_cluster := INVALID_INDEX,
        optimal_index_medoid := INVALID_INDEX } = some best) :
    best.optimal_swap_cost < DBL_MAX →
      ∀ i, i < best.optimal_index_cluster → ∀ chunk, cluster_chunks[i]? = some chunk →
        best.optimal_swap_cost < chunk.cost := by
  have hinv := foldlM_range_invariant (select_step cluster_chunks)
    (fun m b =>
      (∀ i, i < m → ∀ chunk, cluster_chunks[i]? = some chunk →
        b.optimal_swap_cost ≤ chunk.cost) ∧
      (b.optimal_swap_cost < DBL_MAX → b.optimal_index_cluster < m ∧
        ∀ i, i < b.optimal_index_cluster → ∀ chunk, cluster_chunks[i]? = some chunk →
          b.optimal_swap_cost < chunk.cost))
    cluster_chunks.length _ best ?_ ?_ h
  · intro hlt
    exact (hinv.2 hlt).2
  · exact ⟨fun i hi => absurd hi (Nat.not_lt_zero i), fun hlt => absurd hlt (lt_irrefl _)⟩
  · intro m acc acc2 hm hacc hstep
    rcases select_step_le cluster_chunks acc m acc2 hstep with ⟨hle, hmin⟩
    constructor
    · intro i hi chunk hchunk
      by_cases him : i = m
      · rw [him] at hchunk
        exact hmin chunk hchunk
      · exact le_trans hle (hacc.1 i (by omega) chunk hchunk)
    · intro hlt
      rcases select_step_cases cluster_chunks acc m acc2 hstep with e | ⟨chunk, _, h2, e⟩
      · rw [e] at hlt ⊢
        have := hacc.2 hlt
        exact ⟨by omega, this.2⟩
      · rw [e]
        refine ⟨Nat.lt_succ_self m, ?_⟩
        intro i hi chunk2 hchunk2
        exact lt_of_lt_of_le h2 (hacc.1 i hi chunk2 hchunk2)

/-- The swap that `swap_medoids` applies, with its tie-break: the pair written into the medoid
sequence has the returned cost, every pair of an earlier cluster costs strictly more, and so
does every earlier candidate for the same cluster. -/
theorem swap_medoids_first (size : Nat) (dist : distance_calculator) (st : state)
    (x : ℚ × state) (h : swap_medoids size dist st = some x) (hlt : x.1 < DBL_MAX)
    (hmax : st.result.clusters.length ≤ SIZE_MAX) :
    ∃ index_cluster candidate, index_cluster < st.result.clusters.length ∧
      index_cluster < st.result.medoids.length ∧ swap_candidate size st candidate ∧
      calculate_swap_cost size dist st candidate index_cluster = some x.1 ∧
      x.2 = { st with result :=
        { st.result with medoids := st.result.medoids.set index_cluster candidate } } ∧
      (∀ index_cluster2 candidate2, index_cluster2 < index_cluster →
        swap_candidate size st candidate2 →
        ∀ v, calculate_swap_cost size dist st candidate2 index_cluster2 = some v →
          x.1 < v) ∧
      (∀ candidate2, candidate2 < candidate → swap_candidate size st candidate2 →
        ∀ v, calculate_swap_cost size dist st candidate2 index_cluster = some v →
          x.1 < v) := by
  unfold swap_medoids at h
  simp only [Option.bind_eq_bind, Option.pure_def] at h
  rcases Option.bind_eq_some.1 h with ⟨chunks, hchunks, h2⟩
  rcases Option.bind_eq_some.1 h2 with ⟨best, hbest, h3⟩
  have hlen : chunks.length = st.result.clusters.length := by
    rw [parallel_collect_length hchunks, List.length_range]
  rcases select_fold_best chunks best hbest with ⟨_, _, s3, _⟩
  have hfirst := select_fold_first chunks best hbest
  have hcost : x.1 = best.optimal_swap_cost := by
    by_cases hidx : best.optimal_index_cluster = INVALID_INDEX
    · rw [if_neg (not_not.2 hidx)] at h3
      rw [← Option.some.inj h3]
    · rw [if_pos hidx] at h3
      rcases Option.bind_eq_some.1 h3 with ⟨medoids, _, h4⟩
      rw [← Option.some.inj h4]
  rw [hcost] at hlt
  rcases s3 hlt with ⟨t1, t2⟩
  have hidx : best.optimal_index_cluster ≠ INVALID_INDEX := by
    have : INVALID_INDEX = SIZE_MAX := rfl
    omega
  rw [if_pos hidx] at h3
  rcases Option.bind_eq_some.1 h3 with ⟨medoids, hw, h4⟩
  rcases (write_at_eq_some _ _ _ _).1 hw with ⟨hin, rfl⟩
  rcases parallel_collect_range_getElem? hchunks best.optimal_index_cluster (by omega)
    with ⟨chunk, hc1, hc2⟩
  rw [t2] at hc1
  rw [← Option.some.inj hc1] at hc2
  rcases (chunk_fold_best size dist st best.optimal_index_cluster _ hc2).2.2 hlt with
    ⟨u1, u2⟩
  have hcf := chunk_fold_first size dist st best.optimal_index_cluster _ hc2 hlt
  refine ⟨best.optimal_index_cluster, best.optimal_index_medoid, by omega, hin, u1, ?_, ?_,
    ?_, ?_⟩
  · rw [hcost]
    exact u2
  · rw [← Option.some.inj h4]
  · intro ic2 cand2 hic2 hcand2 v hv
    rcases parallel_collect_range_getElem? hchunks ic2 (by omega) with ⟨chunk2, hd1, hd2⟩
    have hb := (chunk_fold_best size dist st ic2 chunk2 hd2).2.1 cand2 hcand2 v hv
    rw [hcost]
    exact lt_of_lt_of_le (hfirst hlt ic2 hic2 chunk2 hd1) hb
  · intro cand2 hc2lt hcand2 v hv
    rw [hcost]
    exact hcf cand2 hc2lt hcand2 v hv

/-- C24: `swap_medoids` leaves the clusters, the labels, both distance vectors, the total
deviation, the iteration counter and the length of the medoid sequence as they were, and
there is a slot such that every other slot of the medoid sequence is as it was. -/
theorem swap_evaluator_frame (size : Nat) (dist : distance_calculator) (st : state)
    (x : ℚ × state) (h : swap_medoids size dist st = some x) :
    x.2.result.clusters = st.result.clusters ∧ x.2.m_labels = st.m_labels ∧
    x.2.m_distance_first_medoid = st.m_distance_first_medoid ∧
    x.2.m_distance_second_medoid = st.m_distance_second_medoid ∧
    x.2.result.total_deviation = st.result.total_deviation ∧
    x.2.result.iterations = st.result.iterations ∧
    x.2.result.medoids.length = st.result.medoids.length ∧
    ∃ index_cluster : Nat, ∀ j : Nat, j ≠ index_cluster →
      x.2.result.medoids[j]? = st.result.medoids[j]? := by
  rcases (swap_medoids_spec size dist st x h).1 with e | ⟨_, ic, im, _, _, _, _, e⟩
  · rw [e]
    exact ⟨rfl, rfl, rfl, rfl, rfl, rfl, rfl, 0, fun _ _ => rfl⟩
  · rw [e]
    refine ⟨rfl, rfl, rfl, rfl, rfl, rfl, List.length_set _ _ _, ic, ?_⟩
    intro j hj
    exact List.getElem?_set_ne (fun e2 => hj e2.symm)

/-- C22, as the code has it: `swap_medoids` returns the sentinel if and only if no pair of a
cluster and a candidate (a non-medoid point with a first distance other than zero) has a swap
cost below the sentinel; so it returns it when no point is a candidate or there are no
clusters, and only then when every swap cost is below the sentinel.  On the sentinel the state
is left as it was; otherwise one slot of the medoid sequence is overwritten with a point that
was no medoid and whose first distance is not zero, hence positive when it is not negative. -/
theorem no_swap_sentinel (size : Nat) (dist : distance_calculator) (st : state)
    (x : ℚ × state) (h : swap_medoids size dist st = some x)
    (hmax : st.result.clusters.length ≤ SIZE_MAX) :
    (x.1 = NOTHING_TO_SWAP ↔
      ∀ index_cluster candidate, index_cluster < st.result.clusters.length →
        swap_candidate size st candidate →
        ∀ v, calculate_swap_cost size dist st candidate index_cluster = some v →
          DBL_MAX ≤ v) ∧
    (((∀ candidate, ¬ swap_candidate size st candidate) ∨ st.result.clusters = []) →
      x.1 = NOTHING_TO_SWAP) ∧
    ((∀ index_cluster candidate, index_cluster < st.result.clusters.length →
        swap_candidate size st candidate →
        ∃ v, calculate_swap_cost size dist st candidate index_cluster = some v ∧
          v < DBL_MAX) →
      (x.1 = NOTHING_TO_SWAP ↔
        ((∀ candidate, ¬ swap_candidate size st candidate) ∨ st.result.clusters = []))) ∧
    (x.1 = NOTHING_TO_SWAP → x.2 = st) ∧
    (x.1 ≠ NOTHING_TO_SWAP →
      ∃ index_cluster candidate first, index_cluster < st.result.medoids.length ∧
        candidate ∉ st.result.medoids ∧
        st.m_distance_first_medoid[candidate]? = some first ∧ first ≠ 0 ∧
        (0 ≤ first → 0 < first) ∧
        x.2 = { st with result :=
          { st.result with medoids := st.result.medoids.set index_cluster candidate } }) := by
  rcases swap_medoids_best size dist st x h with ⟨b1, b2, b3, b4⟩
  have hiff : x.1 = NOTHING_TO_SWAP ↔
      ∀ index_cluster candidate, index_cluster < st.result.clusters.length →
        swap_candidate size st candidate →
        ∀ v, calculate_swap_cost size dist st candidate index_cluster = some v →
          DBL_MAX ≤ v := by
    constructor
    · intro hx ic cand hic hcand v hv
      have hle := b2 ic cand hic hcand v hv
      have hx2 : x.1 = DBL_MAX := hx
      rw [hx2] at hle
      exact hle
    · intro hall
      by_contra hne
      have hlt : x.1 < DBL_MAX := lt_of_le_of_ne b1 hne
      rcases b3 hlt hmax with ⟨ic, cand, c1, _, c3, c4, _⟩
      exact absurd hlt (not_lt.2 (hall ic cand c1 c3 x.1 c4))
  have hnone : ((∀ candidate, ¬ swap_candidate size st candidate) ∨
      st.result.clusters = []) → x.1 = NOTHING_TO_SWAP := by
    intro hno
    rw [hiff]
    intro ic cand hic hcand
    rcases hno with hno | hno
    · exact absurd hcand (hno cand)
    · rw [hno] at hic
      exact absurd hic (Nat.not_lt_zero ic)
  refine ⟨hiff, hnone, ?_, b4, ?_⟩
  · intro hcost
    refine ⟨?_, hnone⟩
    intro hx
    by_contra hno
    rw [not_or] at hno
    rcases hno with ⟨hex, hcl⟩
    rw [not_forall] at hex
    rcases hex with ⟨cand, hcand⟩
    have hcand2 : swap_candidate size st cand := not_not.1 hcand
    have hpos : 0 < st.result.clusters.length := List.length_pos.2 hcl
    rcases hcost 0 cand hpos hcand2 with ⟨v, hv1, hv2⟩
    have := (hiff.1 hx) 0 cand hpos hcand2 v hv1
    exact absurd hv2 (not_lt.2 this)
  · intro hne
    have hlt : x.1 < DBL_MAX := lt_of_le_of_ne b1 hne
    rcases b3 hlt hmax with ⟨ic, cand, _, c2, c3, _, c5⟩
    rcases c3 with ⟨_, d2, first, d3, d4⟩
    exact ⟨ic, cand, first, c2, d2, d3, d4,
      fun h0 => lt_of_le_of_ne h0 (fun e => d4 e.symm), c5⟩

/-- C21, as the code has it: when some pair of a cluster and a candidate has a swap cost below
the sentinel, `swap_medoids` returns the least swap cost over all such pairs and writes the
pair that attains it into the medoid sequence; every pair of an earlier cluster, and every
earlier candidate for the same cluster, costs strictly more. -/
theorem best_swap_selection (size : Nat) (dist : distance_calculator) (st : state)
    (x : ℚ × state) (h : swap_medoids size dist st = some x)
    (hmax : st.result.clusters.length ≤ SIZE_MAX)
    (index_cluster0 candidate0 : Nat) (v0 : ℚ)
    (hc0 : index_cluster0 < st.result.clusters.length)
    (hcand0 : swap_candidate size st candidate0)
    (hv0 : calculate_swap_cost size dist st candidate0 index_cluster0 = some v0)
    (hlt0 : v0 < DBL_MAX) :
    (∀ index_cluster candidate, index_cluster < st.result.clusters.length →
      swap_candidate size st candidate →
      ∀ v, calculate_swap_cost size dist st candidate index_cluster = some v → x.1 ≤ v) ∧
    ∃ index_cluster candidate, index_cluster < st.result.clusters.length ∧
      swap_candidate size st candidate ∧
      calculate_swap_cost size dist st candidate index_cluster = some x.1 ∧
      x.2 = { st with result :=
        { st.result with medoids := st.result.medoids.set index_cluster candidate } } ∧
      (∀ index_cluster2 candidate2, index_cluster2 < index_cluster →
        swap_candidate size st candidate2 →
        ∀ v, calculate_swap_cost size dist st candidate2 index_cluster2 = some v →
          x.1 < v) ∧
      (∀ candidate2, candidate2 < candidate → swap_candidate size st candidate2 →
        ∀ v, calculate_swap_cost size dist st candidate2 index_cluster = some v →
          x.1 < v) := by
  rcases swap_medoids_best size dist st x h with ⟨_, b2, _, _⟩
  have hlt : x.1 < DBL_MAX := lt_of_le_of_lt (b2 index_cluster0 candidate0 hc0 hcand0 v0 hv0) hlt0
  rcases swap_medoids_first size dist st x h hlt hmax with ⟨ic, cand, c1, _, c3, c4, c5, c6, c7⟩
  exact ⟨b2, ic, cand, c1, c3, c4, c5, c6, c7⟩

/-- C22 fails as stated: in the run on `huge_matrix` from the medoid `0`, the points 1, 2 and
3 are no medoids and have the first distance 1, and there is one cluster, yet every swap cost
is `2 ^ 1024 - 2`, which is not below the sentinel: `swap_medoids` returns the sentinel and
the run stops after one pass with the medoid `0`. -/
theorem sentinel_counterexample :
    recorded_passes huge_solver huge_matrix data_t.DISTANCE_MATRIX kmedoids_data.empty
      = some ({ huge_state with result := { huge_state.result with iterations := 0 } },
          [(huge_state, none)]) ∧
    swap_medoids 4 (calculate_distance_using_distance_matrix huge_matrix) huge_state
      = some (NOTHING_TO_SWAP, huge_state) ∧
    1 ∉ huge_state.result.medoids ∧ huge_state.m_distance_first_medoid[1]? = some 1 ∧
    (0 : ℚ) < 1 ∧ huge_state.result.clusters ≠ [] ∧
    (∀ d ∈ huge_matrix.flatten, 0 ≤ d ∧ d < DBL_MAX) := by
  refine ⟨by decide!, by decide!, by decide, by decide!, by norm_num, by decide, by decide!⟩

/-- C21 fails as stated: in the state `huge_state` the points 1, 2 and 3 are candidates, and
the swap cost of each of them for the only cluster is `2 ^ 1024 - 2`; `swap_medoids` does not
return that minimum but the sentinel, which is smaller, and writes nothing. -/
theorem best_swap_counterexample :
    (∀ candidate ∈ [1, 2, 3],
      candidate ∉ huge_state.result.medoids ∧
      huge_state.m_distance_first_medoid[candidate]? = some 1 ∧
      calculate_swap_cost 4 (calculate_distance_using_distance_matrix huge_matrix) huge_state
        candidate 0 = some (2 * huge_distance - 2)) ∧
    swap_medoids 4 (calculate_distance_using_distance_matrix huge_matrix) huge_state
      = some (DBL_MAX, huge_state) ∧
    DBL_MAX < 2 * huge_distance - 2 := by
  refine ⟨by decide!, by decide!, by decide!⟩

theorem sample_swap :
    swap_medoids 3 (calculate_distance_using_distance_matrix sample_matrix) sample_state
      = some (0, { sample_state with result :=
          { sample_state.result with medoids := [1, 2] } }) := by
  decide!

theorem sample_candidate : swap_candidate 3 sample_state 1 := by
  refine ⟨by decide, by decide, 1, by decide!, by norm_num⟩

theorem swap_evaluator_frame_witness :
    ([1, 2] : medoid_sequence).length = ([0, 2] : medoid_sequence).length ∧
    ∃ index_cluster : Nat, ∀ j : Nat, j ≠ index_cluster →
      ([1, 2] : medoid_sequence)[j]? = ([0, 2] : medoid_sequence)[j]? := by
  have h := swap_evaluator_frame 3 (calculate_distance_using_distance_matrix sample_matrix)
    sample_state _ sample_swap
  exact ⟨h.2.2.2.2.2.2.1, h.2.2.2.2.2.2.2⟩

theorem no_swap_sentinel_witness :
    ∃ index_cluster candidate first, index_cluster < ([0, 2] : medoid_sequence).length ∧
      candidate ∉ ([0, 2] : medoid_sequence) ∧
      ([0, 1, 0] : List ℚ)[candidate]? = some first ∧ first ≠ 0 ∧
      (0 ≤ first → 0 < first) ∧
      ({ sample_state with result := { sample_state.result with medoids := [1, 2] } } : state)
        = { sample_state with result :=
          { sample_state.result with medoids :=
            ([0, 2] : medoid_sequence).set index_cluster candidate } } := by
  exact (no_swap_sentinel 3 (calculate_distance_using_distance_matrix sample_matrix)
    sample_state _ sample_swap (by decide)).2.2.2.2 (by decide!)

theorem best_swap_selection_witness :
    ∃ index_cluster candidate, index_cluster < 2 ∧
      swap_candidate 3 sample_state candidate ∧
      calculate_swap_cost 3 (calculate_distance_using_distance_matrix sample_matrix)
        sample_state candidate index_cluster = some 0 := by
  rcases (best_swap_selection 3 (calculate_distance_using_distance_matrix sample_matrix)
    sample_state _ sample_swap (by decide) 0 1 0 (by decide) sample_candidate (by decide!)
    DBL_MAX_pos).2 with ⟨ic, cand, h1, h2, h3, _⟩
  exact ⟨ic, cand, h1, h2, h3⟩

theorem process_run_itermax_zero_fresh (self : solver) (h0 : self.m_itermax = 0)
    (size : Nat) (dist : distance_calculator) (p_result : kmedoids_data)
    (hcl : p_result.clusters = []) :
    process_run self size dist p_result = some ⟨[], self.m_initial_medoids, 0, 0⟩ := by
  unfold process_run
  rw [process_start_itermax_zero self h0, h0]
  simp only [Option.bind_eq_bind]
  rw [Option.some_bind, process_loop_itermax_zero, Option.some_bind]
  simp only [hcl]
  rw [erase_empty_clusters_nil, Option.some_bind]
  rfl

theorem find_appropriate_cluster_nil (dist : distance_calculator) (p : Nat) :
    find_appropriate_cluster dist p [] = some no_cluster := by
  rw [find_appropriate_cluster_eq]
  rfl

theorem update_clusters_nil (size : Nat) (dist : distance_calculator) (st : state)
    (hmed : st.result.medoids = []) (hpos : 0 < size) :
    update_clusters size dist st = none := by
  cases h : update_clusters size dist st with
  | none => rfl
  | some x =>
    exfalso
    rcases (update_clusters_eq_some size dist st x).1 h with ⟨markers, _, hr, _⟩
    rcases hr 0 hpos with ⟨mk, _, hlt, _⟩
    rw [hmed] at hlt
    exact absurd hlt (Nat.not_lt_zero _)

theorem process_run_nil (self : solver) (size : Nat) (dist : distance_calculator)
    (p_result : kmedoids_data) (hmed : self.m_initial_medoids = []) (hpos : 0 < size)
    (hit : 0 < self.m_itermax) : process_run self size dist p_result = none := by
  cases h : process_run self size dist p_result with
  | none => rfl
  | some r =>
    exfalso
    rcases process_run_eq_some self size dist p_result r h with ⟨entered, _, _, h1, _⟩
    unfold process_start at h1
    simp only [Option.bind_eq_bind, Option.pure_def] at h1
    rw [if_pos hit] at h1
    rcases Option.bind_eq_some.1 h1 with ⟨updated, hupd, _⟩
    rw [update_clusters_nil size dist _ hmed hpos] at hupd
    cases hupd

/-- C27: when the initial medoid sequence is not empty and holds points of the dataset only,
and every distance is defined and below the sentinel, then `process` on a result object
created empty returns, whatever `m_itermax` is (no access is out of range); so it does on
every result object when `m_itermax > 0` or the object holds no clusters; and for every
non-empty sequence of points of the dataset `find_appropriate_cluster` returns a slot of the
sequence, never `INVALID_INDEX`.  With an empty medoid sequence and at least one point,
`find_appropriate_cluster` returns `INVALID_INDEX` and a run with `m_itermax > 0` ends in an
access out of range. -/
theorem index_safety (self : solver) (p_data : dataset) (p_type : data_t)
    (dist : distance_calculator)
    (hc : create_distance_calculator self.m_metric p_data p_type = Except.ok dist) :
    (self.m_initial_medoids ≠ [] →
      (∀ m ∈ self.m_initial_medoids, m < p_data.length) →
      self.m_initial_medoids.length ≤ SIZE_MAX → finite_distances p_data.length dist →
      (∃ r, process self p_data p_type kmedoids_data.empty = outcome.returned r) ∧
      (∀ p_result : kmedoids_data, 0 < self.m_itermax ∨ p_result.clusters = [] →
        ∃ r, process self p_data p_type p_result = outcome.returned r) ∧
      (∀ (M : medoid_sequence) (p : Nat), M ≠ [] → (∀ m ∈ M, m < p_data.length) →
        M.length ≤ SIZE_MAX → p < p_data.length →
        ∃ mk, find_appropriate_cluster dist p M = some mk ∧ mk.m_index < M.length ∧
          mk.m_index ≠ INVALID_INDEX)) ∧
    (self.m_initial_medoids = [] → 0 < p_data.length →
      (∀ p, find_appropriate_cluster dist p self.m_initial_medoids
        = some ⟨INVALID_INDEX, DBL_MAX, DBL_MAX⟩) ∧
      (0 < self.m_itermax → ∀ p_result : kmedoids_data,
        process self p_data p_type p_result = outcome.undefined)) := by
  constructor
  · intro hne hv hmax hd
    have hvalid : valid_medoids p_data.length self.m_initial_medoids :=
      ⟨hv, fun _ => hne, hmax⟩
    have hall : ∀ p_result : kmedoids_data, 0 < self.m_itermax ∨ p_result.clusters = [] →
        ∃ r, process self p_data p_type p_result = outcome.returned r := by
      intro p_result hfresh
      by_cases hit : 0 < self.m_itermax
      · rcases process_run_total self p_data.length dist p_result hit hd hvalid with ⟨r, hr⟩
        exact ⟨r, (process_returned_iff self p_data p_type p_result r).2 ⟨dist, hc, hr⟩⟩
      · have h0 : self.m_itermax = 0 := by omega
        have hcl : p_result.clusters = [] := by
          rcases hfresh with h | h
          · exact absurd h hit
          · exact h
        exact ⟨_, (process_returned_iff self p_data p_type p_result _).2
          ⟨dist, hc, process_run_itermax_zero_fresh self h0 p_data.length dist p_result hcl⟩⟩
    refine ⟨hall kmedoids_data.empty (Or.inr rfl), hall, ?_⟩
    intro M p hMne hMv hMmax hp
    rcases find_appropriate_cluster_total p_data.length dist M p hd
      ⟨hMv, fun _ => hMne, hMmax⟩ hp with ⟨mk, h1, h2⟩
    refine ⟨mk, h1, h2, ?_⟩
    have : INVALID_INDEX = SIZE_MAX := rfl
    omega
  · intro hmed hpos
    constructor
    · intro p
      rw [hmed]
      exact find_appropriate_cluster_nil dist p
    · intro hit p_result
      rw [process_of_calculator self p_data p_type p_result dist hc,
        process_run_nil self p_data.length dist p_result hmed hpos hit]

/-- A result object that is not empty on entry: `process` clears the clusters only in
`update_clusters`, which a run with `m_itermax = 0` does not call, while
`erase_empty_clusters` always runs.  On a result object that still holds two empty clusters
such a run erases slot 1 of the medoid sequence, which has the single medoid `0`: the access
is out of range although the medoid sequence is not empty, its medoid is a point of the
dataset and every distance is defined and below the sentinel. -/
theorem stale_result_out_of_range :
    process zero_budget_solver line_matrix data_t.DISTANCE_MATRIX ⟨[[], []], [], 0, 0⟩
      = outcome.undefined ∧
    erase_empty_clusters ([[], []], zero_budget_solver.m_initial_medoids) = none ∧
    zero_budget_solver.m_initial_medoids ≠ [] ∧
    (∀ m ∈ zero_budget_solver.m_initial_medoids, m < line_matrix.length) ∧
    (∀ row ∈ line_matrix, row.length = line_matrix.length) ∧
    (∀ d ∈ line_matrix.flatten, d < DBL_MAX) := by
  refine ⟨by decide!, by decide!, by decide, by decide, by decide, by decide!⟩

theorem line_calculator :
    create_distance_calculator zero_budget_solver.m_metric line_matrix data_t.DISTANCE_MATRIX
      = Except.ok (calculate_distance_using_distance_matrix line_matrix) := rfl

theorem line_finite_distances :
    finite_distances line_matrix.length (calculate_distance_using_distance_matrix line_matrix) := by
  intro i hi j hj
  have hi3 : i < 3 := hi
  have hj3 : j < 3 := hj
  have h2 : (2 : ℚ) < DBL_MAX := by unfold DBL_MAX; norm_num
  have h1 : (1 : ℚ) < DBL_MAX := by unfold DBL_MAX; norm_num
  have h0 : (0 : ℚ) < DBL_MAX := DBL_MAX_pos
  interval_cases i <;> interval_cases j <;> first
    | exact ⟨0, rfl, h0⟩
    | exact ⟨1, rfl, h1⟩
    | exact ⟨2, rfl, h2⟩

theorem index_safety_witness :
    (∃ r, process zero_budget_solver line_matrix data_t.DISTANCE_MATRIX kmedoids_data.empty
      = outcome.returned r) ∧
    (∃ r, process sample_solver sample_matrix data_t.DISTANCE_MATRIX kmedoids_data.empty
      = outcome.returned r) ∧
    ∃ mk, find_appropriate_cluster (calculate_distance_using_distance_matrix sample_matrix)
        1 [0, 2] = some mk ∧ mk.m_index < 2 ∧ mk.m_index ≠ INVALID_INDEX := by
  have h0 := (index_safety zero_budget_solver line_matrix data_t.DISTANCE_MATRIX
    _ line_calculator).1 (by decide) (by decide) one_le_SIZE_MAX line_finite_distances
  have h := (index_safety sample_solver sample_matrix data_t.DISTANCE_MATRIX
    _ sample_calculator).1 (by decide) (by decide) sample_medoids_fit sample_finite_distances
  exact ⟨h0.1, h.1, h.2.2 [0, 2] 1 (by decide) (by decide) (by decide) (by decide)⟩

theorem forward_compaction_first (A : cluster) (rest : cluster_sequence) (m : Nat)
    (others : medoid_sequence) (hA : A ≠ []) (hrest : ∀ c ∈ rest, c = []) :
    forward_compaction (A :: rest, m :: others) = ([A], [m]) := by
  have h1 : (!A.isEmpty) = true := by
    cases A with
    | nil => exact absurd rfl hA
    | cons x xs => rfl
  have h2 : (rest.zip others).filter (fun pair => !pair.1.isEmpty) = [] := by
    rw [List.filter_eq_nil_iff]
    intro pair hp
    have hm : pair.1 ∈ rest := (List.of_mem_zip hp).1
    rw [hrest pair.1 hm]
    simp
  unfold forward_compaction
  rw [List.zip_cons_cons, List.filter_cons_of_pos (by simpa using h1), h2]
  rfl

theorem grouped_all_first (labels : List Nat) (k n : Nat) (hn : 0 < n)
    (hl : ∀ p < n, labels[p]? = some 0) :
    ∃ rest, grouped labels (k + 1) n = List.range n :: rest ∧ List.range n ≠ [] ∧
      ∀ c ∈ rest, c = [] := by
  refine ⟨((List.range k).map Nat.succ).map (members labels n), ?_, ?_, ?_⟩
  · unfold grouped
    rw [List.range_succ_eq_map, List.map_cons, members_all labels n 0 hl]
  · intro e
    have := congrArg List.length e
    simp at this
    omega
  · intro c hcm
    rcases List.mem_map.1 hcm with ⟨i, hi, rfl⟩
    rcases List.mem_map.1 hi with ⟨j, _, rfl⟩
    rw [members_eq_nil_iff]
    intro p hp
    rw [hl p hp]
    intro e
    have := Option.some.inj e
    omega

/-- On data whose distances are all zero the assignment puts every point into slot 0 at
distance 0. -/
theorem tracked_all_zero (size : Nat) (dist : distance_calculator) (st : state)
    (hst : tracked size dist st) (hne : st.result.medoids ≠ [])
    (hv : ∀ m ∈ st.result.medoids, m < size)
    (hzero : ∀ i < size, ∀ j < size, dist i j = some 0) :
    (∀ p < size, st.m_labels[p]? = some 0) ∧
    (∀ p < size, st.m_distance_first_medoid[p]? = some 0) ∧
    st.result.total_deviation = 0 ∧
    st.result.clusters = grouped st.m_labels st.result.medoids.length size := by
  rcases hst with ⟨markers, hm, _, hcl, hdev, hl, hf, _⟩
  have hmk : ∀ p < size, ∃ mk, markers[p]? = some mk ∧ mk.m_index = 0 ∧
      mk.m_distance_to_first_medoid = 0 := by
    intro p hp
    rcases parallel_collect_range_getElem? hm p hp with ⟨mk, h1, h2⟩
    rw [find_appropriate_cluster_eq] at h2
    rcases Option.bind_eq_some.1 h2 with ⟨ds, hds, h3⟩
    have hscan : scan 0 ds no_cluster = mk := Option.some.inj h3
    have hall : ∀ u ∈ ds, u = 0 := by
      intro u hu
      rcases parallel_collect_mem hds u hu with ⟨m, hm1, hm2⟩
      rw [hzero p hp m (hv m hm1)] at hm2
      exact (Option.some.inj hm2).symm
    have hlen : ds.length = st.result.medoids.length := parallel_collect_length hds
    have hpos : 0 < ds.length := by
      rw [hlen]
      exact List.length_pos.2 hne
    have h0 : ds[0]? = some 0 := by
      rw [List.getElem?_eq_getElem hpos]
      exact congrArg some (hall _ (List.getElem_mem hpos))
    have hu := scan_unique ds 0 no_cluster 0 0 h0 DBL_MAX_pos
      (fun j2 hj2 => absurd hj2 (Nat.not_lt_zero j2))
      (fun u hu => le_of_eq (hall u hu).symm)
    rw [hscan] at hu
    exact ⟨mk, h1, hu.1, hu.2⟩
  refine ⟨?_, ?_, ?_, ?_⟩
  · intro p hp
    rcases hmk p hp with ⟨mk, h1, h2, _⟩
    rw [hl, List.getElem?_map, h1]
    exact congrArg some h2
  · intro p hp
    rcases hmk p hp with ⟨mk, h1, _, h3⟩
    rw [hf, List.getElem?_map, h1]
    exact congrArg some h3
  · rw [hdev]
    apply List.sum_eq_zero
    intro v hv2
    rcases List.mem_map.1 hv2 with ⟨mk, hmem, rfl⟩
    rcases List.mem_iff_getElem?.1 hmem with ⟨p, hp⟩
    have hp2 : p < size := by
      have := (List.getElem?_eq_some.1 hp).1
      rw [parallel_collect_length hm, List.length_range] at this
      exact this
    rcases hmk p hp2 with ⟨mk2, h1, _, h3⟩
    rw [hp] at h1
    rw [Option.some.inj h1]
    exact h3
  · rw [hcl, hl]

/-- C23, as the code has it: on a dataset whose distances are all zero, a run of `process`
with `m_itermax > 0` and at least one initial medoid, all of them points of the dataset,
returns; the result has the single cluster of all points, the first initial medoid as its
single medoid and the total deviation 0.  It reports one iteration when the tolerance is below
the sentinel `DBL_MAX` (as the default one is), and no iteration otherwise. -/
theorem totally_similar_data (self : solver) (p_data : dataset) (p_type : data_t)
    (p_result : kmedoids_data) (dist : distance_calculator) (m : Nat) (others : List Nat)
    (hit : 0 < self.m_itermax)
    (hc : create_distance_calculator self.m_metric p_data p_type = Except.ok dist)
    (hzero : ∀ i < p_data.length, ∀ j < p_data.length, dist i j = some 0)
    (hmed : self.m_initial_medoids = m :: others)
    (hv : ∀ x ∈ self.m_initial_medoids, x < p_data.length)
    (hmax : self.m_initial_medoids.length ≤ SIZE_MAX) :
    ∃ r, process self p_data p_type p_result = outcome.returned r ∧
      r.clusters = [List.range p_data.length] ∧ r.medoids = [m] ∧
      r.total_deviation = 0 ∧
      (self.m_tolerance < DBL_MAX → r.iterations = 1) ∧
      (DBL_MAX ≤ self.m_tolerance → r.iterations = 0) := by
  have hne : self.m_initial_medoids ≠ [] := by
    rw [hmed]
    exact List.cons_ne_nil _ _
  have hn : 0 < p_data.length := by
    have := hv m (by rw [hmed]; exact List.mem_cons_self _ _)
    omega
  have hfd : finite_distances p_data.length dist := by
    intro i hi j hj
    exact ⟨0, hzero i hi j hj, DBL_MAX_pos⟩
  rcases process_run_total self p_data.length dist p_result hit hfd ⟨hv, fun _ => hne, hmax⟩
    with ⟨r, hrun⟩
  have hret : process self p_data p_type p_result = outcome.returned r :=
    (process_returned_iff self p_data p_type p_result r).2 ⟨dist, hc, hrun⟩
  rcases process_run_eq_some self p_data.length dist p_result r hrun with
    ⟨entered, final, pruned, h1, h2, h3, h4⟩
  have htr := process_start_tracked self p_data.length dist p_result entered hit h1
  rcases process_start_medoids self p_data.length dist p_result entered h1 with ⟨hm0, hi0⟩
  rcases tracked_assigned _ _ _ htr with ⟨hasg, l1, l2, l3⟩
  have hclen : entered.result.clusters.length = self.m_initial_medoids.length := by
    rw [assigned_length _ _ _ hasg, hm0]
  rcases tracked_all_zero p_data.length dist entered htr (by rw [hm0]; exact hne)
    (by rw [hm0]; exact hv) hzero with ⟨z1, z2, z3, z4⟩
  -- the first pass leaves by `break`
  have hpass : ∀ y, iteration p_data.length dist entered = some y →
      y.2 = none ∧ y.1 = { entered with result :=
        { entered.result with iterations := entered.result.iterations + 1 } } := by
    intro y hy
    rcases iteration_best p_data.length dist entered y hy l1 l2 l3
      (by rw [hclen]; exact hmax) with ⟨b1, b2⟩
    cases hy2 : y.2 with
    | none => exact ⟨rfl, b1 hy2⟩
    | some c =>
      exfalso
      rcases b2 c hy2 with ⟨_, _, cand, _, _, _, c3, _⟩
      rcases c3 with ⟨d1, _, first, d3, d4⟩
      rw [z2 cand d1] at d3
      exact d4 (Option.some.inj d3).symm
  have hfinal : (self.m_tolerance < DBL_MAX ∧ final = { entered with result :=
      { entered.result with iterations := entered.result.iterations + 1 } }) ∨
      (DBL_MAX ≤ self.m_tolerance ∧ final = entered) := by
    by_cases htol : self.m_tolerance < DBL_MAX
    · left
      refine ⟨htol, ?_⟩
      obtain ⟨f, hf⟩ : ∃ f, self.m_itermax = f + 1 := ⟨self.m_itermax - 1, by omega⟩
      rw [hf] at h2
      rw [process_loop, if_pos ⟨by rw [hi0]; omega, htol⟩] at h2
      simp only [Option.bind_eq_bind] at h2
      rcases Option.bind_eq_some.1 h2 with ⟨y, hy, h5⟩
      rcases hpass y hy with ⟨p1, p2⟩
      rw [p1] at h5
      rw [← Option.some.inj h5, p2]
    · right
      have hge : DBL_MAX ≤ self.m_tolerance := not_lt.1 htol
      rw [process_loop_saturated _ _ _ _ _ _ hge] at h2
      exact ⟨hge, (Option.some.inj h2).symm⟩
  have hfc : final.result.clusters = entered.result.clusters := by
    rcases hfinal with ⟨_, e⟩ | ⟨_, e⟩ <;> rw [e]
  have hfm : final.result.medoids = m :: others := by
    rcases hfinal with ⟨_, e⟩ | ⟨_, e⟩ <;> rw [e] <;> exact hm0.trans hmed
  have hfd2 : final.result.total_deviation = 0 := by
    rcases hfinal with ⟨_, e⟩ | ⟨_, e⟩ <;> rw [e] <;> exact z3
  have hfi1 : self.m_tolerance < DBL_MAX → final.result.iterations = 1 := by
    intro htol
    rcases hfinal with ⟨_, e⟩ | ⟨hge, _⟩
    · rw [e]
      show entered.result.iterations + 1 = 1
      rw [hi0]
    · exact absurd htol (not_lt.2 hge)
  have hfi0 : DBL_MAX ≤ self.m_tolerance → final.result.iterations = 0 := by
    intro hge
    rcases hfinal with ⟨htol, _⟩ | ⟨_, e⟩
    · exact absurd htol (not_lt.2 hge)
    · rw [e]
      exact hi0
  have hklen : entered.result.medoids.length = others.length + 1 := by
    rw [hm0, hmed]
    rfl
  rcases grouped_all_first entered.m_labels others.length p_data.length hn z1 with
    ⟨rest, g1, g2, g3⟩
  have hcl : final.result.clusters = List.range p_data.length :: rest := by
    rw [hfc, z4, hklen, g1]
  have hlen2 : (List.range p_data.length :: rest).length = (m :: others).length := by
    rw [← hcl, hfc, hclen, hmed]
  rw [hcl, hfm, erase_empty_clusters_eq _ _ hlen2 (by rw [hlen2, ← hmed]; exact hmax),
    forward_compaction_first _ rest m others g2 g3] at h3
  have hp := Option.some.inj h3
  refine ⟨r, hret, ?_, ?_, ?_, ?_, ?_⟩
  · rw [h4, ← hp]
  · rw [h4, ← hp]
  · rw [h4]
    exact hfd2
  · intro htol
    rw [h4]
    exact hfi1 htol
  · intro hge
    rw [h4]
    exact hfi0 hge

theorem zero_calculator (i : Nat) (hi : i < zero_matrix.length) (j : Nat)
    (hj : j < zero_matrix.length) :
    calculate_distance_using_distance_matrix zero_matrix i j = some 0 := by
  have hi3 : i < 3 := hi
  have hj3 : j < 3 := hj
  interval_cases i <;> interval_cases j <;> rfl

/-- C23 fails as stated: with the largest finite `double` as tolerance the loop is not
entered, so the run on three identical points, started with `m_itermax = 100` from the medoids
0 and 1, returns the single cluster of all points with the medoid 0 and the total deviation 0,
but reports no iteration. -/
theorem totally_similar_counterexample :
    process saturated_zero_solver zero_matrix data_t.DISTANCE_MATRIX kmedoids_data.empty
      = outcome.returned ⟨[[0, 1, 2]], [0], 0, 0⟩ ∧
    0 < saturated_zero_solver.m_itermax ∧
    saturated_zero_solver.m_initial_medoids ≠ [] ∧
    (∀ x ∈ saturated_zero_solver.m_initial_medoids, x < zero_matrix.length) ∧
    (∀ i < zero_matrix.length, ∀ j < zero_matrix.length,
      calculate_distance_using_distance_matrix zero_matrix i j = some 0) := by
  exact ⟨by decide!, by decide, by decide, by decide, zero_calculator⟩

theorem totally_similar_data_witness :
    ∃ r, process zero_solver zero_matrix data_t.DISTANCE_MATRIX kmedoids_data.empty
        = outcome.returned r ∧
      r.clusters = [List.range zero_matrix.length] ∧ r.medoids = [0] ∧
      r.total_deviation = 0 ∧
      (zero_solver.m_tolerance < DBL_MAX → r.iterations = 1) ∧
      (DBL_MAX ≤ zero_solver.m_tolerance → r.iterations = 0) := by
  exact totally_similar_data zero_solver zero_matrix data_t.DISTANCE_MATRIX
    kmedoids_data.empty _ 0 [1] (by decide) rfl zero_calculator rfl
    (by decide) (by decide)

/-- The first distance that the scan returns is the least of the distances, when that is
below the sentinel. -/
theorem scan_first_eq (ds : List ℚ) (t : ℚ) (hmem : t ∈ ds) (hmin : ∀ u ∈ ds, t ≤ u)
    (hlt : t < DBL_MAX) : (scan 0 ds no_cluster).m_distance_to_first_medoid = t := by
  rcases scan_spec ds 0 no_cluster with ⟨_, _, h3⟩ | ⟨w, h1, _, _, _, h5⟩
  · exfalso
    have := h3 t hmem
    exact absurd hlt (not_lt.2 this)
  · have hm2 : (scan 0 ds no_cluster).m_distance_to_first_medoid ∈ ds :=
      List.mem_iff_getElem?.2 ⟨w, h1⟩
    exact le_antisymm (h5 t hmem) (hmin _ hm2)

theorem parallel_collect_set {α : Type} (f : Nat → Option α) (a : Nat) (b : α)
    (hab : f a = some b) : ∀ (l : List Nat) (r : List α) (c : Nat),
    parallel_collect f l = some r → parallel_collect f (l.set c a) = some (r.set c b) := by
  intro l
  induction l with
  | nil =>
    intro r c h
    rw [parallel_collect] at h
    rw [← Option.some.inj h]
    rfl
  | cons i rest ih =>
    intro r c h
    rcases (parallel_collect_forall2 f (i :: rest) r).1 h with _ | ⟨hia, hrest⟩
    rename_i a2 r2
    have hr2 : parallel_collect f rest = some r2 := (parallel_collect_forall2 f rest r2).2 hrest
    cases c with
    | zero =>
      rw [List.set_cons_zero, List.set_cons_zero, parallel_collect, hab, hr2]
      rfl
    | succ c =>
      rw [List.set_cons_succ, List.set_cons_succ, parallel_collect, hia, ih r2 c hr2]
      rfl

/-- The first distance of a point after one medoid slot has been replaced, from the record of
the point before the replacement: with `dx` the distance to the new medoid, it is
`min dx second` when the replaced slot was the winning one, and `min dx first` otherwise. -/
theorem first_after_swap (ds : List ℚ) (c : Nat) (dx : ℚ) (hc : c < ds.length)
    (hmax : ds.length ≤ SIZE_MAX) (hfin : ∀ u ∈ ds, u < DBL_MAX) (hdx : dx < DBL_MAX) :
    (scan 0 (ds.set c dx) no_cluster).m_distance_to_first_medoid
      = if (scan 0 ds no_cluster).m_index = c
        then min dx (scan 0 ds no_cluster).m_distance_to_second_medoid
        else if dx < (scan 0 ds no_cluster).m_distance_to_first_medoid then dx
          else (scan 0 ds no_cluster).m_distance_to_first_medoid := by
  have hidx : no_cluster.m_index < 0 ∨ 0 + ds.length ≤ no_cluster.m_index := by
    right
    show 0 + ds.length ≤ SIZE_MAX
    omega
  rcases scan_second ds 0 no_cluster (le_refl _) hidx with ⟨_, _, i3, _, i5, _⟩
  rcases scan_spec ds 0 no_cluster with ⟨_, _, h3⟩ | ⟨w, h1, h2, _, _, h5⟩
  · exfalso
    have hm : ds[c] ∈ ds := List.getElem_mem hc
    exact absurd (hfin _ hm) (not_lt.2 (h3 _ hm))
  · have hw : w < ds.length := (List.getElem?_eq_some.1 h1).1
    have hcset : (ds.set c dx)[c]? = some dx := List.getElem?_set_self hc
    by_cases hwc : (scan 0 ds no_cluster).m_index = c
    · rw [if_pos hwc]
      apply scan_first_eq
      · by_cases hle : dx ≤ (scan 0 ds no_cluster).m_distance_to_second_medoid
        · rw [min_eq_left hle]
          exact List.mem_iff_getElem?.2 ⟨c, hcset⟩
        · have hlt2 : (scan 0 ds no_cluster).m_distance_to_second_medoid < dx := not_le.1 hle
          rw [min_eq_right (le_of_lt hlt2)]
          have hne : (scan 0 ds no_cluster).m_distance_to_second_medoid ≠ DBL_MAX :=
            fun e => absurd hdx (not_lt.2 (le_of_lt (e ▸ hlt2)))
          rcases i5 with e | ⟨_, e⟩ | ⟨j, e1, e2⟩
          · exact absurd e hne
          · exact absurd e hne
          · have hjc : c ≠ j := by
              intro e
              apply e2
              rw [hwc, e]
              omega
            refine List.mem_iff_getElem?.2 ⟨j, ?_⟩
            rw [List.getElem?_set_ne hjc]
            exact e1
      · intro u hu
        rcases List.mem_iff_getElem?.1 hu with ⟨j, hj⟩
        by_cases hjc : c = j
        · rw [← hjc, hcset] at hj
          rw [← Option.some.inj hj]
          exact min_le_left _ _
        · rw [List.getElem?_set_ne hjc] at hj
          have := i3 j u hj (by rw [hwc]; omega)
          exact le_trans (min_le_right _ _) this
      · exact lt_of_le_of_lt (min_le_left _ _) hdx
    · rw [if_neg hwc]
      have hwc2 : c ≠ w := by
        intro e
        apply hwc
        rw [h2, e]
        omega
      have hfirst_lt : (scan 0 ds no_cluster).m_distance_to_first_medoid < DBL_MAX :=
        hfin _ (List.mem_iff_getElem?.2 ⟨w, h1⟩)
      by_cases hlt : dx < (scan 0 ds no_cluster).m_distance_to_first_medoid
      · rw [if_pos hlt]
        apply scan_first_eq
        · exact List.mem_iff_getElem?.2 ⟨c, hcset⟩
        · intro u hu
          rcases List.mem_or_eq_of_mem_set hu with hu2 | hu2
          · exact le_trans (le_of_lt hlt) (h5 u hu2)
          · exact le_of_eq hu2.symm
        · exact hdx
      · rw [if_neg hlt]
        apply scan_first_eq
        · refine List.mem_iff_getElem?.2 ⟨w, ?_⟩
          rw [List.getElem?_set_ne hwc2]
          exact h1
        · intro u hu
          rcases List.mem_or_eq_of_mem_set hu with hu2 | hu2
          · exact h5 u hu2
          · rw [hu2]
            exact not_lt.1 hlt
        · exact hfirst_lt

theorem sum_map_single (v : ℚ) (x : Nat) : ∀ (L : List Nat), L.Nodup → x ∈ L →
    (L.map (fun y => if y = x then v else 0)).sum = v := by
  intro L
  induction L with
  | nil =>
    intro _ hx
    cases hx
  | cons a rest ih =>
    intro hnd hx
    rw [List.map_cons, List.sum_cons]
    by_cases hax : a = x
    · rw [if_pos hax]
      have hnot : x ∉ rest := by
        rw [← hax]
        exact (List.nodup_cons.1 hnd).1
      have hrest : (rest.map (fun y => if y = x then v else 0)).sum = 0 := by
        apply List.sum_eq_zero
        intro u hu
        rcases List.mem_map.1 hu with ⟨y, hy, rfl⟩
        have hyx : y ≠ x := fun e => hnot (e ▸ hy)
        rw [if_neg hyx]
      rw [hrest, add_zero]
    · rw [if_neg hax, zero_add]
      have hx2 : x ∈ rest := by
        rcases List.mem_cons.1 hx with e | h
        · exact absurd e.symm hax
        · exact h
      exact ih (List.nodup_cons.1 hnd).2 hx2

theorem parallel_collect_range_eq_map {α : Type} (f : Nat → Option α) (d : α) (n : Nat)
    (r : List α) (h : parallel_collect f (List.range n) = some r) :
    r = (List.range n).map (fun p => (f p).getD d) := by
  have hlen : r.length = n := by rw [parallel_collect_length h, List.length_range]
  apply List.ext_getElem?
  intro p
  by_cases hp : p < n
  · rcases parallel_collect_range_getElem? h p hp with ⟨a, ha1, ha2⟩
    rw [ha1, List.getElem?_map, List.getElem?_range hp, Option.map_some', ha2]
    rfl
  · rw [List.getElem?_eq_none (by omega), List.getElem?_eq_none (by simp; omega)]

/-- The record that `find_appropriate_cluster` returns for a point and a medoid sequence, as a
function of the distances of the point to the medoids. -/
theorem find_appropriate_cluster_scan (size : Nat) (dist : distance_calculator)
    (hd : finite_distances size dist)
    (hnn : ∀ i < size, ∀ j < size, ∀ d, dist i j = some d → 0 ≤ d)
    (M : medoid_sequence) (hv : ∀ m ∈ M, m < size) (y : Nat) (hy : y < size) :
    ∃ ds, parallel_collect (dist y) M = some ds ∧ ds.length = M.length ∧
      (∀ u ∈ ds, 0 ≤ u ∧ u < DBL_MAX) ∧
      find_appropriate_cluster dist y M = some (scan 0 ds no_cluster) := by
  rcases parallel_collect_total (dist y) M (fun m hm => by
    rcases hd y hy m (hv m hm) with ⟨d, hd1, _⟩
    exact ⟨d, hd1⟩) with ⟨ds, hds⟩
  refine ⟨ds, hds, parallel_collect_length hds, ?_, ?_⟩
  · intro u hu
    rcases parallel_collect_mem hds u hu with ⟨m, hm1, hm2⟩
    rcases hd y hy m (hv m hm1) with ⟨d, hd1, hd2⟩
    rw [hd1] at hm2
    rw [← Option.some.inj hm2]
    exact ⟨hnn y hy m (hv m hm1) d hd1, hd2⟩
  · rw [find_appropriate_cluster_eq, hds]
    rfl

/-- The swap cost is the change of the total deviation: in the state that the assignment
leaves for the medoids `M`, the swap cost of the point `x` for the slot `c` is the total
deviation that `update_clusters` returns for `M` with slot `c` replaced by `x`, minus the
total deviation of `M`. -/
theorem swap_cost_deviation (size : Nat) (dist : distance_calculator) (st : state)
    (htr : tracked size dist st) (hd : finite_distances size dist)
    (hnn : ∀ i < size, ∀ j < size, ∀ d, dist i j = some d → 0 ≤ d)
    (hv : ∀ m ∈ st.result.medoids, m < size) (hmax : st.result.medoids.length ≤ SIZE_MAX)
    (x c : Nat) (hx : x < size) (hc : c < st.result.medoids.length)
    (hxx : dist x x = some 0) :
    ∃ cost x2, calculate_swap_cost size dist st x c = some cost ∧
      update_clusters size dist { st with result :=
        { st.result with medoids := st.result.medoids.set c x } } = some x2 ∧
      cost = x2.1 - st.result.total_deviation := by
  rcases tracked_assigned size dist st htr with ⟨_, l1, l2, l3⟩
  rcases htr with ⟨markers, hm, _, _, hdev, hl, hf, hs⟩
  obtain ⟨G, hG⟩ : ∃ G : Nat → appropriate_cluster,
      G = fun p => (find_appropriate_cluster dist p st.result.medoids).getD no_cluster :=
    ⟨_, rfl⟩
  obtain ⟨G2, hG2⟩ : ∃ G2 : Nat → appropriate_cluster,
      G2 = fun p => (find_appropriate_cluster dist p
        (st.result.medoids.set c x)).getD no_cluster := ⟨_, rfl⟩
  obtain ⟨D, hD⟩ : ∃ D : Nat → Nat → ℚ, D = fun y z => (dist y z).getD 0 := ⟨_, rfl⟩
  have hDval : ∀ y z d, dist y z = some d → D y z = d := by
    intro y z d h
    rw [hD]
    show (dist y z).getD 0 = d
    rw [h]
    rfl
  have hmap : markers = (List.range size).map G := by
    rw [hG]
    exact parallel_collect_range_eq_map _ no_cluster size markers hm
  have hlen : markers.length = size := by
    rw [parallel_collect_length hm, List.length_range]
  -- the run of the assignment on the new medoids
  have hv2 : ∀ m ∈ st.result.medoids.set c x, m < size := by
    intro m hm2
    rcases List.mem_or_eq_of_mem_set hm2 with h | h
    · exact hv m h
    · rw [h]; exact hx
  have hvalid2 : valid_medoids size (st.result.medoids.set c x) := by
    refine ⟨hv2, fun _ => ?_, by rw [List.length_set]; exact hmax⟩
    intro e
    have := congrArg List.length e
    rw [List.length_set, List.length_nil] at this
    omega
  rcases update_clusters_total size dist
    { st with result := { st.result with medoids := st.result.medoids.set c x } }
    hd hvalid2 l1 l2 l3 with ⟨x2, hx2⟩
  rcases (update_clusters_eq_some size dist _ x2).1 hx2 with ⟨markers2, hm2, _, hx2eq⟩
  have hmap2 : markers2 = (List.range size).map G2 := by
    rw [hG2]
    exact parallel_collect_range_eq_map _ no_cluster size markers2 hm2
  have hlen2 : markers2.length = size := by
    rw [parallel_collect_length hm2, List.length_range]
  have hdev2 : x2.1 = ((List.range size).map
      (fun y => (G2 y).m_distance_to_first_medoid)).sum := by
    rw [hx2eq]
    show ((markers2.take size).map _).sum = _
    rw [List.take_of_length_le (by omega), hmap2, List.map_map]
    rfl
  have hdev1 : st.result.total_deviation = ((List.range size).map
      (fun y => (G y).m_distance_to_first_medoid)).sum := by
    rw [hdev, hmap, List.map_map]
    rfl
  -- the swap cost
  have hget : ∀ y < size, markers[y]? = some (G y) := by
    intro y hy
    rw [hmap, List.getElem?_map, List.getElem?_range hy]
    rfl
  have hcost := calculate_swap_cost_eq size dist st x c D (fun y => (G y).m_index)
    (fun y => (G y).m_distance_to_first_medoid) (fun y => (G y).m_distance_to_second_medoid)
    (fun y hy _ => by
      rcases hd y hy x hx with ⟨d, hd1, _⟩
      rw [hDval y x d hd1, hd1])
    (fun y hy => by rw [hl, List.getElem?_map, hget y hy]; rfl)
    (fun y hy => by rw [hf, List.getElem?_map, hget y hy]; rfl)
    (fun y hy => by rw [hs, List.getElem?_map, hget y hy]; rfl) hx
  refine ⟨_, x2, hcost, hx2, ?_⟩
  -- the change of the first distance of one point
  have hterm : ∀ y ∈ List.range size,
      (G2 y).m_distance_to_first_medoid
        = (G y).m_distance_to_first_medoid +
          (swap_cost_term D (fun y => (G y).m_index)
            (fun y => (G y).m_distance_to_first_medoid)
            (fun y => (G y).m_distance_to_second_medoid) x c y
          + (if y = x then -((G x).m_distance_to_first_medoid) else 0)) := by
    intro y hy
    have hy2 : y < size := List.mem_range.1 hy
    rcases find_appropriate_cluster_scan size dist hd hnn st.result.medoids hv y hy2 with
      ⟨ds, hds, hdslen, hdsb, hfind⟩
    rcases hd y hy2 x hx with ⟨dx, hdx1, hdx2⟩
    have hdx0 : 0 ≤ dx := hnn y hy2 x hx dx hdx1
    have hGy : G y = scan 0 ds no_cluster := by
      rw [hG]
      show (find_appropriate_cluster dist y st.result.medoids).getD no_cluster = _
      rw [hfind]
      rfl
    have hG2y : G2 y = scan 0 (ds.set c dx) no_cluster := by
      rw [hG2]
      show (find_appropriate_cluster dist y (st.result.medoids.set c x)).getD no_cluster = _
      rw [find_appropriate_cluster_eq,
        parallel_collect_set (dist y) x dx hdx1 st.result.medoids ds c hds]
      rfl
    have hDyx : D y x = dx := hDval y x dx hdx1
    have hcds : c < ds.length := by omega
    unfold swap_cost_term
    by_cases hyx : y = x
    · rw [if_pos hyx, if_pos hyx, hG2y, ← hyx]
      have hdx00 : dx = 0 := by
        rw [hyx, hxx] at hdx1
        exact (Option.some.inj hdx1).symm
      rw [scan_first_eq (ds.set c dx) 0
        (by
          rw [hdx00]
          exact List.mem_iff_getElem?.2 ⟨c, List.getElem?_set_self hcds⟩)
        (by
          intro u hu
          rcases List.mem_or_eq_of_mem_set hu with h | h
          · exact (hdsb u h).1
          · rw [h]; exact hdx0)
        DBL_MAX_pos]
      ring
    · rw [if_neg hyx, if_neg hyx, hG2y, first_after_swap ds c dx hcds (by omega)
        (fun u hu => (hdsb u hu).2) hdx2]
      simp only [hGy, hDyx]
      split_ifs <;> ring
  rw [hdev2, hdev1, List.map_congr_left hterm, List.sum_map_add, List.sum_map_add,
    sum_map_single _ x _ (List.nodup_range size) (List.mem_range.2 hx)]
  ring

/-- C25: in the state that the assignment leaves for its medoids, under distances that are
defined, non-negative, below the sentinel and zero from a point to itself, the swap cost of a
point `x` for a slot `c` is the total deviation that `update_clusters` returns for the medoids
with slot `c` replaced by `x`, minus the current total deviation; and the value of `changes`
that a pass of the loop computes after a swap is the negation of the cost that `swap_medoids`
returned in that pass. -/
theorem swap_cost_exact (size : Nat) (dist : distance_calculator) (st : state)
    (htr : tracked size dist st) (hd : finite_distances size dist)
    (hnn : ∀ i < size, ∀ j < size, ∀ d, dist i j = some d → 0 ≤ d)
    (hzero : ∀ i < size, dist i i = some 0)
    (hv : ∀ m ∈ st.result.medoids, m < size) (hmax : st.result.medoids.length ≤ SIZE_MAX) :
    (∀ x c, x < size → c < st.result.medoids.length →
      ∃ cost x2, calculate_swap_cost size dist st x c = some cost ∧
        update_clusters size dist { st with result :=
          { st.result with medoids := st.result.medoids.set c x } } = some x2 ∧
        cost = x2.1 - st.result.total_deviation) ∧
    (∀ y changes, iteration size dist st = some y → y.2 = some changes →
      ∃ swapped, swap_medoids size dist { st with result :=
          { st.result with iterations := st.result.iterations + 1 } } = some swapped ∧
        changes = -swapped.1) := by
  constructor
  · intro x c hx hc
    exact swap_cost_deviation size dist st htr hd hnn hv hmax x c hx hc (hzero x hx)
  · intro y changes hy hyc
    rcases tracked_assigned size dist st htr with ⟨hasg, _, _, _⟩
    have hclen : st.result.clusters.length = st.result.medoids.length :=
      assigned_length size dist _ hasg
    unfold iteration at hy
    simp only [Option.bind_eq_bind, Option.pure_def] at hy
    rcases Option.bind_eq_some.1 hy with ⟨swapped, hswap, h4⟩
    refine ⟨swapped, hswap, ?_⟩
    by_cases hcost : swapped.1 = NOTHING_TO_SWAP
    · rw [if_neg (not_not.2 hcost)] at h4
      rw [← Option.some.inj h4] at hyc
      cases hyc
    · rw [if_pos hcost] at h4
      rcases Option.bind_eq_some.1 h4 with ⟨updated, hupd, h5⟩
      rw [← Option.some.inj h5] at hyc
      have hch : changes = swapped.2.result.total_deviation - updated.1 :=
        (Option.some.inj hyc).symm
      rcases swap_medoids_best size dist _ swapped hswap with ⟨b1, _, b3, _⟩
      have hlt : swapped.1 < DBL_MAX := lt_of_le_of_ne b1 hcost
      rcases b3 hlt (by rw [hclen]; exact hmax) with ⟨ic, cand, _, c2, c3, c4, c5⟩
      rcases swap_cost_deviation size dist
        { st with result := { st.result with iterations := st.result.iterations + 1 } }
        htr hd hnn hv hmax cand ic c3.1 c2 (hzero cand c3.1) with ⟨cost, x2, e1, e2, e3⟩
      rw [c4] at e1
      rw [c5] at hupd
      rw [e2] at hupd
      rw [hch, c5, Option.some.inj e1, e3, ← Option.some.inj hupd]
      show st.result.total_deviation - x2.1 = -(x2.1 - st.result.total_deviation)
      ring

/-- C26, in exact arithmetic: when a pass of the loop applies a swap in the state that the
assignment left for the medoids `M`, under distances that are defined, non-negative, below the
sentinel and zero from a point to itself, the total deviation recorded after the pass is the
one of `M` with a slot replaced by a candidate, and it is the least total deviation over all
such replacements of a slot by a candidate (a non-medoid point with a first distance other
than zero). -/
theorem steepest_single_swap (size : Nat) (dist : distance_calculator) (st : state)
    (htr : tracked size dist st) (hd : finite_distances size dist)
    (hnn : ∀ i < size, ∀ j < size, ∀ d, dist i j = some d → 0 ≤ d)
    (hzero : ∀ i < size, dist i i = some 0)
    (hv : ∀ m ∈ st.result.medoids, m < size) (hmax : st.result.medoids.length ≤ SIZE_MAX)
    (y : state × Option ℚ) (changes : ℚ) (hy : iteration size dist st = some y)
    (hyc : y.2 = some changes) :
    (∃ index_cluster candidate x2, index_cluster < st.result.medoids.length ∧
      swap_candidate size st candidate ∧
      y.1.result.medoids = st.result.medoids.set index_cluster candidate ∧
      update_clusters size dist { st with result :=
        { st.result with medoids := st.result.medoids.set index_cluster candidate } }
        = some x2 ∧
      y.1.result.total_deviation = x2.1) ∧
    (∀ index_cluster candidate x2, index_cluster < st.result.medoids.length →
      swap_candidate size st candidate →
      update_clusters size dist { st with result :=
        { st.result with medoids := st.result.medoids.set index_cluster candidate } }
        = some x2 →
      y.1.result.total_deviation ≤ x2.1) := by
  rcases tracked_assigned size dist st htr with ⟨hasg, l1, l2, l3⟩
  have hclen : st.result.clusters.length = st.result.medoids.length :=
    assigned_length size dist _ hasg
  rcases (iteration_best size dist st y hy l1 l2 l3 (by rw [hclen]; exact hmax)).2 changes hyc
    with ⟨htr2, ic, cand, cost, c1, _, c3, c4, c5, c6⟩
  rcases swap_cost_deviation size dist st htr hd hnn hv hmax cand ic c3.1 c1
    (hzero cand c3.1) with ⟨cost2, x2, e1, e2, e3⟩
  rw [c4] at e1
  have hcost : cost = cost2 := Option.some.inj e1
  rcases tracked_assigned size dist y.1 htr2 with ⟨hasg2, _, _, _⟩
  rcases update_clusters_of_assigned size dist y.1.result
    { st with result := { st.result with medoids := st.result.medoids.set ic cand } }
    hasg2 c6.symm (le_of_eq l1.symm) (le_of_eq l2.symm) (le_of_eq l3.symm) with
    ⟨st2, f1, _, _⟩
  rw [e2] at f1
  have hdev : y.1.result.total_deviation = x2.1 :=
    (congrArg Prod.fst (Option.some.inj f1)).symm
  constructor
  · exact ⟨ic, cand, x2, c1, c3, c6, e2, hdev⟩
  · intro ic3 cand3 x3 hic3 hcand3 hx3
    rcases swap_cost_deviation size dist st htr hd hnn hv hmax cand3 ic3 hcand3.1 hic3
      (hzero cand3 hcand3.1) with ⟨cost3, x4, g1, g2, g3⟩
    rw [hx3] at g2
    have hle := c5 ic3 cand3 (by rw [hclen]; exact hic3) hcand3 cost3 g1
    rw [hdev]
    rw [hcost, e3, g3, ← Option.some.inj g2] at hle
    linarith

theorem sample_tracked :
    tracked 3 (calculate_distance_using_distance_matrix sample_matrix) sample_state := by
  refine ⟨[⟨0, 0, 5⟩, ⟨0, 1, 3⟩, ⟨1, 0, 5⟩], by decide!, by decide, by decide, by decide!,
    by decide, by decide!, by decide!⟩

theorem sample_nonnegative (i : Nat) (hi : i < 3) (j : Nat) (hj : j < 3) (d : ℚ)
    (h : calculate_distance_using_distance_matrix sample_matrix i j = some d) : 0 ≤ d := by
  by_cases hij : i = j
  · rw [hij] at h
    rw [sample_self j hj] at h
    exact le_of_eq (Option.some.inj h)
  · exact le_of_lt (sample_positive i hi j hj hij d h)

theorem sample_iteration :
    iteration 3 (calculate_distance_using_distance_matrix sample_matrix) sample_state
      = some (⟨⟨[[0, 1], [2]], [1, 2], 1, 2⟩, [0, 0, 1], [1, 0, 0], [5, 3, 3]⟩, some 0) := by
  decide!

theorem swap_cost_exact_witness :
    ∃ cost x2,
      calculate_swap_cost 3 (calculate_distance_using_distance_matrix sample_matrix)
        sample_state 1 0 = some cost ∧
      update_clusters 3 (calculate_distance_using_distance_matrix sample_matrix)
        { sample_state with result :=
          { sample_state.result with medoids := sample_state.result.medoids.set 0 1 } }
        = some x2 ∧
      cost = x2.1 - sample_state.result.total_deviation := by
  exact (swap_cost_exact 3 (calculate_distance_using_distance_matrix sample_matrix)
    sample_state sample_tracked sample_finite_distances sample_nonnegative sample_self
    (by decide) (by decide)).1 1 0 (by decide) (by decide)

theorem steepest_single_swap_witness :
    ∃ index_cluster candidate x2, index_cluster < sample_state.result.medoids.length ∧
      swap_candidate 3 sample_state candidate ∧
      ([1, 2] : medoid_sequence) = sample_state.result.medoids.set index_cluster candidate ∧
      update_clusters 3 (calculate_distance_using_distance_matrix sample_matrix)
        { sample_state with result :=
          { sample_state.result with
            medoids := sample_state.result.medoids.set index_cluster candidate } }
        = some x2 ∧
      (1 : ℚ) = x2.1 := by
  exact (steepest_single_swap 3 (calculate_distance_using_distance_matrix sample_matrix)
    sample_state sample_tracked sample_finite_distances sample_nonnegative sample_self
    (by decide) (by decide) _ 0 sample_iteration rfl).1

/-- The recorded deviations are the baseline and the deviations of the passes that applied a
swap; when the last pass left the loop by `break`, every pass before it was followed by
another pass, so each recorded deviation exceeds the next one by more than the tolerance. -/
theorem loop_deviations_of_passes (size : Nat) (dist : distance_calculator) (tol : ℚ)
    (itermax : Nat) :
    ∀ (fuel : Nat) (changes : ℚ) (st : state) (later : List ℚ)
      (ps : List (state × Option ℚ)),
      loop_deviations size dist tol itermax fuel changes st = some later →
      loop_passes size dist tol itermax fuel changes st = some ps →
      later = (ps.filter (fun y => y.2.isSome)).map (fun y => y.1.result.total_deviation) ∧
      ((∃ y, ps.getLast? = some y ∧ y.2 = none) →
        List.Chain' (fun previous next => previous - next > tol)
          (st.result.total_deviation :: later)) := by
  intro fuel
  induction fuel with
  | zero =>
    intro changes st later ps h hp
    rw [loop_deviations] at h
    rw [loop_passes] at hp
    split at h
    · cases h
    · rename_i hc
      rw [if_neg hc] at hp
      rw [← Option.some.inj h, ← Option.some.inj hp]
      exact ⟨rfl, fun _ => List.chain'_singleton _⟩
  | succ f ih =>
    intro changes st later ps h hp
    rw [loop_deviations] at h
    rw [loop_passes] at hp
    by_cases hc : st.result.iterations < itermax ∧ changes > tol
    · rw [if_pos hc] at h hp
      simp only [Option.bind_eq_bind] at h hp
      rcases Option.bind_eq_some.1 h with ⟨y, hy, h2⟩
      rcases Option.bind_eq_some.1 hp with ⟨y1, hy1, hp2⟩
      rw [hy] at hy1
      have hyy : y = y1 := Option.some.inj hy1
      subst hyy
      cases hy2 : y.2 with
      | none =>
        rw [hy2] at h2 hp2
        rw [← Option.some.inj h2, ← Option.some.inj hp2]
        refine ⟨?_, fun _ => List.chain'_singleton _⟩
        rw [List.filter_cons_of_neg (by rw [hy2]; simp)]
        rfl
      | some c =>
        rw [hy2] at h2 hp2
        simp only [Option.pure_def] at h2 hp2
        rcases Option.bind_eq_some.1 h2 with ⟨later1, hl1, h3⟩
        rcases Option.bind_eq_some.1 hp2 with ⟨ps1, hps1, hp3⟩
        rw [← Option.some.inj h3, ← Option.some.inj hp3]
        rcases ih c y.1 later1 ps1 hl1 hps1 with ⟨i1, i2⟩
        have hcval : c = st.result.total_deviation - y.1.result.total_deviation := by
          rcases (iteration_spec size dist st y hy).2 with ⟨e, _⟩ | ⟨e, _⟩
          · rw [hy2] at e; cases e
          · rw [hy2] at e; exact Option.some.inj e
        constructor
        · rw [List.filter_cons_of_pos (by rw [hy2]; rfl), List.map_cons, i1]
        · rintro ⟨z, hz, hzn⟩
          have hne : ps1 ≠ [] := by
            intro e
            rw [e] at hz
            have : y = z := Option.some.inj hz
            rw [this, hzn] at hy2
            cases hy2
          rcases List.exists_cons_of_ne_nil hne with ⟨p0, prest, hcons⟩
          have hz2 : ps1.getLast? = some z := by
            rw [hcons] at hz ⊢
            rw [List.getLast?_cons_cons] at hz
            exact hz
          have hgt := ((loop_passes_spec size dist tol itermax f c y.1 ps1 hps1).1.1 hne).2
          rw [hcval] at hgt
          exact List.chain'_cons.2 ⟨hgt, i2 ⟨z, hz2, hzn⟩⟩
    · rw [if_neg hc] at h hp
      rw [← Option.some.inj h, ← Option.some.inj hp]
      exact ⟨rfl, fun _ => List.chain'_singleton _⟩

/-- C3, as the code has it: the total deviations that a run records are the baseline of the
initial medoids and then one for every completed iteration (every pass that applied a swap),
and the last of them is the total deviation that the run reports.  Each of them exceeds the
next one by more than the tolerance, except possibly for the step to the last one; and that
step too when the run ended on a pass that found no swap. -/
theorem deviation_decreases_before_last (self : solver) (p_data : dataset) (p_type : data_t)
    (p_result : kmedoids_data) :
    (∀ ds, recorded_deviations self p_data p_type p_result = some ds →
      List.Chain' (fun previous next => previous - next > self.m_tolerance) ds.dropLast) ∧
    (∀ ds entered passes, recorded_deviations self p_data p_type p_result = some ds →
      recorded_passes self p_data p_type p_result = some (entered, passes) →
      ds = entered.result.total_deviation ::
        (passes.filter (fun y => y.2.isSome)).map (fun y => y.1.result.total_deviation) ∧
      ((∃ y, passes.getLast? = some y ∧ y.2 = none) →
        List.Chain' (fun previous next => previous - next > self.m_tolerance) ds)) ∧
    (∀ r, process self p_data p_type p_result = outcome.returned r →
      ∃ ds, recorded_deviations self p_data p_type p_result = some ds ∧
        ds.getLast? = some r.total_deviation ∧
        ∃ entered passes, recorded_passes self p_data p_type p_result
          = some (entered, passes)) := by
  refine ⟨?_, ?_, ?_⟩
  · intro ds h
    unfold recorded_deviations at h
    cases hc : create_distance_calculator self.m_metric p_data p_type with
    | error code => rw [hc] at h; cases h
    | ok dist =>
      rw [hc] at h
      simp only [Option.bind_eq_bind, Option.pure_def] at h
      rcases Option.bind_eq_some.1 h with ⟨entered, h1, h2⟩
      rcases Option.bind_eq_some.1 h2 with ⟨later, h3, h4⟩
      rw [← Option.some.inj h4]
      exact (loop_deviations_spec _ dist _ _ _ _ entered later h3).2
  · intro ds entered passes h hp
    unfold recorded_deviations at h
    unfold recorded_passes at hp
    cases hc : create_distance_calculator self.m_metric p_data p_type with
    | error code => rw [hc] at h; cases h
    | ok dist =>
      rw [hc] at h hp
      simp only [Option.bind_eq_bind, Option.pure_def] at h hp
      rcases Option.bind_eq_some.1 h with ⟨entered1, h1, h2⟩
      rcases Option.bind_eq_some.1 h2 with ⟨later, h3, h4⟩
      rcases Option.bind_eq_some.1 hp with ⟨entered2, g1, g2⟩
      rcases Option.bind_eq_some.1 g2 with ⟨ps, g3, g4⟩
      rw [h1] at g1
      have he : entered1 = entered2 := Option.some.inj g1
      subst he
      have hpair := Option.some.inj g4
      have he2 : entered1 = entered := congrArg Prod.fst hpair
      have hps : ps = passes := congrArg Prod.snd hpair
      subst he2
      subst hps
      rcases loop_deviations_of_passes _ dist _ _ _ _ entered1 later ps h3 g3 with ⟨i1, i2⟩
      rw [← Option.some.inj h4]
      exact ⟨by rw [i1], i2⟩
  · intro r hr
    rcases (process_returned_iff self p_data p_type p_result r).1 hr with ⟨dist, hc, hrun⟩
    rcases process_run_eq_some self p_data.length dist p_result r hrun with
      ⟨entered, final, pruned, h1, h2, h3, rfl⟩
    rcases loop_deviations_last _ dist _ _ _ _ entered final h2 with ⟨later, hl1, hl2⟩
    rcases recorded_passes_of_run self p_data p_type p_result _ hr with
      ⟨_, entered2, ps, _, hrec, _⟩
    refine ⟨entered.result.total_deviation :: later, ?_, hl2, entered2, ps, hrec⟩
    unfold recorded_deviations
    rw [hc]
    simp only [h1, hl1, Option.bind_eq_bind, Option.some_bind, Option.pure_def]

theorem pair_passes :
    recorded_passes pair_solver pair_matrix data_t.DISTANCE_MATRIX kmedoids_data.empty
      = some (⟨⟨[[0, 1, 2, 3], []], [0, 1], 10, 0⟩, [0, 0, 0, 0], [0, 0, 5, 5], [0, 0, 5, 5]⟩,
          [(⟨⟨[[2, 3], [0, 1]], [2, 1], 0, 1⟩, [1, 1, 0, 0], [0, 0, 0, 0], [5, 5, 5, 5]⟩,
              some 10),
            (⟨⟨[[2, 3], [0, 1]], [2, 1], 0, 2⟩, [1, 1, 0, 0], [0, 0, 0, 0], [5, 5, 5, 5]⟩,
              none)]) := by
  decide!

theorem deviation_decreases_before_last_witness :
    List.Chain' (fun previous next => previous - next > line_solver.m_tolerance)
      ([3, 2, 3] : List ℚ).dropLast ∧
    List.Chain' (fun previous next => previous - next > pair_solver.m_tolerance)
      ([10, 0] : List ℚ) :=
  ⟨(deviation_decreases_before_last line_solver line_matrix data_t.DISTANCE_MATRIX
      kmedoids_data.empty).1 [3, 2, 3] (by decide!),
    ((deviation_decreases_before_last pair_solver pair_matrix data_t.DISTANCE_MATRIX
      kmedoids_data.empty).2.1 [10, 0] _ _ (by decide!) pair_passes).2 ⟨_, rfl, rfl⟩⟩

theorem rounding_candidate : swap_candidate 3 rounding_state 2 := by
  refine ⟨by decide, by decide, 1, rfl, by norm_num⟩

/-- C26 fails as stated, in `double` arithmetic: on three points at the distances
`1 + 2 ^ -52`, `1` and `2 ^ 53` with the point 0 as initial medoid, the swap costs of the
candidates 1 and 2 are both rounded to `2 ^ 53 - 1`, so the pass writes the candidate 1, the
first of the two, and records the total deviation `2 ^ 53 + 2`, while the candidate 2, a
non-medoid at the first distance 1, gives the total deviation `2 ^ 53`.  All distances are
non-negative `double` values, symmetric and zero from a point to itself.  In exact arithmetic
the same run writes the candidate 2. -/
theorem steepest_swap_counterexample :
    binary64.process rounding_solver rounding_matrix data_t.DISTANCE_MATRIX kmedoids_data.empty
      = outcome.returned ⟨[[0, 1, 2]], [1], 9007199254740994, 1⟩ ∧
    binary64.process_start rounding_solver 3
        (calculate_distance_using_distance_matrix rounding_matrix) kmedoids_data.empty
      = some { rounding_state with result := { rounding_state.result with iterations := 0 } } ∧
    binary64.calculate_swap_cost 3 (calculate_distance_using_distance_matrix rounding_matrix)
        rounding_state 1 0 = some 9007199254740991 ∧
    binary64.calculate_swap_cost 3 (calculate_distance_using_distance_matrix rounding_matrix)
        rounding_state 2 0 = some 9007199254740991 ∧
    binary64.iteration 3 (calculate_distance_using_distance_matrix rounding_matrix)
        { rounding_state with result := { rounding_state.result with iterations := 0 } }
      = some (⟨⟨[[0, 1, 2]], [1], 9007199254740994, 1⟩, [0, 0, 0],
          [1 + 1 / 4503599627370496, 0, 9007199254740992], [DBL_MAX, DBL_MAX, DBL_MAX]⟩,
          some (-9007199254740992)) ∧
    swap_candidate 3 rounding_state 2 ∧
    (binary64.update_clusters 3 (calculate_distance_using_distance_matrix rounding_matrix)
        { rounding_state with result :=
          { rounding_state.result with medoids := rounding_state.result.medoids.set 0 2 } }).map
        Prod.fst = some 9007199254740992 ∧
    (9007199254740992 : ℚ) < 9007199254740994 ∧
    (∀ d ∈ rounding_matrix.flatten, binary64.round_to_nearest d = some d ∧ 0 ≤ d) ∧
    (∀ i < 3, ∀ j < 3, calculate_distance_using_distance_matrix rounding_matrix i j
      = calculate_distance_using_distance_matrix rounding_matrix j i) ∧
    (∀ i < 3, calculate_distance_using_distance_matrix rounding_matrix i i = some 0) ∧
    process rounding_solver rounding_matrix data_t.DISTANCE_MATRIX kmedoids_data.empty
      = outcome.returned ⟨[[0, 1, 2]], [2], 9007199254740993, 1⟩ := by
  refine ⟨by decide!, by decide!, by decide!, by decide!, by decide!, rounding_candidate,
    by decide!, by norm_num, by decide!, by decide!, by decide!, by decide!⟩

end kmedoids
